import Mathlib

/-!
# bmp2raw: the image subsystem (`src/image.cpp`) and the palette loop of `src/main.cpp`

A shallow embedding of the BMP / PBM decoders and of the raster operations.

Conventions of the embedding.

* A buffer is a `List Nat`; a byte is a natural number, reduced `% 256` wherever the
  source reads it as part of a wider integer.  A null pointer is `none`.
* A pointer into a buffer is an offset into the list.  A store is `List.set`, a load
  is `getByte`.
* `int` variables are `Int`, fixed-width conversions are written out (`toInt32`,
  `toInt16`, `% 65536`, `% 2 ^ 32`).
* A file is the list of its bytes; `none` is a file that cannot be opened.
* Operations that can execute an integer division by zero return `Except Fault _`.
-/

set_option autoImplicit false

namespace Bmp2Raw

/-! ## Machine integers and memory -/

/-- Conversion of an unsigned value to `int` (two's complement, 32 bits). -/
def toInt32 (n : Nat) : Int :=
  if n % 2 ^ 32 < 2 ^ 31 then ((n % 2 ^ 32 : Nat) : Int) else ((n % 2 ^ 32 : Nat) : Int) - 2 ^ 32

/-- Conversion of an unsigned value to `int16_t`. -/
def toInt16 (n : Nat) : Int :=
  if n % 2 ^ 16 < 2 ^ 15 then ((n % 2 ^ 16 : Nat) : Int) else ((n % 2 ^ 16 : Nat) : Int) - 2 ^ 16

/-- Load of the byte at offset `i` (0 outside the buffer, where C leaves the load undefined). -/
def getByte (mem : List Nat) (i : Nat) : Nat := (mem[i]?).getD 0

/-- Sequential store of `bytes` from offset `off` on (what `istream::read` does with the
characters it extracts). -/
def writeAt : List Nat → Nat → List Nat → List Nat
  | mem, _, [] => mem
  | mem, off, b :: bs => writeAt (mem.set off b) (off + 1) bs

/-- Value of a little-endian byte string. -/
def leNat : List Nat → Nat
  | [] => 0
  | b :: bs => b % 256 + 256 * leNat bs

/-- The `size` bytes of `u`, least significant first. -/
def leBytes : Nat → Nat → List Nat
  | 0, _ => []
  | size + 1, u => u % 256 :: leBytes size (u / 256)

/-- Value of an unsigned integer whose object representation is `bs`, on a host of the
given byte order. -/
def fromBytes (littleEndian : Bool) (bs : List Nat) : Nat :=
  if littleEndian then leNat bs else leNat bs.reverse

/-- Object representation of the `size`-byte unsigned integer `u` on the host. -/
def toBytes (littleEndian : Bool) (size u : Nat) : List Nat :=
  if littleEndian then leBytes size u else (leBytes size u).reverse

/-- Model of `swap_endian<T>` with `sizeof(T) = size`: `dest.u8[k] = source.u8[size - k - 1]`. -/
def swap_endian (littleEndian : Bool) (size u : Nat) : Nat :=
  fromBytes littleEndian (toBytes littleEndian size u).reverse

/-! ## The raster buffer -/

/-- Modelled from the spec: `TImage` is declared in `image.hpp`, which is not among the
sources.  The spec gives it `width`, `height` (unsigned), `bitWidth`, an owned byte buffer
`data`, an optional palette `palt` of 32-bit entries and the entry count `colors`. -/
structure TImage where
  width : Nat
  height : Nat
  bitWidth : Nat
  colors : Nat
  data : Option (List Nat)
  palt : Option (List Nat)
  deriving DecidableEq, Repr

/-- The value of `TImage image = {0}`. -/
def TImage.zero : TImage :=
  { width := 0, height := 0, bitWidth := 0, colors := 0, data := none, palt := none }

/-- What the sources leave open: the byte order of the host (`__LITTLE_ENDIAN__` is taken
to be defined exactly on a little-endian host), the moduli of the integer types of the
`TImage` fields `width`/`height` and `colors` (their declaration is in `image.hpp`), and
the contents of storage the code reads before writing it (`stackJunk`: the header of
`loadBMPGraphicFile`, `probeJunk`: the header of `isBMP`, `heapJunk`: a block returned by
`new`).  `new` is taken to succeed whenever the requested size is representable. -/
structure Host where
  littleEndian : Bool
  dimMod : Nat
  colorsMod : Nat
  stackJunk : Nat → Nat
  probeJunk : Nat → Nat
  heapJunk : Nat → Nat

/-- Integer faults of the decoder. -/
inductive Fault where
  /-- An integer division whose divisor is zero. -/
  | divisionByZero
  /-- The divisor `8 / biBitCount` is negative: the quotient then depends on the
  declared type of `TImage.width`, which the sources do not contain. -/
  | negativeDivisor
  /-- A dimension or the byte count `width * height` reaches 2^31, where `int`
  arithmetic overflows. -/
  | sizeOverflow
  /-- The array size given to `new` is negative. -/
  | badAlloc
  /-- A load through a null `data` pointer. -/
  | nullData
  deriving DecidableEq, Repr

/-! ## Streams -/

/-- An opened `std::ifstream`: the bytes of the file, the get position, `eofbit` and
`failbit`. -/
structure IStream where
  content : List Nat
  pos : Nat
  eof : Bool
  fail : Bool
  deriving DecidableEq, Repr

/-- The stream right after a successful `open`. -/
def IStream.opened (content : List Nat) : IStream :=
  { content := content, pos := 0, eof := false, fail := false }

/-- Model of `good()`: neither `eofbit` nor `failbit` is set. -/
def IStream.good (s : IStream) : Bool := !s.eof && !s.fail

/-- Model of `infile.read(p, n)`: the characters extracted (their number is `gcount()`) and the
stream afterwards.  A stream that is not good extracts nothing and gets `failbit`; fewer
than `n` available characters set `eofbit` and `failbit`. -/
def IStream.read (s : IStream) (n : Nat) : List Nat × IStream :=
  if s.good then
    let got := (s.content.drop s.pos).take n
    if got.length < n then
      (got, { s with pos := s.pos + got.length, eof := true, fail := true })
    else
      (got, { s with pos := s.pos + got.length })
  else ([], { s with fail := true })

/-- Model of `infile.seekg(off, std::ios_base::cur)` with `off ≥ 0`: clears `eofbit`, and moves
the get position unless `failbit` is set. -/
def IStream.seekgCur (s : IStream) (off : Nat) : IStream :=
  if s.fail then { s with eof := false } else { s with pos := s.pos + off, eof := false }

/-- The characters up to the next newline (code 10). -/
def getlineChars : List Nat → List Nat
  | [] => []
  | c :: cs => if c = 10 then [] else c :: getlineChars cs

/-- Model of `getline(infile, str)`, `prev` being the value of `str` before the call: on a good
stream `str` receives the characters up to the next newline, which is consumed and not
stored; reaching the end of the file sets `eofbit`, and `failbit` too when nothing was
extracted.  On a stream that is not good `str` keeps its value. -/
def IStream.getline (s : IStream) (prev : List Nat) : List Nat × IStream :=
  if s.good then
    let rest := s.content.drop s.pos
    let line := getlineChars rest
    if line.length < rest.length then
      (line, { s with pos := s.pos + line.length + 1 })
    else
      (line, { s with pos := s.pos + line.length, eof := true, fail := decide (line.length = 0) })
  else (prev, { s with fail := true })

/-! ## `unpack4BitValues` and `flipImageVertically` -/

/-- The loop of `unpack4BitValues`, `k` iterations left: the next one has `i = k - 1` and
`j = 2 * i + 1`; the stores go to `dst[j]` and `dst[j-1]`.  `dst` and `src` are offsets into one memory, so they may alias. -/
def unpackLoop (dst src : Nat) : Nat → List Nat → List Nat
  | 0, mem => mem
  | k + 1, mem =>
    let v := getByte mem (src + k)
    let mem1 := mem.set (dst + (2 * k + 1)) (v % 16)
    let mem2 := mem1.set (dst + 2 * k) (v / 16 % 16)
    unpackLoop dst src k mem2

/-- Model of `unpack4BitValues(dst, src, length)`: `i` starts at `(int)length - 1` and runs down
to 0. -/
def unpack4BitValues (mem : List Nat) (dst src length : Nat) : List Nat :=
  unpackLoop dst src (toInt32 length).toNat mem

/-- Model of `std::swap(byte[a], byte[b])`. -/
def swapBytes (mem : List Nat) (a b : Nat) : List Nat :=
  let x := getByte mem a
  let y := getByte mem b
  (mem.set a y).set b x

/-- The body of `flipImageVertically` once the row stride `w` is known. -/
def flipRows (w h : Int) (mem : List Nat) : List Nat :=
  (List.range (h.tdiv 2).toNat).foldl
    (fun m row => (List.range w.toNat).foldl
      (fun m2 col => swapBytes m2 (col + row * w.toNat) (col + (h.toNat - 1 - row) * w.toNat)) m)
    mem

/-- Model of `flipImageVertically`: the new contents of `image.data`. -/
def flipImageVertically (image : TImage) : Except Fault (Option (List Nat)) :=
  match image.data with
  | none => .ok none
  | some mem =>
    let w := toInt32 image.width
    let h := toInt32 image.height
    let bw := toInt32 image.bitWidth
    if bw = 0 then .error .divisionByZero
    else if Int.tdiv 8 bw = 0 then .error .divisionByZero
    else .ok (some (flipRows (w.tdiv (Int.tdiv 8 bw)) h mem))

/-! ## The BMP decoder -/

/-- The packed `BIPHeader` (file header and info header, 54 bytes). -/
structure BIPHeader where
  bfType0 : Nat
  bfType1 : Nat
  bfSize : Nat
  bfReserved1 : Nat
  bfReserved2 : Nat
  bfOffBits : Nat
  biSize : Nat
  biWidth : Int
  biHeight : Int
  biPlanes : Int
  biBitCount : Int
  biCompression : Nat
  biSizeImage : Nat
  biXPelsPerMeter : Int
  biYPelsPerMeter : Int
  biClrUsed : Nat
  biClImportant : Nat
  deriving DecidableEq, Repr

/-- The storage of a block of `size` bytes after a `read` that extracted `got` into it:
the bytes not extracted keep what the block held before (`junk`). -/
def fillBlock (junk : Nat → Nat) (size : Nat) (got : List Nat) : List Nat :=
  (List.range size).map fun k => (got[k]?).getD (junk k % 256)

/-- The unsigned field of `size` bytes at offset `off` of a block. -/
def fieldAt (littleEndian : Bool) (block : List Nat) (off size : Nat) : Nat :=
  fromBytes littleEndian ((block.drop off).take size)

/-- The header as the host sees the 54 bytes of its storage. -/
def parseHeader (littleEndian : Bool) (block : List Nat) : BIPHeader :=
  { bfType0 := getByte block 0
    bfType1 := getByte block 1
    bfSize := fieldAt littleEndian block 2 4
    bfReserved1 := fieldAt littleEndian block 6 2
    bfReserved2 := fieldAt littleEndian block 8 2
    bfOffBits := fieldAt littleEndian block 10 4
    biSize := fieldAt littleEndian block 14 4
    biWidth := toInt32 (fieldAt littleEndian block 18 4)
    biHeight := toInt32 (fieldAt littleEndian block 22 4)
    biPlanes := toInt16 (fieldAt littleEndian block 26 2)
    biBitCount := toInt16 (fieldAt littleEndian block 28 2)
    biCompression := fieldAt littleEndian block 30 4
    biSizeImage := fieldAt littleEndian block 34 4
    biXPelsPerMeter := toInt32 (fieldAt littleEndian block 38 4)
    biYPelsPerMeter := toInt32 (fieldAt littleEndian block 42 4)
    biClrUsed := fieldAt littleEndian block 46 4
    biClImportant := fieldAt littleEndian block 50 4 }

/-- Model of `infile.read((char *)&bip_header, sizeof(BIPHeader))` into the uninitialised header. -/
def readHeader (host : Host) (s : IStream) : BIPHeader × IStream :=
  let r := s.read 54
  (parseHeader host.littleEndian (fillBlock host.stackJunk 54 r.1), r.2)

/-- Model of `strncmp(bfType, "BM", 2) == 0`. -/
def isBM (h : BIPHeader) : Bool := h.bfType0 == 66 && h.bfType1 == 77

/-- One palette entry, from the four bytes of its storage: the value the host reads,
`swap_endian` under `__LITTLE_ENDIAN__`, `>>= 8`, `|= 0xFF000000`. -/
def paletteEntry (littleEndian : Bool) (bytes : List Nat) : Nat :=
  let raw := fromBytes littleEndian bytes
  let swapped := if littleEndian then swap_endian littleEndian 4 raw else raw
  ((swapped >>> 8) ||| 0xFF000000) % 2 ^ 32

/-- The palette after the read of `4 * n` bytes and the conversion loop. -/
def loadPalette (host : Host) (n : Nat) (got : List Nat) : List Nat :=
  let block := fillBlock host.heapJunk (4 * n) got
  (List.range n).map fun i => paletteEntry host.littleEndian
    [getByte block (4 * i), getByte block (4 * i + 1), getByte block (4 * i + 2),
     getByte block (4 * i + 3)]

/-- The body of the scanline loop of `loadBMPGraphicFile` for row `r`
(`ptr = image.data + r * width`): the read, the padding skip and the unpacking.  The
first component is `false` when the read was short (`break`). -/
def readScanline (width length : Nat) (bitCount : Int) (r : Nat) (s : IStream)
    (mem : List Nat) : Bool × IStream × List Nat :=
  let rd := s.read length
  let mem1 := writeAt mem (r * width) rd.1
  if rd.1.length ≠ length then (false, rd.2, mem1)
  else
    let s2 := if length % 6 ≠ 0 then rd.2.seekgCur (length % 6) else rd.2
    let mem2 := if bitCount = 4 then unpack4BitValues mem1 (r * width) (r * width) length
                else mem1
    (true, s2, mem2)

/-- The scanline loop of `loadBMPGraphicFile`, `fuel` rows left, `r` the current row. -/
def readRows (width length : Nat) (bitCount : Int) :
    Nat → Nat → IStream → List Nat → IStream × List Nat
  | 0, _, s, mem => (s, mem)
  | fuel + 1, r, s, mem =>
    let st := readScanline width length bitCount r s mem
    if st.1 then readRows width length bitCount fuel (r + 1) st.2.1 st.2.2
    else (st.2.1, st.2.2)

/-- Model of `size_t length = image.width / (8 / bip_header.biBitCount)`. -/
def rowLength (width : Nat) (bitCount : Int) : Except Fault Nat :=
  if bitCount = 0 then .error .divisionByZero
  else if Int.tdiv 8 bitCount = 0 then .error .divisionByZero
  else if Int.tdiv 8 bitCount < 0 then .error .negativeDivisor
  else .ok (width / (Int.tdiv 8 bitCount).toNat)

/-- Model of `loadBMPGraphicFile`; `file = none` is a file that cannot be opened. -/
def loadBMPGraphicFile (host : Host) (file : Option (List Nat)) : Except Fault TImage :=
  match file with
  | none => .ok TImage.zero
  | some content =>
    let hs := readHeader host (IStream.opened content)
    let hdr := hs.1
    if !isBM hdr then .ok TImage.zero
    else
      let width := hdr.biWidth.natAbs % host.dimMod
      let height := hdr.biHeight.natAbs % host.dimMod
      if 2 ^ 31 ≤ width ∨ 2 ^ 31 ≤ height ∨ 2 ^ 31 ≤ width * height then
        .error .sizeOverflow
      else
        let data0 := List.replicate (width * height) 0
        let pr := if hdr.biClrUsed ≠ 0 then hs.2.read (hdr.biClrUsed * 4) else ([], hs.2)
        let colors := if hdr.biClrUsed ≠ 0 then hdr.biClrUsed % host.colorsMod else 0
        let palt := if hdr.biClrUsed ≠ 0 then some (loadPalette host hdr.biClrUsed pr.1)
                    else none
        match rowLength width hdr.biBitCount with
        | .error e => .error e
        | .ok length =>
          let rows := readRows width length hdr.biBitCount height 0 pr.2 data0
          let image : TImage :=
            { width := width, height := height, bitWidth := 8, colors := colors,
              data := some rows.2, palt := palt }
          if 0 < hdr.biHeight then
            match flipImageVertically image with
            | .error e => .error e
            | .ok d => .ok { image with data := d }
          else .ok image

/-! ## The PBM decoder and `loadImage` -/

/-- Model of `isBMP`: the probe reads the header into its own uninitialised storage. -/
def isBMP (host : Host) (file : Option (List Nat)) : Bool :=
  match file with
  | none => false
  | some content =>
    let r := (IStream.opened content).read 54
    isBM (parseHeader host.littleEndian (fillBlock host.probeJunk 54 r.1))

/-- The string `"P4"`. -/
def magicP4 : List Nat := [80, 52]

/-- Model of `isPBM`. -/
def isPBM (file : Option (List Nat)) : Bool :=
  match file with
  | none => false
  | some content => decide (((IStream.opened content).getline []).1 = magicP4)

/-- Model of `isspace` in the C locale. -/
def isSpace (c : Nat) : Bool := c == 32 || (9 ≤ c && c ≤ 13)

/-- Model of `isdigit`. -/
def isDigit (c : Nat) : Bool := 48 ≤ c && c ≤ 57

/-- The digit loop of `atoi`. -/
def atoiDigits : Nat → List Nat → Nat
  | acc, [] => acc
  | acc, c :: cs => if isDigit c then atoiDigits (acc * 10 + (c - 48)) cs else acc

/-- The sign and the digits of `atoi`. -/
def atoiSigned : List Nat → Int
  | [] => 0
  | c :: cs =>
    if c = 45 then -((atoiDigits 0 cs : Nat) : Int)
    else if c = 43 then ((atoiDigits 0 cs : Nat) : Int)
    else ((atoiDigits 0 (c :: cs) : Nat) : Int)

/-- Model of `atoi(s.c_str())`: leading white space, an optional sign, decimal digits (the value
is exact; beyond the range of `int` C leaves it undefined). -/
def atoi (s : List Nat) : Int := atoiSigned (s.dropWhile isSpace)

/-- Store of an `int` into an unsigned field of modulus `m`. -/
def toField (m : Nat) (v : Int) : Nat := (v % (m : Int)).toNat

/-- Model of `loadPBMGraphicFile`; `file = none` is a file that cannot be opened. -/
def loadPBMGraphicFile (host : Host) (file : Option (List Nat)) : TImage :=
  match file with
  | none => TImage.zero
  | some content =>
    let l1 := (IStream.opened content).getline []
    if l1.1 ≠ magicP4 then TImage.zero
    else
      let l2 := l1.2.getline l1.1
      let width := toField host.dimMod (atoi l2.1)
      let l3 := l2.2.getline l2.1
      let height := toField host.dimMod (atoi l3.1)
      let length := ((width + 7) >>> 3) * height
      let rd := l3.2.read length
      { width := width, height := height, bitWidth := 1, colors := 0,
        data := some (fillBlock host.heapJunk length rd.1), palt := none }

/-- Model of `loadImage`. -/
def loadImage (host : Host) (file : Option (List Nat)) : Except Fault TImage :=
  if isBMP host file then loadBMPGraphicFile host file
  else if isPBM file then .ok (loadPBMGraphicFile host file)
  else .ok TImage.zero

/-! ## Raster operations -/

/-- Model of `createPixmap(w, h)`: the block is not initialised. -/
def createPixmap (host : Host) (w h : Int) : Except Fault TImage :=
  if w * h < 0 then .error .badAlloc
  else if 2 ^ 31 ≤ w * h then .error .sizeOverflow
  else .ok { width := toField host.dimMod w, height := toField host.dimMod h, bitWidth := 8,
             colors := 0, data := some (fillBlock host.heapJunk (w * h).toNat []), palt := none }

/-- The stores of `copyPixmap` into the bytes `d` of `dst`, reading the bytes `s` of a
distinct buffer `src`; `w` and `h` are the `uint16_t` parameters. -/
def copyLoop (d : List Nat) (dstWidth : Nat) (dx dy : Int) (s : List Nat) (srcWidth : Nat)
    (x y : Int) (w h : Nat) : List Nat :=
  (List.range h).foldl
    (fun (m : List Nat) (j : Nat) => (List.range w).foldl
      (fun (m2 : List Nat) (i : Nat) =>
        m2.set ((i : Int) + dx + ((j : Int) + dy) * (dstWidth : Int)).toNat
          (getByte s ((i : Int) + x + ((j : Int) + y) * (srcWidth : Int)).toNat)) m)
    d

/-- Model of `copyPixmap(dst, dx, dy, src, x, y, w, h)` for two distinct buffers: `dst` afterwards.
The arguments `w` and `h` are converted to `uint16_t`. -/
def copyPixmap (dst : TImage) (dx dy : Int) (src : TImage) (x y : Int) (w h : Nat) : TImage :=
  match dst.data, src.data with
  | some d, some s =>
    { dst with data := some (copyLoop d dst.width dx dy s src.width x y (w % 65536) (h % 65536)) }
  | _, _ => dst

/-- The variables of the loops of `convertMonochromeBitmapToPixmap`: the offsets of `src`
and `dest`, `bitPosition`, and the output block. -/
structure ConvState where
  src : Nat
  dest : Nat
  bitPosition : Nat
  out : List Nat
  deriving DecidableEq, Repr

/-- One pixel: `*dest++ = (*src & bitPosition ? 1 : 0)` and the update of `bitPosition`. -/
def convPixel (mono : List Nat) (st : ConvState) : ConvState :=
  let v := if getByte mono st.src &&& st.bitPosition ≠ 0 then 1 else 0
  let out := st.out.set st.dest v
  if st.bitPosition = 1 then
    { src := st.src + 1, dest := st.dest + 1, bitPosition := 1 <<< 7, out := out }
  else
    { src := st.src, dest := st.dest + 1, bitPosition := st.bitPosition >>> 1, out := out }

/-- One row: `bitPosition = 1 << 7`, `width` pixels, then `if (x & 7) src++`. -/
def convRow (mono : List Nat) (width : Nat) (st : ConvState) : ConvState :=
  let st1 := (List.range width).foldl (fun s _ => convPixel mono s)
    { st with bitPosition := 1 <<< 7 }
  if width &&& 7 ≠ 0 then { st1 with src := st1.src + 1 } else st1

/-- The loops of `convertMonochromeBitmapToPixmap` over the source bytes `mono`, from the
zero-filled block of `width * height` bytes on. -/
def convLoop (mono : List Nat) (width height : Nat) : ConvState :=
  (List.range height).foldl (fun s _ => convRow mono width s)
    { src := 0, dest := 0, bitPosition := 1 <<< 7, out := List.replicate (width * height) 0 }

/-- Model of `convertMonochromeBitmapToPixmap`.  The byte count `image.width * image.height`
and the `int` loop counters are exact below 2^31 only (`sizeOverflow` beyond, as in
`loadBMPGraphicFile`); the loop body loads `*src`, so a null `monochrome.data` is a fault
as soon as there is a pixel to convert. -/
def convertMonochromeBitmapToPixmap (monochrome : TImage) : Except Fault TImage :=
  if 2 ^ 31 ≤ monochrome.width ∨ 2 ^ 31 ≤ monochrome.height
      ∨ 2 ^ 31 ≤ monochrome.width * monochrome.height then
    .error .sizeOverflow
  else
    match monochrome.data with
    | none =>
      if monochrome.width = 0 ∨ monochrome.height = 0 then
        .ok { width := monochrome.width, height := monochrome.height, bitWidth := 8,
              colors := 0, data := some (convLoop [] monochrome.width monochrome.height).out,
              palt := none }
      else .error .nullData
    | some mono =>
      .ok { width := monochrome.width, height := monochrome.height, bitWidth := 8,
            colors := 0, data := some (convLoop mono monochrome.width monochrome.height).out,
            palt := none }

/-- Model of `reset`. -/
def reset (_image : TImage) : TImage := TImage.zero

/-- The rows scanned by `containsImage` (`while (h--)`), `p` the offset of the current
row: `true` as soon as a byte of the row is not zero. -/
def containsRows (mem : List Nat) (width w : Nat) : Nat → Nat → Bool
  | 0, _ => false
  | h + 1, p =>
    if (List.range w).any (fun i => getByte mem (p + i) != 0) then true
    else containsRows mem width w h (p + width)

/-- Model of `containsImage(image, x, y, w, h)`; the four arguments are `uint16_t`. -/
def containsImage (image : TImage) (x y w h : Nat) : Bool :=
  match image.data with
  | none => false
  | some mem =>
    if x % 65536 + w % 65536 > image.width ∨ y % 65536 + h % 65536 > image.height then false
    else containsRows mem image.width (w % 65536) (h % 65536)
      (x % 65536 + y % 65536 * image.width)

/-- The four bounds tracked by `extractImageSectionMasked`. -/
structure Bounds where
  minX : Int
  maxX : Int
  minY : Int
  maxY : Int
  deriving DecidableEq, Repr

/-- The body of the scan at pixel `(x, y)`. -/
def scanPixel (p : List Nat) (width maskColor : Nat) (y x : Nat) (b : Bounds) : Bounds :=
  if getByte p (x + y * width) = maskColor then b
  else
    let b1 := if b.minX > (x : Int) then { b with minX := x } else b
    let b2 := if b1.maxX < (x : Int) then { b1 with maxX := x } else b1
    let b3 := if b2.minY > (y : Int) then { b2 with minY := y } else b2
    if b3.maxY < (y : Int) then { b3 with maxY := y } else b3

/-- The scan of `extractImageSectionMasked` over all rows and columns. -/
def scanBounds (p : List Nat) (width height maskColor : Nat) : Bounds :=
  (List.range height).foldl
    (fun b y => (List.range width).foldl (fun b2 x => scanPixel p width maskColor y x b2) b)
    { minX := (width : Int) - 1, maxX := 0, minY := (height : Int) - 1, maxY := 0 }

/-- Model of `extractImageSectionMasked(image, maskColor)`; `maskColor` is a `uint8_t`. -/
def extractImageSectionMasked (host : Host) (image : TImage) (maskColor : Nat) :
    Except Fault TImage :=
  match image.data with
  | none => .ok image
  | some p =>
    let b := scanBounds p image.width image.height (maskColor % 256)
    if b.maxX < b.minX ∨ b.maxY < b.minY then .ok image
    else
      let width := b.maxX - b.minX + 1
      let height := b.maxY - b.minY + 1
      match createPixmap host width height with
      | .error e => .error e
      | .ok extractedImage =>
        .ok (copyPixmap extractedImage 0 0 image b.minX b.minY width.toNat height.toNat)

/-- Model of `extractImageSection`. -/
def extractImageSection (host : Host) (image : TImage) : Except Fault TImage :=
  extractImageSectionMasked host image 0

/-! ## Vocabulary of the claims -/

/-- The `x`-th `b`-bit sample of a stored scanline, most significant bits first within
each byte. -/
def sampleAt (b : Nat) (line : List Nat) (x : Nat) : Nat :=
  (getByte line (x / (8 / b)) >>> (8 - b - b * (x % (8 / b)))) % 2 ^ b

/-- A host with a little-endian byte order, 16-bit `width`/`height`/`colors` fields and
zero-filled fresh storage. -/
def hostLE16 : Host :=
  { littleEndian := true, dimMod := 2 ^ 16, colorsMod := 2 ^ 16,
    stackJunk := fun _ => 0, probeJunk := fun _ => 0, heapJunk := fun _ => 0 }

/-- The host `hostLE16` with 32-bit `width`/`height`/`colors` fields. -/
def hostLE32 : Host :=
  { littleEndian := true, dimMod := 2 ^ 32, colorsMod := 2 ^ 32,
    stackJunk := fun _ => 0, probeJunk := fun _ => 0, heapJunk := fun _ => 0 }

/-- The host `hostLE16` with an 8-bit `colors` field. -/
def hostLE8 : Host :=
  { littleEndian := true, dimMod := 2 ^ 16, colorsMod := 2 ^ 8,
    stackJunk := fun _ => 0, probeJunk := fun _ => 0, heapJunk := fun _ => 0 }

/-- The 54 header bytes of a BMP, little-endian, with the given width, height, bit count
and colors-used fields (the other fields are zero, `biPlanes` is 1). -/
def bmpHeader (w h bitCount clrUsed : Nat) : List Nat :=
  [66, 77] ++ List.replicate 16 0 ++ leBytes 4 w ++ leBytes 4 h ++ [1, 0] ++ leBytes 2 bitCount
    ++ List.replicate 16 0 ++ leBytes 4 clrUsed ++ [0, 0, 0, 0]

/-- The value `convertMonochromeBitmapToPixmap` is to give pixel `(x, y)` of a 1-bit raster
of width `w`: 1 if bit `7 - x mod 8` of byte `y * ceil(w/8) + x div 8` is set, else 0. -/
def monoPixel (mono : List Nat) (w x y : Nat) : Nat :=
  if (getByte mono (y * ((w + 7) / 8) + x / 8)).testBit (7 - x % 8) then 1 else 0

/-- The decimal digits of `n` prepended to `acc`, most significant first, as character
codes; `fuel` bounds the number of digits. -/
def decimalAux : Nat → Nat → List Nat → List Nat
  | 0, _, acc => acc
  | fuel + 1, n, acc =>
    if n < 10 then (48 + n) :: acc else decimalAux fuel (n / 10) ((48 + n % 10) :: acc)

/-- The decimal numeral of `n` as character codes (`decimal 0` is `"0"`). -/
def decimal (n : Nat) : List Nat := decimalAux (n + 1) n []

/-- A binary PBM file: `"P4\n"`, the decimal width, `"\n"`, the decimal height, `"\n"`
and the payload. -/
def pbmFile (w h : Nat) (payload : List Nat) : List Nat :=
  magicP4 ++ [10] ++ decimal w ++ [10] ++ decimal h ++ [10] ++ payload

/-- A list of decimal digits that `atoi` reads back as `n`. -/
def ReadsAs (ds : List Nat) (n : Nat) : Prop :=
  ds ≠ [] ∧ (∀ c ∈ ds, isDigit c = true) ∧
    ∀ a tail, atoiDigits a (ds ++ tail) = atoiDigits (a * 10 ^ ds.length + n) tail

/-- The palette invariant of the data model: no palette and `colors = 0`, or a palette
of exactly `colors` entries with `colors ≤ 256`. -/
def PaletteInvariant (img : TImage) : Prop :=
  match img.palt with
  | none => img.colors = 0
  | some p => p.length = img.colors ∧ img.colors ≤ 256

/-! ## Loop invariants -/

/-- The state after `n` pixels of a row that started at source offset `s0` and
destination offset `d0` with the output block `o`. -/
def RowInv (mono : List Nat) (s0 d0 : Nat) (o : List Nat) (n : Nat) (st : ConvState) : Prop :=
  st.src = s0 + n / 8 ∧ st.bitPosition = 2 ^ (7 - n % 8) ∧ st.dest = d0 + n
    ∧ st.out.length = o.length
    ∧ ∀ k, st.out[k]? =
        if d0 ≤ k ∧ k < d0 + n ∧ k < o.length then
          some (if (getByte mono (s0 + (k - d0) / 8)).testBit (7 - (k - d0) % 8) then 1 else 0)
        else o[k]?

/-- The state after `y` rows of an image of width `w` and height `h`. -/
def ImageInv (mono : List Nat) (w h y : Nat) (st : ConvState) : Prop :=
  st.src = y * ((w + 7) / 8) ∧ st.dest = y * w ∧ st.out.length = w * h
    ∧ ∀ y' x, y' < y → x < w → st.out[y' * w + x]? = some (monoPixel mono w x y')

/-- The bounds `b` after the scan has visited the non-mask pixels `S` of a `W x H` image:
every visited pixel lies within the bounds, and each bound is its initial value or the
coordinate of a visited pixel. -/
def ScanInv (W H : Nat) (S : Nat → Nat → Prop) (b : Bounds) : Prop :=
  (∀ x y, S x y → b.minX ≤ (x : Int) ∧ (x : Int) ≤ b.maxX ∧ b.minY ≤ (y : Int) ∧ (y : Int) ≤ b.maxY)
    ∧ (b.minX = (W : Int) - 1 ∨ ∃ x y, S x y ∧ b.minX = (x : Int))
    ∧ (b.maxX = 0 ∨ ∃ x y, S x y ∧ b.maxX = (x : Int))
    ∧ (b.minY = (H : Int) - 1 ∨ ∃ x y, S x y ∧ b.minY = (y : Int))
    ∧ (b.maxY = 0 ∨ ∃ x y, S x y ∧ b.maxY = (y : Int))

/-- The destination after the first `i0` columns of row `j` have been copied into `m0`. -/
def CopyRowInv (s : List Nat) (dstW srcW dx dy x y j : Nat) (m0 : List Nat) (i0 : Nat)
    (m : List Nat) : Prop :=
  m.length = m0.length
    ∧ (∀ i, i < i0 → m[i + dx + (j + dy) * dstW]? = some (getByte s (i + x + (j + y) * srcW)))
    ∧ (∀ k, (∀ i, i < i0 → k ≠ i + dx + (j + dy) * dstW) → m[k]? = m0[k]?)

/-- The destination after the first `j0` rows of the rectangle have been copied into `d`. -/
def CopyInv (d s : List Nat) (dstW srcW dx dy x y w j0 : Nat) (m : List Nat) : Prop :=
  m.length = d.length
    ∧ (∀ i j, i < w → j < j0 →
        m[i + dx + (j + dy) * dstW]? = some (getByte s (i + x + (j + y) * srcW)))
    ∧ (∀ k, (∀ i j, i < w → j < j0 → k ≠ i + dx + (j + dy) * dstW) → m[k]? = d[k]?)

/-- A good stream on `content` at position `pos`. -/
def streamAt (content : List Nat) (pos : Nat) : IStream :=
  { content := content, pos := pos, eof := false, fail := false }

/-- The stream after the header has been read. -/
def afterHeader (file : List Nat) : IStream :=
  { content := file, pos := 54, eof := false, fail := false }

/-- Re-packing of `n` pairs of one-byte samples into bytes, high nibble first: byte `i` is
`d[2i] * 16 + d[2i+1]`. -/
def repack4BitValues (d : List Nat) (n : Nat) : List Nat :=
  (List.range n).map fun i => getByte d (2 * i) * 16 + getByte d (2 * i + 1)

/-- The 3x3 pixmap with the pixels 5 at `(2, 1)` and 6 at `(1, 2)`, all others 0. -/
def sampleImage : TImage :=
  { width := 3, height := 3, bitWidth := 8, colors := 0,
    data := some [0, 0, 0, 0, 0, 5, 0, 6, 0], palt := none }

/-- A 2x2 pixmap with the pixels 1, 2, 3, 4. -/
def smallImage : TImage :=
  { width := 2, height := 2, bitWidth := 8, colors := 0, data := some [1, 2, 3, 4],
    palt := none }

/-! ## The palette loop of `main.cpp` -/

/-- Model of `convertRGBA8888ToRGB565` (`main.cpp`).  The fields of the bit-field structs
are taken from the least significant bit on in declaration order on a little-endian host,
and from the most significant bit on a big-endian host (the layout of GCC and Clang);
`RGBA8888` is declared `r g b a` under `__LITTLE_ENDIAN__` and `a b g r` otherwise, so `r`
is bits 0-7 of the argument on both.  A store into a field keeps the low bits that fit. -/
def convertRGBA8888ToRGB565 (littleEndian : Bool) (rgba8888Value : Nat) : Nat :=
  let r := rgba8888Value % 256
  let g := rgba8888Value / 2 ^ 8 % 256
  let b := rgba8888Value / 2 ^ 16 % 256
  let r5 := (r >>> 3) % 2 ^ 5
  let g6 := (g >>> 2) % 2 ^ 6
  let b5 := (b >>> 3) % 2 ^ 5
  if littleEndian then
    let v := b5 + 2 ^ 5 * g6 + 2 ^ 11 * r5
    ((v >>> 8) ||| (v <<< 8)) % 2 ^ 16
  else
    b5 * 2 ^ 11 + g6 * 2 ^ 5 + r5

/-- The two bytes that `out_file.write((const char *)&palt[*pixel], sizeof(uint16_t))`
emits for a pixel whose palette entry is `entry`. -/
def emittedPixel (littleEndian : Bool) (entry : Nat) : List Nat :=
  toBytes littleEndian 2 (convertRGBA8888ToRGB565 littleEndian entry)

/-- The buffer `m` while `flipImageVertically` works on `mem` (stride `W`, `H` rows): the
rows below `r` and from `H - r` on are exchanged with their mirror rows, and so are the
first `c` columns of the rows `r` and `H - 1 - r`; everything else is as in `mem`. -/
def FlipInv (W H : Nat) (mem : List Nat) (r c : Nat) (m : List Nat) : Prop :=
  m.length = mem.length
    ∧ (∀ col row, col < W → row < H →
        m[col + row * W]? =
          mem[col + (if (row < r ∨ H - r ≤ row) ∨ ((row = r ∨ row + r + 1 = H) ∧ col < c)
                     then H - 1 - row else row) * W]?)
    ∧ ∀ k, W * H ≤ k → m[k]? = mem[k]?

/-- The 2x1 monochrome raster `[0x80]` (one row of one byte). -/
def monoImage : TImage :=
  { width := 2, height := 1, bitWidth := 1, colors := 0, data := some [128], palt := none }

/-- The 62-byte 8-bit BMP of width 2 and height 2 (bottom-up) with the scanlines `3 4`
and `1 2`, each followed by two padding bytes. -/
def bmpFile2x2 : List Nat := bmpHeader 2 2 8 0 ++ [3, 4, 0, 0, 1, 2, 0, 0]

/-- Two streams that cannot be told apart by reading: the same bytes ahead and the same
state bits. -/
def StreamSim (s1 s2 : IStream) : Prop :=
  s1.content.drop s1.pos = s2.content.drop s2.pos ∧ s1.eof = s2.eof ∧ s1.fail = s2.fail

/-- The 62-byte file `bmpFile2x2` with the header height -2 (top-down). -/
def bmpFile2x2TopDown : List Nat :=
  bmpHeader 2 (2 ^ 32 - 2) 8 0 ++ [3, 4, 0, 0, 1, 2, 0, 0]

/-- The header of `bmpFile2x2` as a little-endian host parses it. -/
def header2x2 : BIPHeader := parseHeader true (bmpFile2x2.take 54)

/-- The header of `bmpFile2x2TopDown` as a little-endian host parses it. -/
def header2x2TopDown : BIPHeader := parseHeader true (bmpFile2x2TopDown.take 54)

/-- The number of bytes of a row that the loop body of `loadBMPGraphicFile` stores to for
a scanline of `length` bytes: `2 * length` after `unpack4BitValues`, else `length`. -/
def rowFootprint (b : Int) (length : Nat) : Nat := if b = 4 then 2 * length else length

/-- An 8-bit BMP of width 2 and height 3 (bottom-up) that ends inside its second
scanline: the scanline `3 4` with two padding bytes, then the single byte `1`. -/
def bmpFileShort : List Nat := bmpHeader 2 3 8 0 ++ [3, 4, 0, 0, 1]

/-- The header of `bmpFileShort` as a little-endian host parses it. -/
def headerShort : BIPHeader := parseHeader true (bmpFileShort.take 54)

/-- The 2x2 pixmap that cropping `sampleImage` with the mask colour 0 yields. -/
def croppedSample : TImage :=
  { width := 2, height := 2, bitWidth := 8, colors := 0, data := some [0, 5, 6, 0],
    palt := none }

instance instDecidableEqExcept {ε α : Type} [DecidableEq ε] [DecidableEq α] :
    DecidableEq (Except ε α) := fun a b =>
  match a, b with
  | .ok x, .ok y => if h : x = y then isTrue (by rw [h]) else isFalse (fun e => h (by cases e; rfl))
  | .error x, .error y =>
    if h : x = y then isTrue (by rw [h]) else isFalse (fun e => h (by cases e; rfl))
  | .ok _, .error _ => isFalse (fun e => by cases e)
  | .error _, .ok _ => isFalse (fun e => by cases e)

/-! ## Memory lemmas -/

theorem toInt32_of_lt {n : Nat} (h : n < 2 ^ 31) : toInt32 n = (n : Int) := by
  unfold toInt32
  have h1 : n % 2 ^ 32 = n := Nat.mod_eq_of_lt (by omega)
  rw [h1, if_pos h]

theorem getByte_eq_of_getElem? {mem : List Nat} {i v : Nat} (h : mem[i]? = some v) :
    getByte mem i = v := by
  simp [getByte, h]

theorem length_writeAt (bs : List Nat) : ∀ (mem : List Nat) (off : Nat),
    (writeAt mem off bs).length = mem.length := by
  induction bs with
  | nil => intro mem off; rfl
  | cons b bs ih => intro mem off; simp [writeAt, ih]

theorem getElem?_writeAt (bs : List Nat) : ∀ (mem : List Nat) (off k : Nat),
    (writeAt mem off bs)[k]? =
      if off ≤ k ∧ k < off + bs.length ∧ k < mem.length then bs[k - off]? else mem[k]? := by
  induction bs with
  | nil =>
    intro mem off k
    have h : ¬ (off ≤ k ∧ k < off + ([] : List Nat).length ∧ k < mem.length) := by
      simp only [List.length_nil]; omega
    rw [if_neg h]; rfl
  | cons b bs ih =>
    intro mem off k
    rw [writeAt, ih]
    simp only [List.length_set, List.length_cons, List.getElem?_set]
    by_cases h1 : off = k
    · subst h1
      by_cases h4 : off < mem.length
      · simp [h4]
      · simp [h4]
        omega
    · by_cases h2 : off + 1 ≤ k ∧ k < off + 1 + bs.length ∧ k < mem.length
      · have h3 : off ≤ k ∧ k < off + (bs.length + 1) ∧ k < mem.length := by omega
        rw [if_pos h2, if_pos h3]
        have : k - off = (k - (off + 1)) + 1 := by omega
        rw [this, List.getElem?_cons_succ]
      · have h3 : ¬ (off ≤ k ∧ k < off + (bs.length + 1) ∧ k < mem.length) := by omega
        rw [if_neg h2, if_neg h3, if_neg h1]

theorem length_unpackLoop (dst src : Nat) : ∀ (k : Nat) (mem : List Nat),
    (unpackLoop dst src k mem).length = mem.length := by
  intro k
  induction k with
  | zero => intro mem; rfl
  | succ k ih => intro mem; simp [unpackLoop, ih]

/-- The effect of the unpacking loop on every byte of the memory, when no store can hit
a source byte that is still to be read. -/
theorem getElem?_unpackLoop (dst src : Nat) : ∀ (k : Nat) (mem : List Nat),
    (∀ i, i < k → ∀ t, t < i → src + t ≠ dst + 2 * i ∧ src + t ≠ dst + 2 * i + 1) →
    dst + 2 * k ≤ mem.length → ∀ idx,
    (unpackLoop dst src k mem)[idx]? =
      if dst ≤ idx ∧ idx < dst + 2 * k then
        some (if (idx - dst) % 2 = 0 then getByte mem (src + (idx - dst) / 2) / 16 % 16
              else getByte mem (src + (idx - dst) / 2) % 16)
      else mem[idx]? := by
  intro k
  induction k with
  | zero =>
    intro mem _ _ idx
    have : ¬ (dst ≤ idx ∧ idx < dst + 2 * 0) := by omega
    rw [if_neg this]; rfl
  | succ k ih =>
    intro mem hno hlen idx
    have hno2 : ∀ i, i < k → ∀ t, t < i → src + t ≠ dst + 2 * i ∧ src + t ≠ dst + 2 * i + 1 :=
      fun i hi t ht => hno i (by omega) t ht
    have hkeep : ∀ t, t < k →
        getByte ((mem.set (dst + (2 * k + 1)) (getByte mem (src + k) % 16)).set (dst + 2 * k)
          (getByte mem (src + k) / 16 % 16)) (src + t) = getByte mem (src + t) := by
      intro t ht
      have h := hno k (by omega) t ht
      unfold getByte
      rw [List.getElem?_set, List.getElem?_set]
      rw [if_neg (by omega), if_neg (by omega)]
    rw [unpackLoop, ih _ hno2 (by simp; omega)]
    by_cases hin : dst ≤ idx ∧ idx < dst + 2 * k
    · have hin2 : dst ≤ idx ∧ idx < dst + 2 * (k + 1) := by omega
      rw [if_pos hin, if_pos hin2, hkeep _ (by omega)]
    · rw [if_neg hin]
      by_cases hin2 : dst ≤ idx ∧ idx < dst + 2 * (k + 1)
      · rw [if_pos hin2]
        rw [List.getElem?_set, List.getElem?_set]
        obtain ⟨m, rfl⟩ : ∃ m, idx = dst + m := ⟨idx - dst, by omega⟩
        rw [Nat.add_sub_cancel_left]
        by_cases he : m = 2 * k
        · subst he
          have h1 : (2 * k) % 2 = 0 := by omega
          have h2 : (2 * k) / 2 = k := by omega
          have h3 : dst + 2 * k < (mem.set (dst + (2 * k + 1)) (getByte mem (src + k) % 16)).length := by
            rw [List.length_set]; omega
          rw [if_pos rfl, if_pos h3, if_pos h1, h2]
        · have he2 : m = 2 * k + 1 := by omega
          subst he2
          have h1 : ¬ (2 * k + 1) % 2 = 0 := by omega
          have h2 : (2 * k + 1) / 2 = k := by omega
          have h3 : dst + (2 * k + 1) < mem.length := by omega
          rw [if_neg (by omega), if_pos rfl, if_pos h3, if_neg h1, h2]
      · rw [if_neg hin2, List.getElem?_set, List.getElem?_set]
        rw [if_neg (by omega), if_neg (by omega)]

/-! ## Stream lemmas -/

theorem read_of_available (s : IStream) (n : Nat) (hgood : s.good = true)
    (havail : n ≤ (s.content.drop s.pos).length) :
    s.read n = ((s.content.drop s.pos).take n, { s with pos := s.pos + n }) := by
  have hl : ((s.content.drop s.pos).take n).length = n := by
    rw [List.length_take]; omega
  unfold IStream.read
  rw [if_pos hgood]
  simp only [hl, lt_irrefl, if_false]

theorem getByte_writeAt_of_lt (mem bs : List Nat) (off k : Nat) (hk : k < bs.length)
    (hmem : off + bs.length ≤ mem.length) :
    getByte (writeAt mem off bs) (off + k) = getByte bs k := by
  unfold getByte
  rw [getElem?_writeAt, if_pos (by omega), Nat.add_sub_cancel_left]

theorem getByte_take_of_lt (l : List Nat) (n k : Nat) (hk : k < n) :
    getByte (l.take n) k = getByte l k := by
  unfold getByte
  rw [List.getElem?_take_of_lt hk]

theorem getElem?_eq_some_getByte (l : List Nat) (k : Nat) (hk : k < l.length) :
    l[k]? = some (getByte l k) := by
  unfold getByte
  rw [List.getElem?_eq_getElem hk]; rfl

/-! ## The decoder on a file with a complete header -/

theorem length_fillBlock (junk : Nat → Nat) (size : Nat) (got : List Nat) :
    (fillBlock junk size got).length = size := by
  simp [fillBlock]

theorem getElem?_fillBlock (junk : Nat → Nat) (size : Nat) (got : List Nat) (k : Nat)
    (hk : k < size) :
    (fillBlock junk size got)[k]? = some ((got[k]?).getD (junk k % 256)) := by
  simp [fillBlock, List.getElem?_range hk]

theorem fillBlock_of_length (junk : Nat → Nat) (got : List Nat) :
    fillBlock junk got.length got = got := by
  apply List.ext_getElem?
  intro k
  by_cases hk : k < got.length
  · rw [getElem?_fillBlock _ _ _ _ hk, List.getElem?_eq_getElem hk]; rfl
  · rw [List.getElem?_eq_none (by rw [length_fillBlock]; omega),
      List.getElem?_eq_none (by omega)]

theorem readHeader_of_length (host : Host) (file : List Nat) (h54 : 54 ≤ file.length) :
    readHeader host (IStream.opened file)
      = (parseHeader host.littleEndian (file.take 54), afterHeader file) := by
  have hl : (file.take 54).length = 54 := by rw [List.length_take]; omega
  unfold readHeader
  rw [read_of_available (IStream.opened file) 54 rfl (by simpa [IStream.opened] using h54)]
  simp only [IStream.opened, List.drop_zero, Nat.zero_add]
  have := fillBlock_of_length host.stackJunk (file.take 54)
  rw [hl] at this
  rw [this]
  rfl

theorem flipImageVertically_eight (width height colors : Nat) (mem : List Nat)
    (palt : Option (List Nat)) (hw : width < 2 ^ 31) (hh : height < 2 ^ 31) :
    flipImageVertically { width := width, height := height, bitWidth := 8, colors := colors,
                          data := some mem, palt := palt }
      = .ok (some (flipRows (width : Int) (height : Int) mem)) := by
  have h8 : toInt32 8 = 8 := by decide
  have hd : Int.tdiv 8 8 = 1 := by decide
  simp only [flipImageVertically, h8, hd, toInt32_of_lt hw, toInt32_of_lt hh, Int.tdiv_one]
  simp

/-- The result of `loadBMPGraphicFile` on a file that holds a complete header with the
`"BM"` magic, dimensions below the `int` range and a bit count for which the row length
is defined. -/
theorem loadBMPGraphicFile_eq (host : Host) (file : List Nat) (hdr : BIPHeader)
    (length : Nat) (h54 : 54 ≤ file.length)
    (hhdr : parseHeader host.littleEndian (file.take 54) = hdr) (hBM : isBM hdr = true)
    (hw : hdr.biWidth.natAbs % host.dimMod < 2 ^ 31)
    (hh : hdr.biHeight.natAbs % host.dimMod < 2 ^ 31)
    (hwh : hdr.biWidth.natAbs % host.dimMod * (hdr.biHeight.natAbs % host.dimMod) < 2 ^ 31)
    (hlen : rowLength (hdr.biWidth.natAbs % host.dimMod) hdr.biBitCount = .ok length) :
    loadBMPGraphicFile host (some file) = .ok
      { width := hdr.biWidth.natAbs % host.dimMod
        height := hdr.biHeight.natAbs % host.dimMod
        bitWidth := 8
        colors := if hdr.biClrUsed ≠ 0 then hdr.biClrUsed % host.colorsMod else 0
        data := some
          (if 0 < hdr.biHeight then
            flipRows ((hdr.biWidth.natAbs % host.dimMod : Nat) : Int)
              ((hdr.biHeight.natAbs % host.dimMod : Nat) : Int)
              (readRows (hdr.biWidth.natAbs % host.dimMod) length hdr.biBitCount
                (hdr.biHeight.natAbs % host.dimMod) 0
                (if hdr.biClrUsed ≠ 0 then ((afterHeader file).read (hdr.biClrUsed * 4)).2
                 else afterHeader file)
                (List.replicate
                  (hdr.biWidth.natAbs % host.dimMod * (hdr.biHeight.natAbs % host.dimMod)) 0)).2
          else
            (readRows (hdr.biWidth.natAbs % host.dimMod) length hdr.biBitCount
                (hdr.biHeight.natAbs % host.dimMod) 0
                (if hdr.biClrUsed ≠ 0 then ((afterHeader file).read (hdr.biClrUsed * 4)).2
                 else afterHeader file)
                (List.replicate
                  (hdr.biWidth.natAbs % host.dimMod * (hdr.biHeight.natAbs % host.dimMod)) 0)).2)
        palt := if hdr.biClrUsed ≠ 0 then
            some (loadPalette host hdr.biClrUsed ((afterHeader file).read (hdr.biClrUsed * 4)).1)
          else none } := by
  have hsz : ¬ (2 ^ 31 ≤ hdr.biWidth.natAbs % host.dimMod ∨
      2 ^ 31 ≤ hdr.biHeight.natAbs % host.dimMod ∨
      2 ^ 31 ≤ hdr.biWidth.natAbs % host.dimMod * (hdr.biHeight.natAbs % host.dimMod)) := by
    omega
  unfold loadBMPGraphicFile
  simp only [readHeader_of_length host file h54, hhdr, hBM, Bool.not_true, Bool.false_eq_true,
    if_false, if_neg hsz, hlen]
  by_cases hc : hdr.biClrUsed ≠ 0 <;> by_cases hp : 0 < hdr.biHeight
  · simp only [if_pos hc, if_pos hp, flipImageVertically_eight _ _ _ _ _ hw hh]
  · simp only [if_pos hc, if_neg hp]
  · simp only [if_neg hc, if_pos hp, flipImageVertically_eight _ _ _ _ _ hw hh]
  · simp only [if_neg hc, if_neg hp]

/-! ## Palette entries -/

theorem lor_opaque (g : Nat) (hg : g < 2 ^ 24) : g ||| 0xFF000000 = 0xFF000000 + g := by
  have h := Nat.mul_add_lt_is_or hg 255
  rw [Nat.lor_comm, ← h]

theorem rgb_or_eq_add (b0 b1 b2 : Nat) (h0 : b0 < 256) (h1 : b1 < 256) (h2 : b2 < 256) :
    ((0xFF000000 ||| (b0 <<< 16)) ||| (b1 <<< 8)) ||| b2
      = 0xFF000000 + (b0 * 65536 + b1 * 256 + b2) := by
  have e1 : b1 <<< 8 ||| b2 = 2 ^ 8 * b1 + b2 := by
    rw [Nat.shiftLeft_eq, Nat.mul_comm]
    exact (Nat.mul_add_lt_is_or (by omega) b1).symm
  have e2 : b0 <<< 16 ||| (2 ^ 8 * b1 + b2) = 2 ^ 16 * b0 + (2 ^ 8 * b1 + b2) := by
    rw [Nat.shiftLeft_eq, Nat.mul_comm]
    exact (Nat.mul_add_lt_is_or (by omega) b0).symm
  have e3 : 0xFF000000 ||| (2 ^ 16 * b0 + (2 ^ 8 * b1 + b2))
      = 0xFF000000 + (2 ^ 16 * b0 + (2 ^ 8 * b1 + b2)) := by
    rw [Nat.lor_comm]
    exact lor_opaque _ (by omega)
  rw [Nat.lor_assoc, Nat.lor_assoc, e1, e2, e3]
  omega

/-- The in-memory palette entry of the four stored bytes, on either byte order. -/
theorem paletteEntry_eq (littleEndian : Bool) (b0 b1 b2 b3 : Nat) (h0 : b0 < 256)
    (h1 : b1 < 256) (h2 : b2 < 256) (h3 : b3 < 256) :
    paletteEntry littleEndian [b0, b1, b2, b3] = 0xFF000000 + (b0 * 65536 + b1 * 256 + b2) := by
  have hm0 : b0 % 256 = b0 := Nat.mod_eq_of_lt h0
  have hm1 : b1 % 256 = b1 := Nat.mod_eq_of_lt h1
  have hm2 : b2 % 256 = b2 := Nat.mod_eq_of_lt h2
  have hm3 : b3 % 256 = b3 := Nat.mod_eq_of_lt h3
  cases littleEndian
  · -- big-endian host: the value read is already b0 b1 b2 b3, no swap
    simp only [paletteEntry, fromBytes, leNat, List.reverse_cons, List.reverse_nil,
      List.nil_append, List.cons_append, hm0, hm1, hm2, hm3, Bool.false_eq_true, if_false,
      Nat.shiftRight_eq_div_pow]
    have hg : (b3 + 256 * (b2 + 256 * (b1 + 256 * (b0 + 256 * 0)))) / 2 ^ 8
        = b0 * 65536 + b1 * 256 + b2 := by omega
    rw [hg, lor_opaque _ (by omega)]
    omega
  · -- little-endian host: the value read is b3 b2 b1 b0, then swapped
    have hraw : leNat [b0, b1, b2, b3] = b0 + 256 * b1 + 65536 * b2 + 16777216 * b3 := by
      simp only [leNat, hm0, hm1, hm2, hm3]; omega
    have hswap : swap_endian true 4 (b0 + 256 * b1 + 65536 * b2 + 16777216 * b3)
        = b3 + 256 * b2 + 65536 * b1 + 16777216 * b0 := by
      simp only [swap_endian, fromBytes, toBytes, leBytes, if_true, List.reverse_cons,
        List.reverse_nil, List.nil_append, List.cons_append, leNat]
      omega
    simp only [paletteEntry, fromBytes, if_true, hraw, hswap, Nat.shiftRight_eq_div_pow]
    have hg : (b3 + 256 * b2 + 65536 * b1 + 16777216 * b0) / 2 ^ 8
        = b0 * 65536 + b1 * 256 + b2 := by omega
    rw [hg, lor_opaque _ (by omega)]
    omega

theorem read_fst_of_good (s : IStream) (n : Nat) (hgood : s.good = true) :
    (s.read n).1 = (s.content.drop s.pos).take n := by
  unfold IStream.read
  rw [if_pos hgood]
  by_cases h : ((s.content.drop s.pos).take n).length < n
  · simp only [h, if_true]
  · simp only [h, if_false]

theorem length_loadPalette (host : Host) (n : Nat) (got : List Nat) :
    (loadPalette host n got).length = n := by
  simp [loadPalette]

/-- The palette of the buffer that `loadBMPGraphicFile` returns when colors-used is not
zero: as many entries as the header says, and `colors` is that number as the field holds
it. -/
theorem loadBMPGraphicFile_palette (host : Host) (file : List Nat) (hdr : BIPHeader)
    (length : Nat) (h54 : 54 ≤ file.length)
    (hhdr : parseHeader host.littleEndian (file.take 54) = hdr) (hBM : isBM hdr = true)
    (hw : hdr.biWidth.natAbs % host.dimMod < 2 ^ 31)
    (hh : hdr.biHeight.natAbs % host.dimMod < 2 ^ 31)
    (hwh : hdr.biWidth.natAbs % host.dimMod * (hdr.biHeight.natAbs % host.dimMod) < 2 ^ 31)
    (hlen : rowLength (hdr.biWidth.natAbs % host.dimMod) hdr.biBitCount = .ok length)
    (hne : hdr.biClrUsed ≠ 0) :
    ∃ img p, loadBMPGraphicFile host (some file) = .ok img ∧ img.palt = some p
      ∧ p.length = hdr.biClrUsed ∧ img.colors = hdr.biClrUsed % host.colorsMod :=
  ⟨_, loadPalette host hdr.biClrUsed ((afterHeader file).read (hdr.biClrUsed * 4)).1,
    loadBMPGraphicFile_eq host file hdr length h54 hhdr hBM hw hh hwh hlen, if_pos hne,
    length_loadPalette _ _ _, if_pos hne⟩

/-! ## Decimal numerals and lines -/

theorem decimalAux_spec : ∀ (fuel n : Nat) (acc : List Nat), n < fuel →
    ∃ ds, decimalAux fuel n acc = ds ++ acc ∧ ReadsAs ds n := by
  intro fuel
  induction fuel with
  | zero => intro n acc h; omega
  | succ fuel ih =>
    intro n acc hn
    by_cases h10 : n < 10
    · refine ⟨[48 + n], by simp [decimalAux, h10], by simp, ?_, ?_⟩
      · intro c hc
        simp only [List.mem_singleton] at hc
        subst hc
        simp [isDigit]
        omega
      · intro a tail
        have hd : isDigit (48 + n) = true := by simp [isDigit]; omega
        simp [atoiDigits, hd]
    · obtain ⟨ds, hds, hne, hdig, hread⟩ := ih (n / 10) ((48 + n % 10) :: acc) (by omega)
      refine ⟨ds ++ [48 + n % 10], ?_, by simp, ?_, ?_⟩
      · simp [decimalAux, h10, hds]
      · intro c hc
        rcases List.mem_append.mp hc with h | h
        · exact hdig c h
        · simp only [List.mem_singleton] at h
          subst h
          simp [isDigit]
          omega
      · intro a tail
        have hd : isDigit (48 + n % 10) = true := by simp [isDigit]; omega
        rw [List.append_assoc, hread]
        simp only [List.singleton_append, atoiDigits, hd, if_true, List.length_append,
          List.length_singleton, Nat.add_sub_cancel_left]
        congr 1
        rw [Nat.pow_succ]
        have := Nat.div_add_mod n 10
        nlinarith

theorem decimal_readsAs (n : Nat) : ReadsAs (decimal n) n := by
  obtain ⟨ds, hds, h⟩ := decimalAux_spec (n + 1) n [] (by omega)
  unfold decimal
  rw [hds, List.append_nil]
  exact h

theorem atoi_of_readsAs (ds : List Nat) (n : Nat) (h : ReadsAs ds n) : atoi ds = (n : Int) := by
  obtain ⟨hne, hdig, hread⟩ := h
  cases ds with
  | nil => exact absurd rfl hne
  | cons c cs =>
    have hc : isDigit c = true := hdig c (by simp)
    have hc2 : 48 ≤ c ∧ c ≤ 57 := by simpa [isDigit] using hc
    have hsp : isSpace c = false := by
      simp [isSpace]; omega
    have h0 := hread 0 []
    rw [List.append_nil] at h0
    have h1 : atoiDigits (0 * 10 ^ (c :: cs).length + n) [] = n := by simp [atoiDigits]
    rw [h1] at h0
    have h45 : c ≠ 45 := by omega
    have h43 : c ≠ 43 := by omega
    unfold atoi
    rw [List.dropWhile_cons, hsp]
    simp only [Bool.false_eq_true, if_false, atoiSigned, h45, h43, h0]

theorem getlineChars_append (line tail : List Nat) (hno : ∀ c ∈ line, c ≠ 10) :
    getlineChars (line ++ 10 :: tail) = line := by
  induction line with
  | nil => simp [getlineChars]
  | cons c cs ih =>
    have hc : c ≠ 10 := hno c (by simp)
    show getlineChars (c :: (cs ++ 10 :: tail)) = c :: cs
    rw [getlineChars, if_neg hc, ih (fun d hd => hno d (by simp [hd]))]

theorem getline_of_line (s : IStream) (prev line tail : List Nat) (hgood : s.good = true)
    (hrest : s.content.drop s.pos = line ++ 10 :: tail) (hno : ∀ c ∈ line, c ≠ 10) :
    s.getline prev = (line, { s with pos := s.pos + line.length + 1 }) := by
  unfold IStream.getline
  rw [if_pos hgood]
  simp only [hrest, getlineChars_append line tail hno, List.length_append, List.length_cons]
  rw [if_pos (by omega)]

theorem ne_newline_of_readsAs (ds : List Nat) (n : Nat) (h : ReadsAs ds n) :
    ∀ c ∈ ds, c ≠ 10 := by
  intro c hc
  have := h.2.1 c hc
  simp [isDigit] at this
  omega

theorem toField_of_lt (m n : Nat) (h : n < m) : toField m (n : Int) = n := by
  unfold toField
  rw [Int.emod_eq_of_lt (by omega) (by omega)]
  rfl

/-! ## Loops -/

/-- Invariant rule for a counted loop `for (i = 0; i < n; ++i)`. -/
theorem foldl_range_invariant {β : Type} (P : Nat → β → Prop) (f : β → Nat → β) (init : β)
    (n : Nat) (h0 : P 0 init) (hstep : ∀ i b, i < n → P i b → P (i + 1) (f b i)) :
    P n ((List.range n).foldl f init) := by
  induction n with
  | zero => exact h0
  | succ n ih =>
    rw [List.range_succ, List.foldl_append]
    exact hstep n _ (by omega) (ih (fun i b hi hp => hstep i b (by omega) hp))

/-! ## `convertMonochromeBitmapToPixmap` -/

theorem and_two_pow_ne_zero (v j : Nat) : (v &&& 2 ^ j ≠ 0) ↔ v.testBit j = true := by
  rw [Nat.land_comm, Nat.two_pow_and]
  cases h : v.testBit j
  · simp
  · simp

theorem convPixel_of_one (mono : List Nat) (st : ConvState) (h : st.bitPosition = 1) :
    convPixel mono st
      = { src := st.src + 1, dest := st.dest + 1, bitPosition := 1 <<< 7,
          out := st.out.set st.dest (if getByte mono st.src &&& st.bitPosition ≠ 0 then 1 else 0) } := by
  unfold convPixel
  exact if_pos h

theorem convPixel_of_ne_one (mono : List Nat) (st : ConvState) (h : st.bitPosition ≠ 1) :
    convPixel mono st
      = { src := st.src, dest := st.dest + 1, bitPosition := st.bitPosition >>> 1,
          out := st.out.set st.dest (if getByte mono st.src &&& st.bitPosition ≠ 0 then 1 else 0) } := by
  unfold convPixel
  exact if_neg h

theorem convPixel_rowInv (mono : List Nat) (s0 d0 : Nat) (o : List Nat) (n : Nat)
    (st : ConvState) (h : RowInv mono s0 d0 o n st) :
    RowInv mono s0 d0 o (n + 1) (convPixel mono st) := by
  obtain ⟨hsrc, hbit, hdest, hlen, hout⟩ := h
  have hv : (if getByte mono st.src &&& st.bitPosition ≠ 0 then 1 else 0)
      = (if (getByte mono (s0 + n / 8)).testBit (7 - n % 8) then 1 else 0) := by
    rw [hsrc, hbit]
    by_cases ht : (getByte mono (s0 + n / 8)).testBit (7 - n % 8) = true
    · rw [if_pos ((and_two_pow_ne_zero _ _).mpr ht), if_pos ht]
    · rw [if_neg (fun hc => ht ((and_two_pow_ne_zero _ _).mp hc)), if_neg ht]
  have hogive : ∀ k, (st.out.set st.dest
      (if getByte mono st.src &&& st.bitPosition ≠ 0 then 1 else 0))[k]? =
        if d0 ≤ k ∧ k < d0 + (n + 1) ∧ k < o.length then
          some (if (getByte mono (s0 + (k - d0) / 8)).testBit (7 - (k - d0) % 8) then 1 else 0)
        else o[k]? := by
    intro k
    rw [List.getElem?_set, hv, hdest, hlen, hout k]
    by_cases hk : d0 + n = k
    · subst hk
      rw [if_pos rfl, Nat.add_sub_cancel_left]
      by_cases hb : d0 + n < o.length
      · have hc : d0 ≤ d0 + n ∧ d0 + n < d0 + (n + 1) ∧ d0 + n < o.length := by omega
        rw [if_pos hb, if_pos hc]
      · have hc : ¬ (d0 ≤ d0 + n ∧ d0 + n < d0 + (n + 1) ∧ d0 + n < o.length) := by omega
        rw [if_neg hb, if_neg hc]
        exact (List.getElem?_eq_none (by omega)).symm
    · rw [if_neg hk]
      by_cases hin : d0 ≤ k ∧ k < d0 + n ∧ k < o.length
      · have hc : d0 ≤ k ∧ k < d0 + (n + 1) ∧ k < o.length := by omega
        rw [if_pos hin, if_pos hc]
      · have hc : ¬ (d0 ≤ k ∧ k < d0 + (n + 1) ∧ k < o.length) := by omega
        rw [if_neg hin, if_neg hc]
  have h8 : n % 8 < 8 := Nat.mod_lt _ (by decide)
  by_cases hone : st.bitPosition = 1
  · -- last bit of the byte: n % 8 = 7
    have h7 : n % 8 = 7 := by
      rw [hbit] at hone
      have hk : 7 - n % 8 = 0 := by
        by_contra hne
        have : 2 ≤ 2 ^ (7 - n % 8) := by
          calc 2 = 2 ^ 1 := rfl
            _ ≤ 2 ^ (7 - n % 8) := Nat.pow_le_pow_right (by decide) (by omega)
        omega
      omega
    rw [convPixel_of_one mono st hone]
    refine ⟨?_, ?_, ?_, ?_, hogive⟩
    · show st.src + 1 = s0 + (n + 1) / 8
      omega
    · show 1 <<< 7 = 2 ^ (7 - (n + 1) % 8)
      have hm : (n + 1) % 8 = 0 := by omega
      rw [hm]; rfl
    · show st.dest + 1 = d0 + (n + 1)
      omega
    · show (st.out.set _ _).length = o.length
      rw [List.length_set, hlen]
  · have h7 : n % 8 < 7 := by
      by_contra hne
      have : n % 8 = 7 := by omega
      rw [hbit, this] at hone
      exact hone rfl
    rw [convPixel_of_ne_one mono st hone]
    refine ⟨?_, ?_, ?_, ?_, hogive⟩
    · show st.src = s0 + (n + 1) / 8
      omega
    · show st.bitPosition >>> 1 = 2 ^ (7 - (n + 1) % 8)
      have hm : (n + 1) % 8 = n % 8 + 1 := by omega
      rw [hbit, hm, Nat.shiftRight_eq_div_pow]
      have he : 7 - n % 8 = (7 - (n % 8 + 1)) + 1 := by omega
      rw [he, Nat.pow_succ]
      simp
    · show st.dest + 1 = d0 + (n + 1)
      omega
    · show (st.out.set _ _).length = o.length
      rw [List.length_set, hlen]

/-- The effect of one row of the conversion. -/
theorem convRow_spec (mono : List Nat) (w : Nat) (st : ConvState) :
    (convRow mono w st).src = st.src + (w + 7) / 8 ∧ (convRow mono w st).dest = st.dest + w
      ∧ (convRow mono w st).out.length = st.out.length
      ∧ ∀ k, (convRow mono w st).out[k]? =
          if st.dest ≤ k ∧ k < st.dest + w ∧ k < st.out.length then
            some (if (getByte mono (st.src + (k - st.dest) / 8)).testBit (7 - (k - st.dest) % 8)
                  then 1 else 0)
          else st.out[k]? := by
  have hinv : RowInv mono st.src st.dest st.out w
      ((List.range w).foldl (fun s _ => convPixel mono s) { st with bitPosition := 1 <<< 7 }) := by
    apply foldl_range_invariant (RowInv mono st.src st.dest st.out)
    · refine ⟨rfl, rfl, rfl, rfl, ?_⟩
      intro k
      have hc : ¬ (st.dest ≤ k ∧ k < st.dest + 0 ∧ k < st.out.length) := by omega
      rw [if_neg hc]
    · intro i b _ hb
      exact convPixel_rowInv mono st.src st.dest st.out i b hb
  obtain ⟨hsrc, _, hdest, hlen, hout⟩ := hinv
  have hand : w &&& 7 = w % 8 := Nat.and_pow_two_sub_one_eq_mod w 3
  unfold convRow
  by_cases hw : w &&& 7 ≠ 0
  · simp only [hw, ne_eq, not_false_eq_true, if_true]
    refine ⟨?_, hdest, hlen, hout⟩
    rw [hsrc]
    rw [hand] at hw
    omega
  · simp only [hw, if_false]
    refine ⟨?_, hdest, hlen, hout⟩
    rw [hsrc]
    rw [hand] at hw
    omega

theorem convRow_imageInv (mono : List Nat) (w h y : Nat) (st : ConvState) (hy : y < h)
    (hinv : ImageInv mono w h y st) : ImageInv mono w h (y + 1) (convRow mono w st) := by
  obtain ⟨hsrc, hdest, hlen, hout⟩ := hinv
  obtain ⟨rsrc, rdest, rlen, rout⟩ := convRow_spec mono w st
  have e1 : (y + 1) * ((w + 7) / 8) = y * ((w + 7) / 8) + (w + 7) / 8 := Nat.succ_mul _ _
  have e2 : (y + 1) * w = y * w + w := Nat.succ_mul _ _
  have e3 : (y + 1) * w ≤ h * w := Nat.mul_le_mul_right w hy
  have e4 : w * h = h * w := Nat.mul_comm _ _
  refine ⟨by omega, by omega, by omega, ?_⟩
  intro y' x hy' hx
  rw [rout, hdest, hlen]
  by_cases hlast : y' = y
  · subst hlast
    have hc : y' * w ≤ y' * w + x ∧ y' * w + x < y' * w + w ∧ y' * w + x < w * h := by omega
    rw [if_pos hc, Nat.add_sub_cancel_left, hsrc]
    rfl
  · have e5 : (y' + 1) * w ≤ y * w := Nat.mul_le_mul_right w (by omega)
    have e6 : (y' + 1) * w = y' * w + w := Nat.succ_mul _ _
    have hc : ¬ (y * w ≤ y' * w + x ∧ y' * w + x < y * w + w ∧ y' * w + x < w * h) := by omega
    rw [if_neg hc]
    exact hout y' x (by omega) hx

theorem testBit_255 (j : Nat) (hj : j < 8) : Nat.testBit 255 j = true := by
  interval_cases j <;> decide

/-! ## The scan of `extractImageSectionMasked` -/

theorem ScanInv.congr {W H : Nat} {S T : Nat → Nat → Prop} {b : Bounds}
    (hST : ∀ x y, S x y ↔ T x y) (h : ScanInv W H S b) : ScanInv W H T b := by
  have e : S = T := funext fun x => funext fun y => propext (hST x y)
  rw [← e]; exact h

theorem scanPixel_of_mask (p : List Nat) (W m y x : Nat) (b : Bounds)
    (h : getByte p (x + y * W) = m) : scanPixel p W m y x b = b := by
  unfold scanPixel
  exact if_pos h

theorem scanPixel_of_nonmask (p : List Nat) (W m y x : Nat) (b : Bounds)
    (h : getByte p (x + y * W) ≠ m) :
    scanPixel p W m y x b
      = { minX := if b.minX > (x : Int) then x else b.minX
          maxX := if b.maxX < (x : Int) then x else b.maxX
          minY := if b.minY > (y : Int) then y else b.minY
          maxY := if b.maxY < (y : Int) then y else b.maxY } := by
  unfold scanPixel
  rw [if_neg h]
  by_cases h1 : b.minX > (x : Int) <;> by_cases h2 : b.maxX < (x : Int) <;>
    by_cases h3 : b.minY > (y : Int) <;> by_cases h4 : b.maxY < (y : Int) <;>
    simp [h1, h2, h3, h4]

/-- One step of the scan: pixel `(x, y)` joins the visited set. -/
theorem scanPixel_inv (p : List Nat) (W H m x y : Nat) (S : Nat → Nat → Prop) (b : Bounds)
    (h : ScanInv W H S b) :
    ScanInv W H (fun x' y' => S x' y' ∨ (x' = x ∧ y' = y ∧ getByte p (x + y * W) ≠ m))
      (scanPixel p W m y x b) := by
  by_cases hm : getByte p (x + y * W) = m
  · rw [scanPixel_of_mask p W m y x b hm]
    refine ScanInv.congr (fun x' y' => ?_) h
    constructor
    · intro hs; exact Or.inl hs
    · rintro (hs | ⟨_, _, hne⟩)
      · exact hs
      · exact absurd hm hne
  · rw [scanPixel_of_nonmask p W m y x b hm]
    obtain ⟨hin, hminX, hmaxX, hminY, hmaxY⟩ := h
    refine ⟨?_, ?_, ?_, ?_, ?_⟩
    · rintro x' y' (hs | ⟨rfl, rfl, _⟩)
      · have := hin x' y' hs
        simp only
        refine ⟨?_, ?_, ?_, ?_⟩ <;> split <;> omega
      · simp only
        refine ⟨?_, ?_, ?_, ?_⟩ <;> split <;> omega
    · simp only
      split
      · exact Or.inr ⟨x, y, Or.inr ⟨rfl, rfl, hm⟩, rfl⟩
      · rcases hminX with h0 | ⟨x', y', hs, he⟩
        · exact Or.inl h0
        · exact Or.inr ⟨x', y', Or.inl hs, he⟩
    · simp only
      split
      · exact Or.inr ⟨x, y, Or.inr ⟨rfl, rfl, hm⟩, rfl⟩
      · rcases hmaxX with h0 | ⟨x', y', hs, he⟩
        · exact Or.inl h0
        · exact Or.inr ⟨x', y', Or.inl hs, he⟩
    · simp only
      split
      · exact Or.inr ⟨x, y, Or.inr ⟨rfl, rfl, hm⟩, rfl⟩
      · rcases hminY with h0 | ⟨x', y', hs, he⟩
        · exact Or.inl h0
        · exact Or.inr ⟨x', y', Or.inl hs, he⟩
    · simp only
      split
      · exact Or.inr ⟨x, y, Or.inr ⟨rfl, rfl, hm⟩, rfl⟩
      · rcases hmaxY with h0 | ⟨x', y', hs, he⟩
        · exact Or.inl h0
        · exact Or.inr ⟨x', y', Or.inl hs, he⟩

/-- The bounds after the whole scan. -/
theorem scanBounds_inv (p : List Nat) (W H m : Nat) :
    ScanInv W H (fun x y => x < W ∧ y < H ∧ getByte p (x + y * W) ≠ m) (scanBounds p W H m) := by
  unfold scanBounds
  apply foldl_range_invariant
    (fun Y b => ScanInv W H (fun x y => x < W ∧ y < Y ∧ getByte p (x + y * W) ≠ m) b)
  · refine ⟨?_, Or.inl rfl, Or.inl rfl, Or.inl rfl, Or.inl rfl⟩
    intro x y hs
    omega
  · intro Y b _ hb
    have hrow := foldl_range_invariant
      (fun X b2 => ScanInv W H (fun x y => x < W ∧ getByte p (x + y * W) ≠ m
        ∧ (y < Y ∨ (y = Y ∧ x < X))) b2)
      (fun b2 x => scanPixel p W m Y x b2) b W
      (ScanInv.congr (fun x y => by constructor <;> intro h <;> omega) hb)
      (fun X b2 hX hb2 => ScanInv.congr (fun x y => by
          constructor
          · rintro (⟨h1, h2, h3⟩ | ⟨rfl, rfl, h3⟩)
            · exact ⟨h1, h2, by omega⟩
            · exact ⟨hX, h3, by omega⟩
          · rintro ⟨h1, h2, h3 | ⟨h3, h4⟩⟩
            · exact Or.inl ⟨h1, h2, Or.inl h3⟩
            · by_cases hx : x = X
              · subst hx; subst h3
                exact Or.inr ⟨rfl, rfl, h2⟩
              · exact Or.inl ⟨h1, h2, Or.inr ⟨h3, by omega⟩⟩)
        (scanPixel_inv p W H m X Y _ b2 hb2))
    refine ScanInv.congr (fun x y => ?_) hrow
    constructor
    · rintro ⟨h1, h2, h3 | ⟨h3, _⟩⟩
      · exact ⟨h1, by omega, h2⟩
      · exact ⟨h1, by omega, h2⟩
    · rintro ⟨h1, h2, h3⟩
      by_cases hy : y = Y
      · exact ⟨h1, h3, Or.inr ⟨hy, h1⟩⟩
      · exact ⟨h1, h3, Or.inl (by omega)⟩

/-! ## `copyPixmap` -/

theorem toNat_index (i dx j dy W : Nat) :
    ((i : Int) + (dx : Int) + ((j : Int) + (dy : Int)) * (W : Int)).toNat
      = i + dx + (j + dy) * W := by
  have h : ((i : Int) + (dx : Int) + ((j : Int) + (dy : Int)) * (W : Int))
      = ((i + dx + (j + dy) * W : Nat) : Int) := by
    push_cast; ring
  rw [h, Int.toNat_ofNat]

theorem copyRow_inv (s : List Nat) (dstW srcW dx dy x y j w : Nat) (m0 : List Nat)
    (hb : ∀ i, i < w → i + dx + (j + dy) * dstW < m0.length) :
    CopyRowInv s dstW srcW dx dy x y j m0 w
      ((List.range w).foldl (fun (m2 : List Nat) (i : Nat) =>
        m2.set ((i : Int) + (dx : Int) + ((j : Int) + (dy : Int)) * (dstW : Int)).toNat
          (getByte s ((i : Int) + (x : Int) + ((j : Int) + (y : Int)) * (srcW : Int)).toNat)) m0) := by
  apply foldl_range_invariant (CopyRowInv s dstW srcW dx dy x y j m0)
  · exact ⟨rfl, fun i hi => by omega, fun k _ => rfl⟩
  · intro i0 m hi0 ⟨hlen, hin, hout⟩
    rw [toNat_index, toNat_index]
    refine ⟨by rw [List.length_set, hlen], ?_, ?_⟩
    · intro i hi
      rw [List.getElem?_set]
      by_cases he : i = i0
      · subst he
        have hlt : i + dx + (j + dy) * dstW < m.length := by rw [hlen]; exact hb i hi0
        rw [if_pos rfl, if_pos hlt]
      · have hne : ¬ (i0 + dx + (j + dy) * dstW = i + dx + (j + dy) * dstW) := by omega
        rw [if_neg hne]
        exact hin i (by omega)
    · intro k hk
      rw [List.getElem?_set]
      have hne : ¬ (i0 + dx + (j + dy) * dstW = k) := fun e => hk i0 (by omega) e.symm
      rw [if_neg hne]
      exact hout k (fun i hi => hk i (by omega))

/-- The effect of `copyPixmap` on the destination bytes when the rectangle fits into the
destination: the bytes of the rectangle are those of the source rectangle, the others are
unchanged. -/
theorem copyLoop_spec (d s : List Nat) (dstW srcW dx dy x y w h : Nat)
    (hfit : dx + w ≤ dstW) (hmem : (dy + h) * dstW ≤ d.length) :
    CopyInv d s dstW srcW dx dy x y w h
      (copyLoop d dstW (dx : Int) (dy : Int) s srcW (x : Int) (y : Int) w h) := by
  unfold copyLoop
  apply foldl_range_invariant (CopyInv d s dstW srcW dx dy x y w)
  · exact ⟨rfl, fun i j _ hj => by omega, fun k _ => rfl⟩
  · intro j0 m hj0 ⟨hlen, hin, hout⟩
    have e1 : (j0 + dy + 1) * dstW ≤ (dy + h) * dstW := Nat.mul_le_mul_right dstW (by omega)
    have e2 : (j0 + dy + 1) * dstW = (j0 + dy) * dstW + dstW := Nat.succ_mul _ _
    obtain ⟨rlen, rin, rout⟩ := copyRow_inv s dstW srcW dx dy x y j0 w m
      (fun i hi => by rw [hlen]; omega)
    refine ⟨by rw [rlen, hlen], ?_, ?_⟩
    · intro i j hi hj
      by_cases he : j = j0
      · subst he
        exact rin i hi
      · have e3 : (j + dy + 1) * dstW ≤ (j0 + dy) * dstW := Nat.mul_le_mul_right dstW (by omega)
        have e4 : (j + dy + 1) * dstW = (j + dy) * dstW + dstW := Nat.succ_mul _ _
        rw [rout _ (fun i' hi' => by omega)]
        exact hin i j hi (by omega)
    · intro k hk
      rw [rout k (fun i hi => hk i j0 hi (by omega))]
      exact hout k (fun i j hi hj => hk i j hi (by omega))

/-- The value of `createPixmap` for a size that is representable. -/
theorem createPixmap_of_nat (host : Host) (w h : Nat) (hw : w < host.dimMod)
    (hh : h < host.dimMod) (hsz : w * h < 2 ^ 31) :
    createPixmap host (w : Int) (h : Int)
      = .ok { width := w, height := h, bitWidth := 8, colors := 0,
              data := some (fillBlock host.heapJunk (w * h) []), palt := none } := by
  have hprod : (w : Int) * (h : Int) = ((w * h : Nat) : Int) := by push_cast; rfl
  have h1 : ¬ ((w : Int) * (h : Int) < 0) := by rw [hprod]; omega
  have h2 : ¬ ((2 : Int) ^ 31 ≤ (w : Int) * (h : Int)) := by rw [hprod]; omega
  unfold createPixmap
  rw [if_neg h1, if_neg h2, toField_of_lt _ _ hw, toField_of_lt _ _ hh, hprod, Int.toNat_ofNat]

/-- The result of `extractImageSectionMasked` when the scan ends with the bounds
`minX ≤ maxX`, `minY ≤ maxY` inside the image. -/
theorem extractImageSectionMasked_of_bounds (host : Host) (image : TImage) (p : List Nat)
    (m minX maxX minY maxY : Nat) (hdata : image.data = some p) (hm : m < 256)
    (hb : scanBounds p image.width image.height m
      = { minX := (minX : Int), maxX := (maxX : Int), minY := (minY : Int),
          maxY := (maxY : Int) })
    (hx : minX ≤ maxX) (hy : minY ≤ maxY) (hxW : maxX < image.width)
    (hyH : maxY < image.height) (hW : image.width < 65536) (hH : image.height < 65536)
    (hdimW : image.width < host.dimMod) (hdimH : image.height < host.dimMod)
    (hsz : image.width * image.height < 2 ^ 31) :
    extractImageSectionMasked host image m
      = .ok { width := maxX - minX + 1, height := maxY - minY + 1, bitWidth := 8, colors := 0,
              data := some (copyLoop
                (fillBlock host.heapJunk ((maxX - minX + 1) * (maxY - minY + 1)) [])
                (maxX - minX + 1) ((0 : Nat) : Int) ((0 : Nat) : Int) p image.width
                (minX : Int) (minY : Int) (maxX - minX + 1) (maxY - minY + 1)),
              palt := none } := by
  have hwd : ((maxX : Int) - (minX : Int) + 1) = ((maxX - minX + 1 : Nat) : Int) := by omega
  have hht : ((maxY : Int) - (minY : Int) + 1) = ((maxY - minY + 1 : Nat) : Int) := by omega
  have hle : (maxX - minX + 1) * (maxY - minY + 1) ≤ image.width * image.height :=
    Nat.mul_le_mul (by omega) (by omega)
  have hcond : ¬ ((maxX : Int) < (minX : Int) ∨ (maxY : Int) < (minY : Int)) := by omega
  unfold extractImageSectionMasked
  rw [hdata]
  simp only [Nat.mod_eq_of_lt hm, hb, if_neg hcond, hwd, hht, Int.toNat_ofNat]
  rw [createPixmap_of_nat host _ _ (by omega) (by omega) (by omega)]
  simp only [copyPixmap, hdata]
  rw [Nat.mod_eq_of_lt (by omega : maxX - minX + 1 < 65536),
    Nat.mod_eq_of_lt (by omega : maxY - minY + 1 < 65536)]
  rfl

/-- The bounds found by the scan when the image has a non-mask pixel: the least and the
greatest column and row of the non-mask pixels. -/
theorem scanBounds_of_nonmask (p : List Nat) (W H m : Nat)
    (hex : ∃ x y, x < W ∧ y < H ∧ getByte p (x + y * W) ≠ m) :
    ∃ minX maxX minY maxY : Nat,
      scanBounds p W H m
        = { minX := (minX : Int), maxX := (maxX : Int), minY := (minY : Int),
            maxY := (maxY : Int) }
      ∧ IsLeast {x | ∃ y, x < W ∧ y < H ∧ getByte p (x + y * W) ≠ m} minX
      ∧ IsGreatest {x | ∃ y, x < W ∧ y < H ∧ getByte p (x + y * W) ≠ m} maxX
      ∧ IsLeast {y | ∃ x, x < W ∧ y < H ∧ getByte p (x + y * W) ≠ m} minY
      ∧ IsGreatest {y | ∃ x, x < W ∧ y < H ∧ getByte p (x + y * W) ≠ m} maxY := by
  obtain ⟨x0, y0, hx0, hy0, hp0⟩ := hex
  obtain ⟨hin, hminX, hmaxX, hminY, hmaxY⟩ := scanBounds_inv p W H m
  generalize scanBounds p W H m = b at hin hminX hmaxX hminY hmaxY
  have h0 := hin x0 y0 ⟨hx0, hy0, hp0⟩
  have aminX : ∃ x y, (x < W ∧ y < H ∧ getByte p (x + y * W) ≠ m) ∧ b.minX = (x : Int) := by
    rcases hminX with h | h
    · exact ⟨x0, y0, ⟨hx0, hy0, hp0⟩, by omega⟩
    · exact h
  have amaxX : ∃ x y, (x < W ∧ y < H ∧ getByte p (x + y * W) ≠ m) ∧ b.maxX = (x : Int) := by
    rcases hmaxX with h | h
    · exact ⟨x0, y0, ⟨hx0, hy0, hp0⟩, by omega⟩
    · exact h
  have aminY : ∃ x y, (x < W ∧ y < H ∧ getByte p (x + y * W) ≠ m) ∧ b.minY = (y : Int) := by
    rcases hminY with h | h
    · exact ⟨x0, y0, ⟨hx0, hy0, hp0⟩, by omega⟩
    · exact h
  have amaxY : ∃ x y, (x < W ∧ y < H ∧ getByte p (x + y * W) ≠ m) ∧ b.maxY = (y : Int) := by
    rcases hmaxY with h | h
    · exact ⟨x0, y0, ⟨hx0, hy0, hp0⟩, by omega⟩
    · exact h
  obtain ⟨x1, y1, hs1, e1⟩ := aminX
  obtain ⟨x2, y2, hs2, e2⟩ := amaxX
  obtain ⟨x3, y3, hs3, e3⟩ := aminY
  obtain ⟨x4, y4, hs4, e4⟩ := amaxY
  refine ⟨x1, x2, y3, y4, ?_, ⟨⟨y1, hs1⟩, ?_⟩, ⟨⟨y2, hs2⟩, ?_⟩, ⟨⟨x3, hs3⟩, ?_⟩, ⟨⟨x4, hs4⟩, ?_⟩⟩
  · cases b
    simp only at e1 e2 e3 e4
    rw [e1, e2, e3, e4]
  · rintro x ⟨y, hs⟩
    have := hin x y hs
    omega
  · rintro x ⟨y, hs⟩
    have := hin x y hs
    omega
  · rintro y ⟨x, hs⟩
    have := hin x y hs
    omega
  · rintro y ⟨x, hs⟩
    have := hin x y hs
    omega

/-! ## Claims -/

/-- C1, evaluated at two failing inputs.  The loader sets `bitWidth` to 8 and reads
`width / (8 / biBitCount)` bytes per row for every bit count, but unpacks only when the
bit count is 4: for a 1-bit file of width 8 and the stored byte `0x80` the decoded row
starts with the byte 128, while sample 0 of the scanline is 1.  The row length rounds
down, so a 4-bit scanline of odd width loses its last sample: for width 3 and the stored
bytes `0x12 0x30` the loader reads `3 / 2 = 1` byte, and byte 2 of the row stays 0 while
sample 2 is 3.  Both are shown on the loop body and on the whole loader (height 1). -/
theorem readScanline_not_samples :
    ((readScanline 8 1 1 0 (IStream.opened [128, 0, 0, 0]) (List.replicate 8 0)).2.2[0]? = some 128
      ∧ sampleAt 1 [128, 0, 0, 0] 0 = 1
      ∧ loadBMPGraphicFile hostLE16 (some (bmpHeader 8 1 1 0 ++ [128, 0, 0, 0]))
        = .ok { width := 8, height := 1, bitWidth := 8, colors := 0,
                data := some [128, 0, 0, 0, 0, 0, 0, 0], palt := none })
    ∧ ((readScanline 3 1 4 0 (IStream.opened [18, 48, 0, 0]) (List.replicate 3 0)).2.2[2]? = some 0
      ∧ sampleAt 4 [18, 48, 0, 0] 2 = 3
      ∧ loadBMPGraphicFile hostLE16 (some (bmpHeader 3 1 4 0 ++ [18, 48, 0, 0]))
        = .ok { width := 3, height := 1, bitWidth := 8, colors := 0,
                data := some [1, 2, 0], palt := none }) := by
  decide

/-- The loop body where it does decode: for a declared bit depth `b` of 4 or 8, a width
`w ≥ 1` (below 2^31) and a stream that still holds the `length = w / (8 / b)` bytes of
the scanline (each below 256): after the loop body has read and, for `b = 4`, unpacked row `r`, byte `x` of the row
equals the `x`-th `b`-bit sample of the stored scanline, for every `x < length * (8 / b)`,
that is for every `x < w` when `b = 8` or `w` is even. -/
theorem readScanline_samples (width b length r : Nat) (s : IStream) (mem : List Nat)
    (hb : b = 4 ∨ b = 8) (hw : 1 ≤ width) (hw2 : width < 2 ^ 31)
    (hlen : rowLength width (b : Int) = .ok length) (hgood : s.good = true)
    (havail : length ≤ (s.content.drop s.pos).length)
    (hbytes : ∀ v ∈ s.content.drop s.pos, v < 256)
    (hmem : (r + 1) * width ≤ mem.length) (x : Nat) (hx : x < length * (8 / b)) :
    (readScanline width length (b : Int) r s mem).2.2[r * width + x]?
      = some (sampleAt b (s.content.drop s.pos) x) := by
  have hrow : (r + 1) * width = r * width + width := by ring
  have hgot : ((s.content.drop s.pos).take length).length = length := by
    rw [List.length_take]; omega
  unfold readScanline
  rw [read_of_available s length hgood havail]
  simp only [hgot, ne_eq, not_true_eq_false, if_false]
  rcases hb with rfl | rfl
  · -- four bits per sample
    have hl : length = width / 2 := by
      have h2 : Int.tdiv 8 4 = 2 := by decide
      simp [rowLength, h2] at hlen
      omega
    subst hl
    have hcast : (toInt32 (width / 2)).toNat = width / 2 := by
      rw [toInt32_of_lt (by omega)]; rfl
    have hx2 : x < 2 * (width / 2) := by omega
    have hwl : (writeAt mem (r * width) ((s.content.drop s.pos).take (width / 2))).length
        = mem.length := length_writeAt _ _ _
    simp only [Nat.cast_ofNat, if_true]
    unfold unpack4BitValues
    rw [hcast, getElem?_unpackLoop _ _ _ _ (by intro i hi t ht; omega) (by rw [hwl]; omega),
      if_pos (by omega), Nat.add_sub_cancel_left,
      getByte_writeAt_of_lt _ _ _ _ (by rw [hgot]; omega) (by rw [hgot]; omega),
      getByte_take_of_lt _ _ _ (by omega)]
    unfold sampleAt
    by_cases hpar : x % 2 = 0
    · rw [if_pos hpar]
      simp [hpar, Nat.shiftRight_eq_div_pow]
    · rw [if_neg hpar]
      have : x % 2 = 1 := by omega
      simp [this]
  · -- eight bits per sample
    have hl : length = width := by
      simp [rowLength] at hlen
      omega
    subst hl
    have hne : ¬ ((8 : Nat) : Int) = 4 := by decide
    rw [if_neg hne]
    have hx2 : x < length := by omega
    have hxl : x < (s.content.drop s.pos).length := by omega
    rw [getElem?_writeAt, if_pos (by rw [hgot]; omega), Nat.add_sub_cancel_left,
      List.getElem?_take_of_lt hx2, getElem?_eq_some_getByte _ _ hxl]
    unfold sampleAt
    have hv : getByte (s.content.drop s.pos) x < 256 := by
      apply hbytes
      unfold getByte
      rw [List.getElem?_eq_getElem hxl]
      exact List.getElem_mem _
    simp [Nat.mod_eq_of_lt hv]

/-- Instance of `readScanline_samples`: the 4-bit scanline `0x12 0x34` of a row of
width 4. -/
theorem readScanline_samples_witness :
    ((4 = 4 ∨ 4 = 8) ∧ 1 ≤ 4 ∧ 4 < 2 ^ 31 ∧ rowLength 4 ((4 : Nat) : Int) = .ok 2
      ∧ (IStream.opened [18, 52, 0, 0]).good = true
      ∧ 2 ≤ ((IStream.opened [18, 52, 0, 0]).content.drop (IStream.opened [18, 52, 0, 0]).pos).length
      ∧ (0 + 1) * 4 ≤ (List.replicate 4 0).length ∧ 3 < 2 * (8 / 4)) ∧
    (readScanline 4 2 ((4 : Nat) : Int) 0 (IStream.opened [18, 52, 0, 0]) (List.replicate 4 0)).2.2[0 * 4 + 3]?
      = some (sampleAt 4 ((IStream.opened [18, 52, 0, 0]).content.drop
          (IStream.opened [18, 52, 0, 0]).pos) 3) :=
  ⟨by decide, readScanline_samples 4 4 2 0 (IStream.opened [18, 52, 0, 0]) (List.replicate 4 0)
    (Or.inl rfl) (by decide) (by decide) (by decide) (by decide) (by decide) (by decide)
    (by decide) 3 (by decide)⟩

/-- C2, evaluated at two failing inputs (8 bits, no palette, positive height).  Width 1,
height 2, scanlines `[5]` and `[7]` each padded to 4 bytes: the loader skips `1 % 6 = 1`
byte instead of 3 and returns the rows `[0]`, `[5]` where the claim has `[7]`, `[5]`.
Width 4, height 2, scanlines `[5,6,7,8]` and `[1,2,3,4]` (no padding is due): the loader
skips `4 % 6 = 4` bytes, the second read is short, and the result is
`[0,0,0,0]`, `[5,6,7,8]` where the claim has `[1,2,3,4]`, `[5,6,7,8]`. -/
theorem loadBMP_padding_skip :
    loadBMPGraphicFile hostLE16 (some (bmpHeader 1 2 8 0 ++ [5, 0, 0, 0, 7, 0, 0, 0]))
      = .ok { width := 1, height := 2, bitWidth := 8, colors := 0, data := some [0, 5],
              palt := none }
    ∧ loadBMPGraphicFile hostLE16 (some (bmpHeader 4 2 8 0 ++ [5, 6, 7, 8, 1, 2, 3, 4]))
      = .ok { width := 4, height := 2, bitWidth := 8, colors := 0,
              data := some [0, 0, 0, 0, 5, 6, 7, 8], palt := none } := by
  decide

/-- C3, refuted as stated: when the bytes after the header are exactly `[3,4,1,2]`, the
loader reads `[3,4]`, skips 2 bytes, finds nothing left for the second scanline and
returns `[0,0,3,4]`, not `[1,2,3,4]`. -/
theorem loadBMP_2x2_unpadded :
    loadBMPGraphicFile hostLE16 (some (bmpHeader 2 2 8 0 ++ [3, 4, 1, 2]))
      = .ok { width := 2, height := 2, bitWidth := 8, colors := 0, data := some [0, 0, 3, 4],
              palt := none }
    ∧ loadBMPGraphicFile hostLE16 (some (bmpHeader 2 2 8 0 ++ [3, 4, 1, 2]))
      ≠ .ok { width := 2, height := 2, bitWidth := 8, colors := 0, data := some [1, 2, 3, 4],
              palt := none } := by
  decide

/-- C3, amended.  A BMP whose header declares width 2, height +2, bit count 8 and no
palette, and whose scanlines `[3,4]` and `[1,2]` are stored in the BMP layout, the first
one followed by its 2 padding bytes (whatever they hold, and whatever follows the second
scanline), loads as a 2x2 buffer with `bitWidth` 8 and data `[1,2,3,4]`. -/
theorem loadBMP_2x2_padded (host : Host) (file rest : List Nat) (hdr : BIPHeader)
    (p1 p2 : Nat) (hdim : 2 < host.dimMod)
    (hhdr : parseHeader host.littleEndian (file.take 54) = hdr) (hBM : isBM hdr = true)
    (hwidth : hdr.biWidth = 2) (hheight : hdr.biHeight = 2) (hbits : hdr.biBitCount = 8)
    (hclr : hdr.biClrUsed = 0) (hdata : file.drop 54 = [3, 4, p1, p2, 1, 2] ++ rest) :
    loadBMPGraphicFile host (some file)
      = .ok { width := 2, height := 2, bitWidth := 8, colors := 0, data := some [1, 2, 3, 4],
              palt := none } := by
  have h54 : 54 ≤ file.length := by
    have h := congrArg List.length hdata
    rw [List.length_drop] at h
    simp at h
    omega
  have h58 : file.drop 58 = [1, 2] ++ rest := by
    have h := congrArg (List.drop 4) hdata
    rw [List.drop_drop] at h
    simpa using h
  have hw : hdr.biWidth.natAbs % host.dimMod = 2 := by
    rw [hwidth]; exact Nat.mod_eq_of_lt hdim
  have hh : hdr.biHeight.natAbs % host.dimMod = 2 := by
    rw [hheight]; exact Nat.mod_eq_of_lt hdim
  have hlen : rowLength (hdr.biWidth.natAbs % host.dimMod) hdr.biBitCount = .ok 2 := by
    rw [hw, hbits]; decide
  rw [loadBMPGraphicFile_eq host file hdr 2 h54 hhdr hBM (by rw [hw]; decide)
    (by rw [hh]; decide) (by rw [hw, hh]; decide) hlen]
  have hrows : (readRows 2 2 8 2 0 (afterHeader file) (List.replicate (2 * 2) 0)).2
      = [3, 4, 1, 2] := by
    simp [readRows, readScanline, IStream.read, IStream.good, IStream.seekgCur, afterHeader,
      hdata, h58, writeAt]
  simp only [hw, hh, hclr, hbits, ne_eq, not_true_eq_false, if_false]
  rw [hheight, if_pos (by decide), hrows]
  have hflip : flipRows ((2 : Nat) : Int) ((2 : Nat) : Int) [3, 4, 1, 2] = [1, 2, 3, 4] := by
    decide
  rw [hflip]

/-- Witness of C3 (amended): little-endian header, padding bytes 9 and 9. -/
theorem loadBMP_2x2_padded_witness :
    (2 < hostLE16.dimMod
      ∧ isBM (parseHeader hostLE16.littleEndian
          ((bmpHeader 2 2 8 0 ++ [3, 4, 9, 9, 1, 2, 9, 9]).take 54)) = true
      ∧ (bmpHeader 2 2 8 0 ++ [3, 4, 9, 9, 1, 2, 9, 9]).drop 54 = [3, 4, 9, 9, 1, 2] ++ [9, 9]) ∧
    loadBMPGraphicFile hostLE16 (some (bmpHeader 2 2 8 0 ++ [3, 4, 9, 9, 1, 2, 9, 9]))
      = .ok { width := 2, height := 2, bitWidth := 8, colors := 0, data := some [1, 2, 3, 4],
              palt := none } :=
  ⟨by decide, loadBMP_2x2_padded hostLE16 (bmpHeader 2 2 8 0 ++ [3, 4, 9, 9, 1, 2, 9, 9]) [9, 9]
    _ 9 9 (by decide) rfl (by decide) (by decide) (by decide) (by decide) (by decide)
    (by decide)⟩

/-- C4 (palette entries).  For a BMP with a complete header, the `"BM"` magic, colors-used
`n > 0`, dimensions and bit count the decoder accepts, and a palette entry `i < n` stored
on disk as the bytes `b0 b1 b2 b3`: the decoder returns a buffer whose palette entry `i`
is `0xFF000000 | b0<<16 | b1<<8 | b2`, with bits 24-31 equal to `0xFF`, whatever the byte
order of the host. -/
theorem loadBMP_palette_entry (host : Host) (file rest : List Nat) (hdr : BIPHeader)
    (length i b0 b1 b2 b3 : Nat)
    (hhdr : parseHeader host.littleEndian (file.take 54) = hdr) (hBM : isBM hdr = true)
    (hw : hdr.biWidth.natAbs % host.dimMod < 2 ^ 31)
    (hh : hdr.biHeight.natAbs % host.dimMod < 2 ^ 31)
    (hwh : hdr.biWidth.natAbs % host.dimMod * (hdr.biHeight.natAbs % host.dimMod) < 2 ^ 31)
    (hlen : rowLength (hdr.biWidth.natAbs % host.dimMod) hdr.biBitCount = .ok length)
    (hi : i < hdr.biClrUsed)
    (hentry : file.drop (54 + 4 * i) = [b0, b1, b2, b3] ++ rest)
    (h0 : b0 < 256) (h1 : b1 < 256) (h2 : b2 < 256) (h3 : b3 < 256) :
    ∃ img p, loadBMPGraphicFile host (some file) = .ok img ∧ img.palt = some p
      ∧ p[i]? = some (((0xFF000000 ||| (b0 <<< 16)) ||| (b1 <<< 8)) ||| b2)
      ∧ (((0xFF000000 ||| (b0 <<< 16)) ||| (b1 <<< 8)) ||| b2) / 2 ^ 24 % 256 = 0xFF := by
  have hfl : 54 + 4 * i + 4 ≤ file.length := by
    have h := congrArg List.length hentry
    rw [List.length_drop] at h
    simp at h
    omega
  have hbyte : ∀ j v, ([b0, b1, b2, b3] ++ rest)[j]? = some v → j < 4 →
      getByte (fillBlock host.heapJunk (4 * hdr.biClrUsed)
        ((afterHeader file).read (hdr.biClrUsed * 4)).1) (4 * i + j) = v := by
    intro j v hv hj
    apply getByte_eq_of_getElem?
    rw [getElem?_fillBlock _ _ _ _ (by omega), read_fst_of_good (afterHeader file) _ rfl]
    have hfile : file[54 + 4 * i + j]? = some v := by
      rw [← List.getElem?_drop, hentry]; exact hv
    simp only [afterHeader]
    rw [List.getElem?_take_of_lt (by omega), List.getElem?_drop, ← Nat.add_assoc, hfile]
    rfl
  have hne : hdr.biClrUsed ≠ 0 := by omega
  refine ⟨_, _, loadBMPGraphicFile_eq host file hdr length (by omega) hhdr hBM hw hh hwh hlen,
    if_pos hne, ?_, ?_⟩
  · unfold loadPalette
    rw [List.getElem?_map, List.getElem?_range hi]
    have e0 := hbyte 0 b0 (by simp) (by omega)
    have e1 := hbyte 1 b1 (by simp) (by omega)
    have e2 := hbyte 2 b2 (by simp) (by omega)
    have e3 := hbyte 3 b3 (by simp) (by omega)
    simp only [Nat.add_zero] at e0
    simp only [Option.map_some', e0, e1, e2, e3]
    rw [paletteEntry_eq _ _ _ _ _ h0 h1 h2 h3, rgb_or_eq_add _ _ _ h0 h1 h2]
  · rw [rgb_or_eq_add _ _ _ h0 h1 h2]
    omega

/-- Witness of C4: a 1x1 8-bit BMP with one palette entry stored as `1 2 3 4`. -/
theorem loadBMP_palette_entry_witness :
    (isBM (parseHeader hostLE16.littleEndian ((bmpHeader 1 1 8 1 ++ [1, 2, 3, 4, 9, 0, 0, 0]).take 54))
        = true
      ∧ rowLength 1 8 = .ok 1
      ∧ (bmpHeader 1 1 8 1 ++ [1, 2, 3, 4, 9, 0, 0, 0]).drop (54 + 4 * 0)
        = [1, 2, 3, 4] ++ [9, 0, 0, 0]) ∧
    ∃ img p, loadBMPGraphicFile hostLE16 (some (bmpHeader 1 1 8 1 ++ [1, 2, 3, 4, 9, 0, 0, 0]))
        = .ok img ∧ img.palt = some p
      ∧ p[0]? = some (((0xFF000000 ||| (1 <<< 16)) ||| (2 <<< 8)) ||| 3)
      ∧ (((0xFF000000 ||| (1 <<< 16)) ||| (2 <<< 8)) ||| 3) / 2 ^ 24 % 256 = 0xFF :=
  ⟨by decide, loadBMP_palette_entry hostLE16 (bmpHeader 1 1 8 1 ++ [1, 2, 3, 4, 9, 0, 0, 0])
    [9, 0, 0, 0] _ 1 0 1 2 3 4 rfl (by decide) (by decide) (by decide) (by decide) (by decide)
    (by decide) (by decide) (by decide) (by decide) (by decide) (by decide)⟩

/-- C5, evaluated at failing inputs: for a header with the `"BM"` magic that declares 24
bits per pixel (and likewise 0, 16 or 32), `8 / biBitCount` is 0 (or the divisor itself
is 0), so the row-length computation divides by zero; neither `loadBMPGraphicFile` nor
`loadImage` returns a buffer. -/
theorem loadImage_division_by_zero :
    loadBMPGraphicFile hostLE16 (some (bmpHeader 1 1 24 0 ++ [1, 2, 3, 0]))
      = .error Fault.divisionByZero
    ∧ loadImage hostLE16 (some (bmpHeader 1 1 24 0 ++ [1, 2, 3, 0])) = .error Fault.divisionByZero
    ∧ loadImage hostLE16 (some (bmpHeader 1 1 0 0)) = .error Fault.divisionByZero
    ∧ loadImage hostLE16 (some (bmpHeader 1 1 16 0 ++ [1, 2, 0, 0])) = .error Fault.divisionByZero
    ∧ loadImage hostLE16 (some (bmpHeader 1 1 32 0 ++ [1, 2, 3, 4])) = .error Fault.divisionByZero := by
  decide

/-- C6, evaluated at a failing input: a 1x1 8-bit BMP whose colors-used field is 257.
The decoder returns a buffer whose palette has 257 entries; with a `colors` field of 16 or
32 bits `colors` is 257, above 256, and with a field of 8 bits `colors` is 1 while the
palette has 257 entries.  The palette invariant fails in each case. -/
theorem loadBMP_palette_invariant_fails :
    (∃ img p, loadBMPGraphicFile hostLE16 (some (bmpHeader 1 1 8 257)) = .ok img
      ∧ img.palt = some p ∧ p.length = 257 ∧ img.colors = 257 ∧ ¬ PaletteInvariant img)
    ∧ (∃ img p, loadBMPGraphicFile hostLE32 (some (bmpHeader 1 1 8 257)) = .ok img
      ∧ img.palt = some p ∧ p.length = 257 ∧ img.colors = 257 ∧ ¬ PaletteInvariant img)
    ∧ (∃ img p, loadBMPGraphicFile hostLE8 (some (bmpHeader 1 1 8 257)) = .ok img
      ∧ img.palt = some p ∧ p.length = 257 ∧ img.colors = 1 ∧ ¬ PaletteInvariant img) := by
  have key : ∀ host : Host, host.littleEndian = true → 1 < host.dimMod →
      ∃ img p, loadBMPGraphicFile host (some (bmpHeader 1 1 8 257)) = .ok img
        ∧ img.palt = some p ∧ p.length = 257 ∧ img.colors = 257 % host.colorsMod
        ∧ ¬ PaletteInvariant img := by
    intro host hle hdim
    obtain ⟨hdr, hhdr⟩ : ∃ hdr, parseHeader true ((bmpHeader 1 1 8 257).take 54) = hdr :=
      ⟨_, rfl⟩
    have hBM : isBM hdr = true := by rw [← hhdr]; decide
    have hw : hdr.biWidth.natAbs = 1 := by rw [← hhdr]; decide
    have hh : hdr.biHeight.natAbs = 1 := by rw [← hhdr]; decide
    have hb : hdr.biBitCount = 8 := by rw [← hhdr]; decide
    have hc : hdr.biClrUsed = 257 := by rw [← hhdr]; decide
    have h1 : 1 % host.dimMod = 1 := Nat.mod_eq_of_lt hdim
    obtain ⟨img, p, hload, hpalt, hplen, hcol⟩ :=
      loadBMPGraphicFile_palette host (bmpHeader 1 1 8 257) hdr 1 (by decide)
        (by rw [hle]; exact hhdr) hBM (by rw [hw, h1]; decide) (by rw [hh, h1]; decide)
        (by rw [hw, hh, h1]; decide) (by rw [hw, hb, h1]; decide) (by rw [hc]; decide)
    rw [hc] at hplen hcol
    refine ⟨img, p, hload, hpalt, hplen, hcol, ?_⟩
    unfold PaletteInvariant
    rw [hpalt]
    simp only [hplen]
    omega
  exact ⟨key hostLE16 rfl (by decide), key hostLE32 rfl (by decide), key hostLE8 rfl (by decide)⟩

/-- C7 (`unpack4BitValues`).  For a length `n` with `2 * n < 2 ^ 31` (the range in which
`(int)length * 2 - 1` is exact) and a destination of `2 * n` bytes that is the source
buffer itself (in place) or does not overlap it: after the call, for every `i < n`,
`dst[2i]` is the high nibble and `dst[2i+1]` the low nibble of the original `src[i]`. -/
theorem unpack4BitValues_nibbles (mem : List Nat) (dst src n : Nat) (hn : 2 * n < 2 ^ 31)
    (hlen : dst + 2 * n ≤ mem.length)
    (halias : dst = src ∨ src + n ≤ dst ∨ dst + 2 * n ≤ src) (i : Nat) (hi : i < n) :
    (unpack4BitValues mem dst src n)[dst + 2 * i]? = some (getByte mem (src + i) / 16 % 16) ∧
    (unpack4BitValues mem dst src n)[dst + 2 * i + 1]? = some (getByte mem (src + i) % 16) := by
  have hcast : (toInt32 n).toNat = n := by
    rw [toInt32_of_lt (by omega)]; rfl
  have hno : ∀ i, i < n → ∀ t, t < i → src + t ≠ dst + 2 * i ∧ src + t ≠ dst + 2 * i + 1 := by
    intro i hi t ht
    omega
  unfold unpack4BitValues
  rw [hcast]
  constructor
  · rw [getElem?_unpackLoop dst src n mem hno hlen, if_pos (by omega), Nat.add_sub_cancel_left]
    have h1 : (2 * i) % 2 = 0 := by omega
    have h2 : (2 * i) / 2 = i := by omega
    rw [if_pos h1, h2]
  · rw [getElem?_unpackLoop dst src n mem hno hlen, if_pos (by omega), Nat.add_assoc,
      Nat.add_sub_cancel_left]
    have h1 : ¬ (2 * i + 1) % 2 = 0 := by omega
    have h2 : (2 * i + 1) / 2 = i := by omega
    rw [if_neg h1, h2]

/-- Witness of C7: the two bytes `0x12 0x34` unpacked in place. -/
theorem unpack4BitValues_nibbles_witness :
    (2 * 2 < 2 ^ 31 ∧ 0 + 2 * 2 ≤ [18, 52, 0, 0].length ∧ 1 < 2) ∧
    ((unpack4BitValues [18, 52, 0, 0] 0 0 2)[0 + 2 * 1]? = some (getByte [18, 52, 0, 0] (0 + 1) / 16 % 16) ∧
     (unpack4BitValues [18, 52, 0, 0] 0 0 2)[0 + 2 * 1 + 1]? = some (getByte [18, 52, 0, 0] (0 + 1) % 16)) :=
  ⟨by decide, unpack4BitValues_nibbles [18, 52, 0, 0] 0 0 2 (by decide) (by decide) (Or.inl rfl) 1
    (by decide)⟩

/-- C8 (`loadPBMGraphicFile`).  For a file `"P4\n" + decimal(w) + "\n" + decimal(h) + "\n" +
payload` whose payload has at least `ceil(w/8) * h` bytes, with `w` and `h` representable
in the `width`/`height` fields and in `int`: the decoder returns the buffer of width `w`,
height `h`, `bitWidth` 1, no palette and `colors = 0`, whose data is exactly the first
`ceil(w/8) * h` bytes of the payload. -/
theorem loadPBMGraphicFile_of_pbmFile (host : Host) (w h : Nat) (payload : List Nat)
    (hw : w < host.dimMod) (hh : h < host.dimMod) (_hw2 : w < 2 ^ 31) (_hh2 : h < 2 ^ 31)
    (hpay : (w + 7) / 8 * h ≤ payload.length) :
    loadPBMGraphicFile host (some (pbmFile w h payload))
      = { width := w, height := h, bitWidth := 1, colors := 0,
          data := some (payload.take ((w + 7) / 8 * h)), palt := none }
    ∧ (payload.take ((w + 7) / 8 * h)).length = (w + 7) / 8 * h := by
  have hdw := decimal_readsAs w
  have hdh := decimal_readsAs h
  have hl : (payload.take ((w + 7) / 8 * h)).length = (w + 7) / 8 * h := by
    rw [List.length_take]; omega
  refine ⟨?_, hl⟩
  have e1 : (IStream.opened (pbmFile w h payload)).getline []
      = (magicP4, streamAt (pbmFile w h payload) 3) := by
    rw [getline_of_line (IStream.opened (pbmFile w h payload)) [] magicP4
      (decimal w ++ [10] ++ decimal h ++ [10] ++ payload) rfl
      (by simp [IStream.opened, pbmFile]) (by decide)]
    rfl
  have e2 : (streamAt (pbmFile w h payload) 3).getline magicP4
      = (decimal w, streamAt (pbmFile w h payload) (3 + (decimal w).length + 1)) := by
    rw [getline_of_line (streamAt (pbmFile w h payload) 3) magicP4 (decimal w)
      (decimal h ++ [10] ++ payload) rfl (by simp [pbmFile, magicP4, streamAt])
      (ne_newline_of_readsAs _ _ hdw)]
    rfl
  have hdrop2 : (pbmFile w h payload).drop (3 + (decimal w).length + 1)
      = decimal h ++ 10 :: payload := by
    have : pbmFile w h payload
        = (magicP4 ++ [10] ++ decimal w ++ [10]) ++ (decimal h ++ 10 :: payload) := by
      simp [pbmFile]
    rw [this]
    exact List.drop_left' (by simp [magicP4]; omega)
  have e3 : (streamAt (pbmFile w h payload) (3 + (decimal w).length + 1)).getline (decimal w)
      = (decimal h, streamAt (pbmFile w h payload)
          (3 + (decimal w).length + 1 + (decimal h).length + 1)) := by
    rw [getline_of_line (streamAt (pbmFile w h payload) (3 + (decimal w).length + 1))
      (decimal w) (decimal h) payload rfl hdrop2 (ne_newline_of_readsAs _ _ hdh)]
    rfl
  have hdrop3 : (pbmFile w h payload).drop
      (3 + (decimal w).length + 1 + (decimal h).length + 1) = payload := by
    have : pbmFile w h payload
        = (magicP4 ++ [10] ++ decimal w ++ [10] ++ decimal h ++ [10]) ++ payload := by
      simp [pbmFile]
    rw [this]
    exact List.drop_left' (by simp [magicP4]; omega)
  have e4 : ((streamAt (pbmFile w h payload)
      (3 + (decimal w).length + 1 + (decimal h).length + 1)).read ((w + 7) / 8 * h)).1
      = payload.take ((w + 7) / 8 * h) := by
    rw [read_fst_of_good (streamAt (pbmFile w h payload)
      (3 + (decimal w).length + 1 + (decimal h).length + 1)) _ rfl]
    simp only [streamAt, hdrop3]
  unfold loadPBMGraphicFile
  simp only [e1, e2, e3, ne_eq, not_true_eq_false, if_false, atoi_of_readsAs _ _ hdw,
    atoi_of_readsAs _ _ hdh, toField_of_lt _ _ hw, toField_of_lt _ _ hh,
    Nat.shiftRight_eq_div_pow, e4]
  have hfill := fillBlock_of_length host.heapJunk (payload.take ((w + 7) / 8 * h))
  rw [hl] at hfill
  simp only [Nat.reducePow, hfill]

/-- Witness of C8: the file `"P4\n2\n1\n"` followed by the byte `0x80` gives the 2x1
buffer with data `[0x80]`. -/
theorem loadPBMGraphicFile_of_pbmFile_witness :
    (2 < hostLE16.dimMod ∧ 1 < hostLE16.dimMod ∧ (2 + 7) / 8 * 1 ≤ [128].length
      ∧ pbmFile 2 1 [128] = [80, 52, 10, 50, 10, 49, 10, 128]
      ∧ loadPBMGraphicFile hostLE16 (some [80, 52, 10, 50, 10, 49, 10, 128])
        = { width := 2, height := 1, bitWidth := 1, colors := 0, data := some [128],
            palt := none }) ∧
    (loadPBMGraphicFile hostLE16 (some (pbmFile 2 1 [128]))
      = { width := 2, height := 1, bitWidth := 1, colors := 0,
          data := some (([128] : List Nat).take ((2 + 7) / 8 * 1)), palt := none }
    ∧ (([128] : List Nat).take ((2 + 7) / 8 * 1)).length = (2 + 7) / 8 * 1) :=
  ⟨by decide, loadPBMGraphicFile_of_pbmFile hostLE16 2 1 [128] (by decide) (by decide)
    (by decide) (by decide) (by decide)⟩

/-- The state after the loops of `convertMonochromeBitmapToPixmap`. -/
theorem convLoop_inv (mono : List Nat) (w h : Nat) : ImageInv mono w h h (convLoop mono w h) := by
  unfold convLoop
  apply foldl_range_invariant (ImageInv mono w h)
  · refine ⟨by simp, by simp, by simp, ?_⟩
    intro y' x hy'
    omega
  · intro i b hi hb
    exact convRow_imageInv mono _ _ i b hi hb

/-- The value of `convertMonochromeBitmapToPixmap` on an allocated raster whose sizes are
within the range of `int`. -/
theorem convertMonochrome_of_data (monochrome : TImage) (mono : List Nat)
    (hdata : monochrome.data = some mono) (hw31 : monochrome.width < 2 ^ 31)
    (hh31 : monochrome.height < 2 ^ 31)
    (hsz : monochrome.width * monochrome.height < 2 ^ 31) :
    convertMonochromeBitmapToPixmap monochrome
      = .ok { width := monochrome.width, height := monochrome.height, bitWidth := 8,
              colors := 0, data := some (convLoop mono monochrome.width monochrome.height).out,
              palt := none } := by
  have hno : ¬ (2 ^ 31 ≤ monochrome.width ∨ 2 ^ 31 ≤ monochrome.height
      ∨ 2 ^ 31 ≤ monochrome.width * monochrome.height) := by omega
  unfold convertMonochromeBitmapToPixmap
  rw [if_neg hno, hdata]

/-- C9 (`convertMonochromeBitmapToPixmap`).  For a 1-bit raster of width `w` and height
`h` (both, and `w * h`, below 2^31, the range of the `int` arithmetic of the code) whose
data has `ceil(w/8) * h` bytes, the result has `bitWidth` 8, width `w`, height
`h` and `w * h` data bytes, and byte `y * w + x` is 1 if bit `7 - x mod 8` of the source
byte `y * ceil(w/8) + x div 8` is set and 0 otherwise; hence an all-zero source gives an
all-zero pixmap and a source of `0xFF` bytes an all-one pixmap. -/
theorem convertMonochrome_pixels (monochrome : TImage) (mono : List Nat)
    (hdata : monochrome.data = some mono)
    (hlen : mono.length = (monochrome.width + 7) / 8 * monochrome.height)
    (hw31 : monochrome.width < 2 ^ 31) (hh31 : monochrome.height < 2 ^ 31)
    (hsz : monochrome.width * monochrome.height < 2 ^ 31) :
    ∃ out, convertMonochromeBitmapToPixmap monochrome
        = .ok { width := monochrome.width, height := monochrome.height, bitWidth := 8,
                colors := 0, data := some out, palt := none }
      ∧ out.length = monochrome.width * monochrome.height
      ∧ (∀ x y, x < monochrome.width → y < monochrome.height →
          out[y * monochrome.width + x]? = some (monoPixel mono monochrome.width x y))
      ∧ ((∀ v ∈ mono, v = 0) → ∀ k, k < monochrome.width * monochrome.height → out[k]? = some 0)
      ∧ ((∀ v ∈ mono, v = 255) → ∀ k, k < monochrome.width * monochrome.height →
          out[k]? = some 1) := by
  obtain ⟨_, _, holen, hout⟩ := convLoop_inv mono monochrome.width monochrome.height
  have hpix : ∀ k, k < monochrome.width * monochrome.height →
      ∃ x y, x < monochrome.width ∧ y < monochrome.height ∧ k = y * monochrome.width + x := by
    intro k hk
    have hwpos : 0 < monochrome.width := by
      rcases Nat.eq_zero_or_pos monochrome.width with h0 | h0
      · rw [h0, Nat.zero_mul] at hk; omega
      · exact h0
    refine ⟨k % monochrome.width, k / monochrome.width, Nat.mod_lt _ hwpos,
      (Nat.div_lt_iff_lt_mul hwpos).mpr (by rw [Nat.mul_comm]; exact hk), ?_⟩
    rw [Nat.mul_comm]
    exact (Nat.div_add_mod k monochrome.width).symm
  refine ⟨_, convertMonochrome_of_data monochrome mono hdata hw31 hh31 hsz, holen,
    fun x y hx hy => hout y x hy hx, ?_, ?_⟩
  · intro hzero k hk
    obtain ⟨x, y, hx, hy, rfl⟩ := hpix k hk
    rw [hout y x hy hx]
    have hb : getByte mono (y * ((monochrome.width + 7) / 8) + x / 8) = 0 := by
      unfold getByte
      cases hget : mono[y * ((monochrome.width + 7) / 8) + x / 8]? with
      | none => rfl
      | some v => exact hzero v (List.getElem?_mem hget)
    simp [monoPixel, hb]
  · intro hones k hk
    obtain ⟨x, y, hx, hy, rfl⟩ := hpix k hk
    rw [hout y x hy hx]
    have hidx : y * ((monochrome.width + 7) / 8) + x / 8 < mono.length := by
      rw [hlen]
      have e1 : (y + 1) * ((monochrome.width + 7) / 8)
          ≤ monochrome.height * ((monochrome.width + 7) / 8) := Nat.mul_le_mul_right _ hy
      have e2 : (y + 1) * ((monochrome.width + 7) / 8)
          = y * ((monochrome.width + 7) / 8) + (monochrome.width + 7) / 8 := Nat.succ_mul _ _
      have e3 : (monochrome.width + 7) / 8 * monochrome.height
          = monochrome.height * ((monochrome.width + 7) / 8) := Nat.mul_comm _ _
      omega
    have hb : getByte mono (y * ((monochrome.width + 7) / 8) + x / 8) = 255 := by
      unfold getByte
      rw [List.getElem?_eq_getElem hidx]
      exact hones _ (List.getElem_mem _)
    have ht := testBit_255 (7 - x % 8) (by omega)
    simp [monoPixel, hb, ht]

/-- Witness of C9: the 2x1 raster `[0x80]` converts to `[1, 0]`. -/
theorem convertMonochrome_pixels_witness :
    (([128] : List Nat).length = (2 + 7) / 8 * 1 ∧ 2 < 2 ^ 31 ∧ 1 < 2 ^ 31 ∧ 2 * 1 < 2 ^ 31
      ∧ convertMonochromeBitmapToPixmap
          { width := 2, height := 1, bitWidth := 1, colors := 0, data := some [128], palt := none }
        = .ok { width := 2, height := 1, bitWidth := 8, colors := 0, data := some [1, 0],
                palt := none }) ∧
    ∃ out, convertMonochromeBitmapToPixmap
          { width := 2, height := 1, bitWidth := 1, colors := 0, data := some [128], palt := none }
        = .ok { width := 2, height := 1, bitWidth := 8, colors := 0, data := some out,
                palt := none }
      ∧ out.length = 2 * 1
      ∧ (∀ x y, x < 2 → y < 1 → out[y * 2 + x]? = some (monoPixel [128] 2 x y))
      ∧ ((∀ v ∈ ([128] : List Nat), v = 0) → ∀ k, k < 2 * 1 → out[k]? = some 0)
      ∧ ((∀ v ∈ ([128] : List Nat), v = 255) → ∀ k, k < 2 * 1 → out[k]? = some 1) :=
  ⟨by decide, convertMonochrome_pixels
    { width := 2, height := 1, bitWidth := 1, colors := 0, data := some [128], palt := none }
    [128] rfl (by decide) (by decide) (by decide) (by decide)⟩

/-- Where `convertMonochromeBitmapToPixmap` has no result: a byte count beyond the range
of `int` (the 65535x32769 raster), and a null `data` with a pixel to convert. -/
theorem convertMonochrome_faults :
    convertMonochromeBitmapToPixmap
        { width := 65535, height := 32769, bitWidth := 1, colors := 0, data := some [],
          palt := none } = .error .sizeOverflow
      ∧ convertMonochromeBitmapToPixmap
        { width := 2, height := 1, bitWidth := 1, colors := 0, data := none, palt := none }
          = .error .nullData := by
  decide

/-- C10 (`extractImageSectionMasked`).  For an allocated 8-bit raster of width `W` and
height `H` (both below 65536 and representable in the `width`/`height` fields, `W * H`
below 2^31, data of `W * H` bytes) and a mask colour `m`, if some pixel differs from `m`
then the result is a new pixmap on the minimal bounding box of the non-mask pixels: with
`minX`, `maxX`, `minY`, `maxY` the least and greatest column and row of the pixels that
differ from `m`, it has width `maxX - minX + 1`, height `maxY - minY + 1`, and its pixel
`(i, j)` is the source pixel `(minX + i, minY + j)`.  When `(x0, y0)` is the only non-mask
pixel, the result is the 1x1 image that holds its value. -/
theorem extractImageSectionMasked_box (host : Host) (image : TImage) (p : List Nat) (m : Nat)
    (hdata : image.data = some p) (_hlen : p.length = image.width * image.height)
    (hm : m < 256) (hW : image.width < 65536) (hH : image.height < 65536)
    (hdimW : image.width < host.dimMod) (hdimH : image.height < host.dimMod)
    (hsz : image.width * image.height < 2 ^ 31)
    (hex : ∃ x y, x < image.width ∧ y < image.height ∧ getByte p (x + y * image.width) ≠ m) :
    (∃ minX maxX minY maxY out,
      IsLeast {x | ∃ y, x < image.width ∧ y < image.height
        ∧ getByte p (x + y * image.width) ≠ m} minX
      ∧ IsGreatest {x | ∃ y, x < image.width ∧ y < image.height
        ∧ getByte p (x + y * image.width) ≠ m} maxX
      ∧ IsLeast {y | ∃ x, x < image.width ∧ y < image.height
        ∧ getByte p (x + y * image.width) ≠ m} minY
      ∧ IsGreatest {y | ∃ x, x < image.width ∧ y < image.height
        ∧ getByte p (x + y * image.width) ≠ m} maxY
      ∧ extractImageSectionMasked host image m
        = .ok { width := maxX - minX + 1, height := maxY - minY + 1, bitWidth := 8,
                colors := 0, data := some out, palt := none }
      ∧ out.length = (maxX - minX + 1) * (maxY - minY + 1)
      ∧ ∀ i j, i < maxX - minX + 1 → j < maxY - minY + 1 →
          out[i + j * (maxX - minX + 1)]?
            = some (getByte p (minX + i + (minY + j) * image.width)))
    ∧ ∀ x0 y0, (∀ x y, x < image.width → y < image.height →
          getByte p (x + y * image.width) ≠ m → x = x0 ∧ y = y0) →
        extractImageSectionMasked host image m
          = .ok { width := 1, height := 1, bitWidth := 8, colors := 0,
                  data := some [getByte p (x0 + y0 * image.width)], palt := none } := by
  obtain ⟨minX, maxX, minY, maxY, hb, hminX, hmaxX, hminY, hmaxY⟩ :=
    scanBounds_of_nonmask p image.width image.height m hex
  obtain ⟨y1, hx1, _, _⟩ := hminX.1
  obtain ⟨y2, hx2, _, _⟩ := hmaxX.1
  obtain ⟨x3, _, hy3, _⟩ := hminY.1
  obtain ⟨x4, _, hy4, _⟩ := hmaxY.1
  have hxle : minX ≤ maxX := hminX.2 hmaxX.1
  have hyle : minY ≤ maxY := hminY.2 hmaxY.1
  have hres := extractImageSectionMasked_of_bounds host image p m minX maxX minY maxY hdata hm
    hb hxle hyle hx2 hy4 hW hH hdimW hdimH hsz
  obtain ⟨clen, cin, _⟩ := copyLoop_spec
    (fillBlock host.heapJunk ((maxX - minX + 1) * (maxY - minY + 1)) []) p
    (maxX - minX + 1) image.width 0 0 minX minY (maxX - minX + 1) (maxY - minY + 1)
    (by omega) (by rw [length_fillBlock, Nat.zero_add, Nat.mul_comm])
  have hpix : ∀ i j, i < maxX - minX + 1 → j < maxY - minY + 1 →
      (copyLoop (fillBlock host.heapJunk ((maxX - minX + 1) * (maxY - minY + 1)) [])
        (maxX - minX + 1) ((0 : Nat) : Int) ((0 : Nat) : Int) p image.width
        (minX : Int) (minY : Int) (maxX - minX + 1) (maxY - minY + 1))[i + j * (maxX - minX + 1)]?
        = some (getByte p (minX + i + (minY + j) * image.width)) := by
    intro i j hi hj
    have h := cin i j hi hj
    rw [Nat.add_zero, Nat.add_zero, Nat.add_comm i minX, Nat.add_comm j minY] at h
    exact h
  refine ⟨⟨minX, maxX, minY, maxY, _, hminX, hmaxX, hminY, hmaxY, hres, ?_, hpix⟩, ?_⟩
  · rw [clen, length_fillBlock]
  · intro x0 y0 honly
    have a1 := honly minX y1 hx1 (by assumption) (by assumption)
    have a2 := honly maxX y2 hx2 (by assumption) (by assumption)
    have a3 := honly x3 minY (by assumption) hy3 (by assumption)
    have a4 := honly x4 maxY (by assumption) hy4 (by assumption)
    have e1 : minX = x0 := a1.1
    have e2 : maxX = x0 := a2.1
    have e3 : minY = y0 := a3.2
    have e4 : maxY = y0 := a4.2
    have hp := hpix 0 0 (by omega) (by omega)
    have hl := clen
    rw [length_fillBlock] at hl
    rw [hres]
    rw [e1, e2, e3, e4] at hp hl ⊢
    simp only [Nat.sub_self, Nat.zero_add, Nat.add_zero, Nat.mul_one, Nat.zero_mul] at hp hl ⊢
    generalize copyLoop (fillBlock host.heapJunk 1 []) 1 ((0 : Nat) : Int) ((0 : Nat) : Int) p
      image.width (x0 : Int) (y0 : Int) 1 1 = out at hp hl
    obtain ⟨v, rfl⟩ := List.length_eq_one.mp hl
    simp only [List.getElem?_cons_zero, Option.some.injEq] at hp
    rw [hp]

/-- Witness of C10: in the 3x3 image with the pixels 5 at `(2, 1)` and 6 at `(1, 2)` the
bounding box is `[1, 2] x [1, 2]` and the result is the 2x2 image `[0, 5, 6, 0]`. -/
theorem extractImageSectionMasked_box_witness :
    (extractImageSectionMasked hostLE16
        { width := 3, height := 3, bitWidth := 8, colors := 0,
          data := some [0, 0, 0, 0, 0, 5, 0, 6, 0], palt := none } 0
      = .ok { width := 2, height := 2, bitWidth := 8, colors := 0, data := some [0, 5, 6, 0],
              palt := none }
      ∧ ∃ x y, x < 3 ∧ y < 3 ∧ getByte [0, 0, 0, 0, 0, 5, 0, 6, 0] (x + y * 3) ≠ 0) ∧
    ((∃ minX maxX minY maxY out,
      IsLeast {x | ∃ y, x < 3 ∧ y < 3 ∧ getByte [0, 0, 0, 0, 0, 5, 0, 6, 0] (x + y * 3) ≠ 0} minX
      ∧ IsGreatest {x | ∃ y, x < 3 ∧ y < 3
        ∧ getByte [0, 0, 0, 0, 0, 5, 0, 6, 0] (x + y * 3) ≠ 0} maxX
      ∧ IsLeast {y | ∃ x, x < 3 ∧ y < 3 ∧ getByte [0, 0, 0, 0, 0, 5, 0, 6, 0] (x + y * 3) ≠ 0} minY
      ∧ IsGreatest {y | ∃ x, x < 3 ∧ y < 3
        ∧ getByte [0, 0, 0, 0, 0, 5, 0, 6, 0] (x + y * 3) ≠ 0} maxY
      ∧ extractImageSectionMasked hostLE16
          { width := 3, height := 3, bitWidth := 8, colors := 0,
            data := some [0, 0, 0, 0, 0, 5, 0, 6, 0], palt := none } 0
        = .ok { width := maxX - minX + 1, height := maxY - minY + 1, bitWidth := 8,
                colors := 0, data := some out, palt := none }
      ∧ out.length = (maxX - minX + 1) * (maxY - minY + 1)
      ∧ ∀ i j, i < maxX - minX + 1 → j < maxY - minY + 1 →
          out[i + j * (maxX - minX + 1)]?
            = some (getByte [0, 0, 0, 0, 0, 5, 0, 6, 0] (minX + i + (minY + j) * 3)))
    ∧ ∀ x0 y0, (∀ x y, x < 3 → y < 3 →
          getByte [0, 0, 0, 0, 0, 5, 0, 6, 0] (x + y * 3) ≠ 0 → x = x0 ∧ y = y0) →
        extractImageSectionMasked hostLE16
            { width := 3, height := 3, bitWidth := 8, colors := 0,
              data := some [0, 0, 0, 0, 0, 5, 0, 6, 0], palt := none } 0
          = .ok { width := 1, height := 1, bitWidth := 8, colors := 0,
                  data := some [getByte [0, 0, 0, 0, 0, 5, 0, 6, 0] (x0 + y0 * 3)],
                  palt := none }) :=
  ⟨⟨by decide, 2, 1, by decide⟩,
    extractImageSectionMasked_box hostLE16
      { width := 3, height := 3, bitWidth := 8, colors := 0,
        data := some [0, 0, 0, 0, 0, 5, 0, 6, 0], palt := none }
      [0, 0, 0, 0, 0, 5, 0, 6, 0] 0 rfl (by decide) (by decide) (by decide) (by decide)
      (by decide) (by decide) (by decide) ⟨2, 1, by decide⟩⟩

/-! ## `containsImage`, `copyPixmap` and the unpacked window -/

theorem containsRows_eq_true (mem : List Nat) (width w : Nat) : ∀ (h p : Nat),
    containsRows mem width w h p = true
      ↔ ∃ i j, i < w ∧ j < h ∧ getByte mem (p + j * width + i) ≠ 0 := by
  intro h
  induction h with
  | zero =>
    intro p
    simp [containsRows]
  | succ h ih =>
    intro p
    rw [containsRows]
    by_cases hany : (List.range w).any (fun i => getByte mem (p + i) != 0) = true
    · rw [if_pos hany]
      simp only [true_iff]
      obtain ⟨i, hi, hne⟩ := List.any_eq_true.mp hany
      refine ⟨i, 0, List.mem_range.mp hi, by omega, ?_⟩
      simpa using hne
    · rw [if_neg hany, ih]
      constructor
      · rintro ⟨i, j, hi, hj, hne⟩
        refine ⟨i, j + 1, hi, by omega, ?_⟩
        rw [Nat.succ_mul, ← Nat.add_assoc, Nat.add_right_comm p (j * width) width]
        exact hne
      · rintro ⟨i, j, hi, hj, hne⟩
        cases j with
        | zero =>
          exfalso
          apply hany
          apply List.any_eq_true.mpr
          refine ⟨i, List.mem_range.mpr hi, ?_⟩
          simpa using hne
        | succ j =>
          refine ⟨i, j, hi, by omega, ?_⟩
          rw [Nat.succ_mul, ← Nat.add_assoc, Nat.add_right_comm p (j * width) width] at hne
          exact hne

/-- The window of `2 * n` unpacked samples that `unpack4BitValues` leaves at `dst`. -/
theorem unpack_window (mem : List Nat) (dst src n : Nat) (hn : 2 * n < 2 ^ 31)
    (hlen : dst + 2 * n ≤ mem.length)
    (halias : dst = src ∨ src + n ≤ dst ∨ dst + 2 * n ≤ src) :
    (((unpack4BitValues mem dst src n).drop dst).take (2 * n)).length = 2 * n
    ∧ ∀ k, k < 2 * n → (((unpack4BitValues mem dst src n).drop dst).take (2 * n))[k]?
        = some (if k % 2 = 0 then getByte mem (src + k / 2) / 16 % 16
                else getByte mem (src + k / 2) % 16) := by
  have hcast : (toInt32 n).toNat = n := by
    rw [toInt32_of_lt (by omega)]; rfl
  have hno : ∀ i, i < n → ∀ t, t < i → src + t ≠ dst + 2 * i ∧ src + t ≠ dst + 2 * i + 1 := by
    intro i hi t ht
    omega
  unfold unpack4BitValues
  rw [hcast]
  constructor
  · rw [List.length_take, List.length_drop, length_unpackLoop]
    omega
  · intro k hk
    have hc : dst ≤ dst + k ∧ dst + k < dst + 2 * n := by omega
    rw [List.getElem?_take_of_lt hk, List.getElem?_drop,
      getElem?_unpackLoop dst src n mem hno hlen, if_pos hc, Nat.add_sub_cancel_left]

/-! ## Claims, continued -/

/-- C11, evaluated at a failing input: the 1x1 image whose only pixel has the mask colour
(0), with a palette of three entries.  The scan ends with `minX = maxX = 0` and
`minY = maxY = 0`, the test `maxX < minX || maxY < minY` fails, and the result is a newly
allocated 1x1 pixmap without the palette (`colors = 0`), not the input image; the same
for `extractImageSection`.  On the 2x1 image of two mask pixels the input is returned. -/
theorem extractImageSectionMasked_all_mask_1x1 :
    extractImageSectionMasked hostLE16
        { width := 1, height := 1, bitWidth := 8, colors := 3, data := some [0],
          palt := some [4278190080, 4278190081, 4278190082] } 0
      = .ok { width := 1, height := 1, bitWidth := 8, colors := 0, data := some [0],
              palt := none }
    ∧ extractImageSection hostLE16
        { width := 1, height := 1, bitWidth := 8, colors := 3, data := some [0],
          palt := some [4278190080, 4278190081, 4278190082] }
      = .ok { width := 1, height := 1, bitWidth := 8, colors := 0, data := some [0],
              palt := none }
    ∧ extractImageSectionMasked hostLE16
        { width := 2, height := 1, bitWidth := 8, colors := 3, data := some [0, 0],
          palt := some [4278190080, 4278190081, 4278190082] } 0
      = .ok { width := 2, height := 1, bitWidth := 8, colors := 3, data := some [0, 0],
              palt := some [4278190080, 4278190081, 4278190082] } := by
  decide

/-- C12 (`containsImage`).  For an 8-bit raster of width `W` and height `H` and 16-bit
`x`, `y`, `w`, `h`: the call returns `true` if and only if the image is allocated,
`x + w ≤ W`, `y + h ≤ H`, and some byte `data[(y+j)*W + (x+i)]` with `i < w`, `j < h` is
not zero; so it returns `false` for an unallocated image, for a rectangle that exceeds
the bounds and for an empty rectangle. -/
theorem containsImage_iff (image : TImage) (x y w h : Nat)
    (_hlen : ∀ mem, image.data = some mem → mem.length = image.width * image.height)
    (hx : x < 65536) (hy : y < 65536) (hw : w < 65536) (hh : h < 65536) :
    (containsImage image x y w h = true
      ↔ ∃ mem, image.data = some mem ∧ x + w ≤ image.width ∧ y + h ≤ image.height
          ∧ ∃ i j, i < w ∧ j < h ∧ getByte mem ((y + j) * image.width + (x + i)) ≠ 0)
    ∧ (image.data = none → containsImage image x y w h = false)
    ∧ (x + w > image.width ∨ y + h > image.height → containsImage image x y w h = false)
    ∧ (w = 0 ∨ h = 0 → containsImage image x y w h = false) := by
  have hmain : containsImage image x y w h = true
      ↔ ∃ mem, image.data = some mem ∧ x + w ≤ image.width ∧ y + h ≤ image.height
          ∧ ∃ i j, i < w ∧ j < h ∧ getByte mem ((y + j) * image.width + (x + i)) ≠ 0 := by
    unfold containsImage
    rw [Nat.mod_eq_of_lt hx, Nat.mod_eq_of_lt hy, Nat.mod_eq_of_lt hw, Nat.mod_eq_of_lt hh]
    cases hdata : image.data with
    | none => simp
    | some mem =>
      simp only [Option.some.injEq, exists_eq_left']
      by_cases hout : x + w > image.width ∨ y + h > image.height
      · rw [if_pos hout]
        constructor
        · intro hf; exact absurd hf (by simp)
        · rintro ⟨h1, h2, _⟩; omega
      · rw [if_neg hout, containsRows_eq_true]
        have hidx : ∀ i j, x + y * image.width + j * image.width + i
            = (y + j) * image.width + (x + i) := by
          intro i j
          rw [Nat.add_mul]; omega
        constructor
        · rintro ⟨i, j, hi, hj, hne⟩
          exact ⟨by omega, by omega, i, j, hi, hj, by rw [← hidx]; exact hne⟩
        · rintro ⟨_, _, i, j, hi, hj, hne⟩
          exact ⟨i, j, hi, hj, by rw [hidx]; exact hne⟩
  refine ⟨hmain, ?_, ?_, ?_⟩
  · intro hnone
    cases hc : containsImage image x y w h with
    | false => rfl
    | true =>
      obtain ⟨mem, hm, _⟩ := hmain.mp hc
      rw [hnone] at hm
      exact absurd hm (by simp)
  · intro hout
    cases hc : containsImage image x y w h with
    | false => rfl
    | true =>
      obtain ⟨mem, _, h1, h2, _⟩ := hmain.mp hc
      omega
  · intro hempty
    cases hc : containsImage image x y w h with
    | false => rfl
    | true =>
      obtain ⟨mem, _, _, _, i, j, hi, hj, _⟩ := hmain.mp hc
      omega

/-- Witness of C12: the 3x3 image with the pixels 5 at `(2, 1)` and 6 at `(1, 2)` and the
rectangle `(1, 1, 2, 2)`. -/
theorem containsImage_iff_witness :
    ((∀ mem, sampleImage.data = some mem → mem.length = sampleImage.width * sampleImage.height)
      ∧ containsImage sampleImage 1 1 2 2 = true ∧ containsImage sampleImage 0 0 2 2 = false) ∧
    ((containsImage sampleImage 1 1 2 2 = true
      ↔ ∃ mem, sampleImage.data = some mem ∧ 1 + 2 ≤ sampleImage.width
          ∧ 1 + 2 ≤ sampleImage.height
          ∧ ∃ i j, i < 2 ∧ j < 2 ∧ getByte mem ((1 + j) * sampleImage.width + (1 + i)) ≠ 0)
    ∧ (sampleImage.data = none → containsImage sampleImage 1 1 2 2 = false)
    ∧ (1 + 2 > sampleImage.width ∨ 1 + 2 > sampleImage.height →
        containsImage sampleImage 1 1 2 2 = false)
    ∧ (2 = 0 ∨ 2 = 0 → containsImage sampleImage 1 1 2 2 = false)) :=
  ⟨⟨fun mem hm => by cases hm; rfl, by decide, by decide⟩,
    containsImage_iff sampleImage 1 1 2 2 (fun mem hm => by cases hm; rfl) (by decide)
      (by decide) (by decide) (by decide)⟩

/-- C13 (`copyPixmap`).  For two distinct allocated 8-bit rasters and a `w x h` rectangle
(`w`, `h` below 65536) that fits inside both: afterwards `dst` pixel `(dx+i, dy+j)` equals
`src` pixel `(sx+i, sy+j)` for every `i < w`, `j < h`, every other byte of `dst` is
unchanged, and the other fields of `dst` are unchanged (`src` is only read).  If either
buffer is unallocated the call leaves `dst` as it was. -/
theorem copyPixmap_rectangle (dst src : TImage) (d s : List Nat) (dx dy sx sy w h : Nat)
    (hd : dst.data = some d) (hs : src.data = some s)
    (hdl : d.length = dst.width * dst.height) (hsl : s.length = src.width * src.height)
    (hw : w < 65536) (hh : h < 65536)
    (hdx : dx + w ≤ dst.width) (hdy : dy + h ≤ dst.height)
    (hsx : sx + w ≤ src.width) (hsy : sy + h ≤ src.height) :
    (∃ out, copyPixmap dst (dx : Int) (dy : Int) src (sx : Int) (sy : Int) w h
        = { dst with data := some out }
      ∧ out.length = d.length
      ∧ (∀ i j, i < w → j < h →
          dx + i + (dy + j) * dst.width < out.length
          ∧ out[dx + i + (dy + j) * dst.width]? = s[sx + i + (sy + j) * src.width]?)
      ∧ (∀ k, (∀ i j, i < w → j < h → k ≠ dx + i + (dy + j) * dst.width) → out[k]? = d[k]?))
    ∧ ∀ (dst2 src2 : TImage) (dx2 dy2 sx2 sy2 : Int) (w2 h2 : Nat),
        dst2.data = none ∨ src2.data = none →
          copyPixmap dst2 dx2 dy2 src2 sx2 sy2 w2 h2 = dst2 := by
  constructor
  · have hmem : (dy + h) * dst.width ≤ d.length := by
      rw [hdl, Nat.mul_comm dst.width]
      exact Nat.mul_le_mul_right _ hdy
    obtain ⟨clen, cin, cout⟩ := copyLoop_spec d s dst.width src.width dx dy sx sy w h hdx hmem
    refine ⟨_, ?_, clen, ?_, ?_⟩
    · unfold copyPixmap
      rw [hd, hs, Nat.mod_eq_of_lt hw, Nat.mod_eq_of_lt hh]
    · intro i j hi hj
      have e1 : (dy + j + 1) * dst.width ≤ (dy + h) * dst.width :=
        Nat.mul_le_mul_right _ (by omega)
      have e2 : (dy + j + 1) * dst.width = (dy + j) * dst.width + dst.width := Nat.succ_mul _ _
      have e3 : (sy + j + 1) * src.width ≤ src.height * src.width :=
        Nat.mul_le_mul_right _ (by omega)
      have e4 : (sy + j + 1) * src.width = (sy + j) * src.width + src.width := Nat.succ_mul _ _
      have e5 : src.width * src.height = src.height * src.width := Nat.mul_comm _ _
      have hsrc : sx + i + (sy + j) * src.width < s.length := by omega
      refine ⟨by rw [clen]; omega, ?_⟩
      have h1 := cin i j hi hj
      rw [Nat.add_comm i dx, Nat.add_comm j dy, Nat.add_comm i sx, Nat.add_comm j sy] at h1
      rw [h1, getElem?_eq_some_getByte s _ hsrc]
    · intro k hk
      apply cout k
      intro i j hi hj
      have := hk i j hi hj
      rw [Nat.add_comm i dx, Nat.add_comm j dy]
      exact this
  · intro dst2 src2 dx2 dy2 sx2 sy2 w2 h2 hnone
    unfold copyPixmap
    cases hd2 : dst2.data with
    | none => rfl
    | some d2 =>
      cases hs2 : src2.data with
      | none => rfl
      | some s2 =>
        rw [hd2, hs2] at hnone
        rcases hnone with h1 | h1 <;> exact absurd h1 (by simp)

/-- Witness of C13: the 2x2 rectangle at `(1, 1)` of the 3x3 sample image copied to
`(0, 0)` of a 2x2 pixmap. -/
theorem copyPixmap_rectangle_witness :
    (smallImage.data = some [1, 2, 3, 4] ∧ sampleImage.data = some [0, 0, 0, 0, 0, 5, 0, 6, 0]
      ∧ 0 + 2 ≤ smallImage.width ∧ 0 + 2 ≤ smallImage.height
      ∧ 1 + 2 ≤ sampleImage.width ∧ 1 + 2 ≤ sampleImage.height
      ∧ copyPixmap smallImage 0 0 sampleImage 1 1 2 2
        = { width := 2, height := 2, bitWidth := 8, colors := 0, data := some [0, 5, 6, 0],
            palt := none }) ∧
    ((∃ out, copyPixmap smallImage ((0 : Nat) : Int) ((0 : Nat) : Int) sampleImage
          ((1 : Nat) : Int) ((1 : Nat) : Int) 2 2
        = { smallImage with data := some out }
      ∧ out.length = [1, 2, 3, 4].length
      ∧ (∀ i j, i < 2 → j < 2 →
          0 + i + (0 + j) * smallImage.width < out.length
          ∧ out[0 + i + (0 + j) * smallImage.width]?
            = [0, 0, 0, 0, 0, 5, 0, 6, 0][1 + i + (1 + j) * sampleImage.width]?)
      ∧ (∀ k, (∀ i j, i < 2 → j < 2 → k ≠ 0 + i + (0 + j) * smallImage.width) →
          out[k]? = [1, 2, 3, 4][k]?))
    ∧ ∀ (dst2 src2 : TImage) (dx2 dy2 sx2 sy2 : Int) (w2 h2 : Nat),
        dst2.data = none ∨ src2.data = none →
          copyPixmap dst2 dx2 dy2 src2 sx2 sy2 w2 h2 = dst2) :=
  ⟨by decide, copyPixmap_rectangle smallImage sampleImage [1, 2, 3, 4]
    [0, 0, 0, 0, 0, 5, 0, 6, 0] 0 0 1 1 2 2 rfl rfl (by decide) (by decide) (by decide)
    (by decide) (by decide) (by decide) (by decide) (by decide)⟩

theorem repack_of_window (out s : List Nat) (hbytes : ∀ v ∈ s, v < 256)
    (hwin : ∀ k, k < 2 * s.length → out[k]?
      = some (if k % 2 = 0 then getByte s (k / 2) / 16 % 16 else getByte s (k / 2) % 16)) :
    repack4BitValues out s.length = s := by
  apply List.ext_getElem?
  intro i
  unfold repack4BitValues
  by_cases hi : i < s.length
  · have hv : getByte s i < 256 := by
      apply hbytes
      unfold getByte
      rw [List.getElem?_eq_getElem hi]
      exact List.getElem_mem _
    have h0 := hwin (2 * i) (by omega)
    have h1 := hwin (2 * i + 1) (by omega)
    have e0 : (2 * i) % 2 = 0 := by omega
    have e1 : ¬ (2 * i + 1) % 2 = 0 := by omega
    have e2 : (2 * i) / 2 = i := by omega
    have e3 : (2 * i + 1) / 2 = i := by omega
    rw [if_pos e0, e2] at h0
    rw [if_neg e1, e3] at h1
    rw [List.getElem?_map, List.getElem?_range hi, getElem?_eq_some_getByte s i hi]
    simp only [Option.map_some', getByte, h0, h1, Option.getD_some, Option.some.injEq]
    have := hv
    unfold getByte at this
    omega
  · rw [List.getElem?_eq_none (by simp; omega), List.getElem?_eq_none (by omega)]

theorem window_lt_16 (out : List Nat) (f : Nat → Nat) (n : Nat) (hlen : out.length = n)
    (hwin : ∀ k, k < n → out[k]? = some (if k % 2 = 0 then f k / 16 % 16 else f k % 16)) :
    ∀ v ∈ out, v < 16 := by
  intro v hv
  obtain ⟨k, hk⟩ := List.mem_iff_getElem?.mp hv
  have hkn : k < n := by
    rw [← hlen]
    exact (List.getElem?_eq_some.mp hk).1
  rw [hwin k hkn] at hk
  have := Option.some.inj hk
  split at this <;> omega

/-- C15 (unpack / re-pack round trip).  For every sequence `s` of `n` bytes (values below
256, `2 * n < 2 ^ 31`), unpacking `s` with `unpack4BitValues` into `2 * n` one-byte
samples, into a separate buffer `buf` or in place (`s` followed by `n` more bytes `pad`),
and re-packing each pair `(d[2i], d[2i+1])` into `d[2i] * 16 + d[2i+1]` returns exactly
`s`; every unpacked sample is below 16. -/
theorem unpack_repack_roundtrip (s buf pad : List Nat) (hbytes : ∀ v ∈ s, v < 256)
    (hn : 2 * s.length < 2 ^ 31) (hbuf : buf.length = 2 * s.length)
    (hpad : pad.length = s.length) :
    (repack4BitValues ((unpack4BitValues (buf ++ s) 0 (2 * s.length) s.length).take
          (2 * s.length)) s.length = s
      ∧ ((unpack4BitValues (buf ++ s) 0 (2 * s.length) s.length).take (2 * s.length)).length
          = 2 * s.length
      ∧ ∀ v ∈ (unpack4BitValues (buf ++ s) 0 (2 * s.length) s.length).take (2 * s.length),
          v < 16)
    ∧ (repack4BitValues ((unpack4BitValues (s ++ pad) 0 0 s.length).take (2 * s.length))
          s.length = s
      ∧ ((unpack4BitValues (s ++ pad) 0 0 s.length).take (2 * s.length)).length
          = 2 * s.length
      ∧ ∀ v ∈ (unpack4BitValues (s ++ pad) 0 0 s.length).take (2 * s.length), v < 16) := by
  constructor
  · obtain ⟨wlen, win⟩ := unpack_window (buf ++ s) 0 (2 * s.length) s.length hn
      (by rw [List.length_append]; omega) (Or.inr (Or.inr (by omega)))
    rw [List.drop_zero] at wlen win
    have hsrc : ∀ k, k < 2 * s.length →
        getByte (buf ++ s) (2 * s.length + k / 2) = getByte s (k / 2) := by
      intro k hk
      unfold getByte
      rw [List.getElem?_append_right (by omega), hbuf, Nat.add_sub_cancel_left]
    have win2 : ∀ k, k < 2 * s.length →
        ((unpack4BitValues (buf ++ s) 0 (2 * s.length) s.length).take (2 * s.length))[k]?
          = some (if k % 2 = 0 then getByte s (k / 2) / 16 % 16 else getByte s (k / 2) % 16) := by
      intro k hk
      rw [win k hk, hsrc k hk]
    exact ⟨repack_of_window _ s hbytes win2, wlen,
      window_lt_16 _ (fun k => getByte s (k / 2)) _ wlen win2⟩
  · obtain ⟨wlen, win⟩ := unpack_window (s ++ pad) 0 0 s.length hn
      (by rw [List.length_append]; omega) (Or.inl rfl)
    rw [List.drop_zero] at wlen win
    have hsrc : ∀ k, k < 2 * s.length → getByte (s ++ pad) (0 + k / 2) = getByte s (k / 2) := by
      intro k hk
      unfold getByte
      rw [Nat.zero_add, List.getElem?_append_left (by omega)]
    have win2 : ∀ k, k < 2 * s.length →
        ((unpack4BitValues (s ++ pad) 0 0 s.length).take (2 * s.length))[k]?
          = some (if k % 2 = 0 then getByte s (k / 2) / 16 % 16 else getByte s (k / 2) % 16) := by
      intro k hk
      rw [win k hk, hsrc k hk]
    exact ⟨repack_of_window _ s hbytes win2, wlen,
      window_lt_16 _ (fun k => getByte s (k / 2)) _ wlen win2⟩

/-- Witness of C15: the bytes `0x12 0x34` unpack to `1 2 3 4` and re-pack to themselves. -/
theorem unpack_repack_roundtrip_witness :
    ((∀ v ∈ ([18, 52] : List Nat), v < 256) ∧ 2 * ([18, 52] : List Nat).length < 2 ^ 31
      ∧ ([0, 0, 0, 0] : List Nat).length = 2 * ([18, 52] : List Nat).length
      ∧ ([0, 0] : List Nat).length = ([18, 52] : List Nat).length
      ∧ (unpack4BitValues ([0, 0, 0, 0] ++ [18, 52]) 0 (2 * 2) 2).take (2 * 2) = [1, 2, 3, 4]
      ∧ (unpack4BitValues ([18, 52] ++ [0, 0]) 0 0 2).take (2 * 2) = [1, 2, 3, 4]
      ∧ repack4BitValues [1, 2, 3, 4] 2 = [18, 52]) ∧
    ((repack4BitValues ((unpack4BitValues ([0, 0, 0, 0] ++ [18, 52]) 0
          (2 * ([18, 52] : List Nat).length) ([18, 52] : List Nat).length).take
          (2 * ([18, 52] : List Nat).length)) ([18, 52] : List Nat).length = [18, 52]
      ∧ ((unpack4BitValues ([0, 0, 0, 0] ++ [18, 52]) 0 (2 * ([18, 52] : List Nat).length)
          ([18, 52] : List Nat).length).take (2 * ([18, 52] : List Nat).length)).length
          = 2 * ([18, 52] : List Nat).length
      ∧ ∀ v ∈ (unpack4BitValues ([0, 0, 0, 0] ++ [18, 52]) 0 (2 * ([18, 52] : List Nat).length)
          ([18, 52] : List Nat).length).take (2 * ([18, 52] : List Nat).length), v < 16)
    ∧ (repack4BitValues ((unpack4BitValues ([18, 52] ++ [0, 0]) 0 0
          ([18, 52] : List Nat).length).take (2 * ([18, 52] : List Nat).length))
          ([18, 52] : List Nat).length = [18, 52]
      ∧ ((unpack4BitValues ([18, 52] ++ [0, 0]) 0 0 ([18, 52] : List Nat).length).take
          (2 * ([18, 52] : List Nat).length)).length = 2 * ([18, 52] : List Nat).length
      ∧ ∀ v ∈ (unpack4BitValues ([18, 52] ++ [0, 0]) 0 0
          ([18, 52] : List Nat).length).take (2 * ([18, 52] : List Nat).length), v < 16)) :=
  ⟨by decide, unpack_repack_roundtrip [18, 52] [0, 0, 0, 0] [0, 0] (by decide) (by decide)
    (by decide) (by decide)⟩

/-! ## Colour reduction -/

set_option maxRecDepth 8000 in
theorem and_f8 : ∀ r, r < 256 → r &&& 0xF8 = 2 ^ 3 * (r / 8) := by decide

set_option maxRecDepth 8000 in
theorem shl3_and_e0 : ∀ g, g < 256 → (g <<< 3) &&& 0xE0 = 2 ^ 5 * (g / 4 % 8) := by decide

theorem swap16 (v : Nat) (hv : v < 65536) :
    ((v >>> 8) ||| (v <<< 8)) % 2 ^ 16 = v / 256 + 256 * (v % 256) := by
  have h1 : v >>> 8 < 2 ^ 8 := by
    rw [Nat.shiftRight_eq_div_pow]; omega
  have h2 := Nat.mul_add_lt_is_or h1 v
  rw [Nat.lor_comm, Nat.shiftLeft_eq, Nat.mul_comm v, ← h2, Nat.shiftRight_eq_div_pow]
  omega

theorem rgb565_bytes (x y z : Nat) (hx : x < 32) (hy : y < 64) (hz : z < 32) :
    ((z + 2 ^ 5 * y + 2 ^ 11 * x) / 256 + 256 * ((z + 2 ^ 5 * y + 2 ^ 11 * x) % 256)) % 256
        = 8 * x + y / 8
    ∧ ((z + 2 ^ 5 * y + 2 ^ 11 * x) / 256 + 256 * ((z + 2 ^ 5 * y + 2 ^ 11 * x) % 256)) / 256
        % 256 = 32 * (y % 8) + z := by
  have hq : (z + 2 ^ 5 * y + 2 ^ 11 * x) / 256 = 8 * x + y / 8 := by omega
  have hm : (z + 2 ^ 5 * y + 2 ^ 11 * x) % 256 = 32 * (y % 8) + z := by omega
  have hE : 8 * x + y / 8 < 256 := by omega
  have hM : 32 * (y % 8) + z < 256 := by omega
  have hdiv : ∀ E M : Nat, E < 256 → (E + 256 * M) / 256 = M := by
    intro E M h
    omega
  have hmod : ∀ E M : Nat, E < 256 → (E + 256 * M) % 256 = E := by
    intro E M h
    omega
  rw [hq, hm, hdiv _ _ hE, hmod _ _ hE, Nat.mod_eq_of_lt hM]
  exact ⟨rfl, rfl⟩

/-- The two bytes emitted for the palette entry stored on disk as `B G R A`, on a
little-endian host. -/
theorem emittedPixel_of_bgra (B G R A : Nat) (hB : B < 256) (hG : G < 256) (hR : R < 256)
    (hA : A < 256) :
    emittedPixel true (paletteEntry true [B, G, R, A])
      = [8 * (R / 8) + G / 32, 32 * (G / 4 % 8) + B / 8] := by
  rw [paletteEntry_eq true B G R A hB hG hR hA]
  have hr : (0xFF000000 + (B * 65536 + G * 256 + R)) % 256 = R := by omega
  have hg : (0xFF000000 + (B * 65536 + G * 256 + R)) / 2 ^ 8 % 256 = G := by omega
  have hb : (0xFF000000 + (B * 65536 + G * 256 + R)) / 2 ^ 16 % 256 = B := by omega
  have h5 : (R >>> 3) % 2 ^ 5 = R / 8 := by rw [Nat.shiftRight_eq_div_pow]; omega
  have h6 : (G >>> 2) % 2 ^ 6 = G / 4 := by rw [Nat.shiftRight_eq_div_pow]; omega
  have h7 : (B >>> 3) % 2 ^ 5 = B / 8 := by rw [Nat.shiftRight_eq_div_pow]; omega
  have h8 : G / 4 / 8 = G / 32 := by omega
  obtain ⟨e1, e2⟩ := rgb565_bytes (R / 8) (G / 4) (B / 8) (by omega) (by omega) (by omega)
  unfold emittedPixel convertRGBA8888ToRGB565
  simp only [hr, hg, hb, h5, h6, h7, if_true]
  rw [swap16 _ (by omega)]
  simp only [toBytes, leBytes, if_true, e1, e2, h8]

theorem rgb565_word (x y z : Nat) (hx : x < 32) (hy : y < 64) (hz : z < 32) :
    ((((x <<< 11) ||| (y <<< 5)) ||| z) / 256 % 256 = 8 * x + y / 8)
    ∧ ((((x <<< 11) ||| (y <<< 5)) ||| z) % 256 = 32 * (y % 8) + z) := by
  have e1 : y <<< 5 ||| z = 2 ^ 5 * y + z := by
    rw [Nat.shiftLeft_eq, Nat.mul_comm]
    exact (Nat.mul_add_lt_is_or (by omega) y).symm
  have e2 : x <<< 11 ||| (2 ^ 5 * y + z) = 2 ^ 11 * x + (2 ^ 5 * y + z) := by
    rw [Nat.shiftLeft_eq, Nat.mul_comm]
    exact (Nat.mul_add_lt_is_or (by omega) x).symm
  rw [Nat.lor_assoc, e1, e2]
  constructor <;> omega

/-- The palette entry that `loadBMPGraphicFile` produces from four stored bytes. -/
theorem loadBMPGraphicFile_palette_getElem (host : Host) (file rest : List Nat)
    (hdr : BIPHeader) (length i b0 b1 b2 b3 : Nat)
    (hhdr : parseHeader host.littleEndian (file.take 54) = hdr) (hBM : isBM hdr = true)
    (hw : hdr.biWidth.natAbs % host.dimMod < 2 ^ 31)
    (hh : hdr.biHeight.natAbs % host.dimMod < 2 ^ 31)
    (hwh : hdr.biWidth.natAbs % host.dimMod * (hdr.biHeight.natAbs % host.dimMod) < 2 ^ 31)
    (hlen : rowLength (hdr.biWidth.natAbs % host.dimMod) hdr.biBitCount = .ok length)
    (hi : i < hdr.biClrUsed)
    (hentry : file.drop (54 + 4 * i) = [b0, b1, b2, b3] ++ rest) :
    ∃ img p, loadBMPGraphicFile host (some file) = .ok img ∧ img.palt = some p
      ∧ p[i]? = some (paletteEntry host.littleEndian [b0, b1, b2, b3]) := by
  have hfl : 54 + 4 * i + 4 ≤ file.length := by
    have h := congrArg List.length hentry
    rw [List.length_drop] at h
    simp at h
    omega
  have hbyte : ∀ j v, ([b0, b1, b2, b3] ++ rest)[j]? = some v → j < 4 →
      getByte (fillBlock host.heapJunk (4 * hdr.biClrUsed)
        ((afterHeader file).read (hdr.biClrUsed * 4)).1) (4 * i + j) = v := by
    intro j v hv hj
    apply getByte_eq_of_getElem?
    rw [getElem?_fillBlock _ _ _ _ (by omega), read_fst_of_good (afterHeader file) _ rfl]
    have hfile : file[54 + 4 * i + j]? = some v := by
      rw [← List.getElem?_drop, hentry]; exact hv
    simp only [afterHeader]
    rw [List.getElem?_take_of_lt (by omega), List.getElem?_drop, ← Nat.add_assoc, hfile]
    rfl
  have hne : hdr.biClrUsed ≠ 0 := by omega
  refine ⟨_, _, loadBMPGraphicFile_eq host file hdr length (by omega) hhdr hBM hw hh hwh hlen,
    if_pos hne, ?_⟩
  unfold loadPalette
  rw [List.getElem?_map, List.getElem?_range hi]
  have e0 := hbyte 0 b0 (by simp) (by omega)
  have e1 := hbyte 1 b1 (by simp) (by omega)
  have e2 := hbyte 2 b2 (by simp) (by omega)
  have e3 := hbyte 3 b3 (by simp) (by omega)
  simp only [Nat.add_zero] at e0
  simp only [Option.map_some', e0, e1, e2, e3]

/-- C17 (colour reduction, little-endian host).  For a BMP the decoder accepts and a
palette entry `i` stored on disk as the bytes `B G R A`: the two bytes that `main` writes
for a pixel using that entry (`convertRGBA8888ToRGB565` applied to the loaded entry, then
`write` of the 16-bit value) are `(R & 0xF8) | (G >> 5)` and `((G << 3) & 0xE0) | (B >> 3)`,
the big-endian bytes of the RGB565 word `(R>>3)<<11 | (G>>2)<<5 | (B>>3)`; `A` has no
influence. -/
theorem loadBMP_palette_rgb565 (host : Host) (file rest : List Nat) (hdr : BIPHeader)
    (length i B G R A : Nat) (hle : host.littleEndian = true)
    (hhdr : parseHeader host.littleEndian (file.take 54) = hdr) (hBM : isBM hdr = true)
    (hw : hdr.biWidth.natAbs % host.dimMod < 2 ^ 31)
    (hh : hdr.biHeight.natAbs % host.dimMod < 2 ^ 31)
    (hwh : hdr.biWidth.natAbs % host.dimMod * (hdr.biHeight.natAbs % host.dimMod) < 2 ^ 31)
    (hlen : rowLength (hdr.biWidth.natAbs % host.dimMod) hdr.biBitCount = .ok length)
    (hi : i < hdr.biClrUsed)
    (hentry : file.drop (54 + 4 * i) = [B, G, R, A] ++ rest)
    (hB : B < 256) (hG : G < 256) (hR : R < 256) (hA : A < 256) :
    ∃ img p e, loadBMPGraphicFile host (some file) = .ok img ∧ img.palt = some p
      ∧ p[i]? = some e
      ∧ emittedPixel host.littleEndian e
          = [(R &&& 0xF8) ||| (G >>> 5), ((G <<< 3) &&& 0xE0) ||| (B >>> 3)]
      ∧ emittedPixel host.littleEndian e
          = toBytes false 2 ((((R >>> 3) <<< 11) ||| ((G >>> 2) <<< 5)) ||| (B >>> 3)) := by
  obtain ⟨img, p, hload, hpalt, hp⟩ := loadBMPGraphicFile_palette_getElem host file rest hdr
    length i B G R A hhdr hBM hw hh hwh hlen hi hentry
  have hbytes := emittedPixel_of_bgra B G R A hB hG hR hA
  have h1 : (R &&& 0xF8) ||| (G >>> 5) = 8 * (R / 8) + G / 32 := by
    rw [and_f8 R hR, Nat.shiftRight_eq_div_pow]
    exact (Nat.mul_add_lt_is_or (by omega) (R / 8)).symm
  have h2 : ((G <<< 3) &&& 0xE0) ||| (B >>> 3) = 32 * (G / 4 % 8) + B / 8 := by
    rw [shl3_and_e0 G hG, Nat.shiftRight_eq_div_pow]
    exact (Nat.mul_add_lt_is_or (by omega) (G / 4 % 8)).symm
  have h3 : R >>> 3 = R / 8 := by rw [Nat.shiftRight_eq_div_pow]
  have h4 : G >>> 2 = G / 4 := by rw [Nat.shiftRight_eq_div_pow]
  have h5 : B >>> 3 = B / 8 := by rw [Nat.shiftRight_eq_div_pow]
  have h8 : G / 4 / 8 = G / 32 := by omega
  obtain ⟨w1, w2⟩ := rgb565_word (R / 8) (G / 4) (B / 8) (by omega) (by omega) (by omega)
  refine ⟨img, p, _, hload, hpalt, hp, ?_, ?_⟩
  · rw [hle, hbytes, h1, h2]
  · rw [hle, hbytes, h3, h4, h5]
    simp only [toBytes, leBytes, Bool.false_eq_true, if_false, List.reverse_cons,
      List.reverse_nil, List.nil_append, List.cons_append, w1, w2, h8]

/-- Witness of C17: the palette entry stored as `B G R A = 8 4 248 0` of a 1x1 BMP is
written as the bytes `0xF8 0x21`. -/
theorem loadBMP_palette_rgb565_witness :
    (hostLE16.littleEndian = true
      ∧ isBM (parseHeader hostLE16.littleEndian
          ((bmpHeader 1 1 8 1 ++ [8, 4, 248, 0, 9, 0, 0, 0]).take 54)) = true
      ∧ rowLength 1 8 = .ok 1
      ∧ (bmpHeader 1 1 8 1 ++ [8, 4, 248, 0, 9, 0, 0, 0]).drop (54 + 4 * 0)
        = [8, 4, 248, 0] ++ [9, 0, 0, 0]
      ∧ emittedPixel true (paletteEntry true [8, 4, 248, 0]) = [248, 33]) ∧
    ∃ img p e, loadBMPGraphicFile hostLE16 (some (bmpHeader 1 1 8 1 ++ [8, 4, 248, 0, 9, 0, 0, 0]))
        = .ok img ∧ img.palt = some p
      ∧ p[0]? = some e
      ∧ emittedPixel hostLE16.littleEndian e
          = [(248 &&& 0xF8) ||| (4 >>> 5), ((4 <<< 3) &&& 0xE0) ||| (8 >>> 3)]
      ∧ emittedPixel hostLE16.littleEndian e
          = toBytes false 2 ((((248 >>> 3) <<< 11) ||| ((4 >>> 2) <<< 5)) ||| (8 >>> 3)) :=
  ⟨by decide, loadBMP_palette_rgb565 hostLE16 (bmpHeader 1 1 8 1 ++ [8, 4, 248, 0, 9, 0, 0, 0])
    [9, 0, 0, 0] _ 1 0 8 4 248 0 rfl rfl (by decide) (by decide) (by decide) (by decide)
    (by decide) (by decide) (by decide) (by decide) (by decide) (by decide) (by decide)⟩

/-! ## `flipImageVertically` -/

theorem index_inj (W col row c r : Nat) (hcol : col < W) (hc : c < W)
    (h : col + row * W = c + r * W) : col = c ∧ row = r := by
  have hW : 0 < W := by omega
  have h1 := congrArg (· % W) h
  have h2 := congrArg (· / W) h
  simp only [Nat.add_mul_mod_self_right, Nat.mod_eq_of_lt hcol, Nat.mod_eq_of_lt hc] at h1
  simp only [Nat.add_mul_div_right _ _ hW, Nat.div_eq_of_lt hcol, Nat.div_eq_of_lt hc,
    Nat.zero_add] at h2
  exact ⟨h1, h2⟩

theorem index_lt (W H col row : Nat) (hcol : col < W) (hrow : row < H) :
    col + row * W < W * H := by
  have e1 : (row + 1) * W ≤ H * W := Nat.mul_le_mul_right W hrow
  have e2 : (row + 1) * W = row * W + W := Nat.succ_mul _ _
  have e3 : W * H = H * W := Nat.mul_comm _ _
  omega

theorem getElem?_swapBytes (m : List Nat) (a b k : Nat) (ha : a < m.length)
    (hb : b < m.length) :
    (swapBytes m a b)[k]? = if k = b then m[a]? else if k = a then m[b]? else m[k]? := by
  unfold swapBytes
  simp only [List.getElem?_set, List.length_set]
  by_cases h1 : k = b
  · subst h1
    rw [if_pos rfl, if_pos hb, if_pos rfl, getElem?_eq_some_getByte m a ha]
  · rw [if_neg (fun e => h1 e.symm), if_neg h1]
    by_cases h2 : k = a
    · subst h2
      rw [if_pos rfl, if_pos ha, if_pos rfl, getElem?_eq_some_getByte m b hb]
    · rw [if_neg (fun e => h2 e.symm), if_neg h2]

/-- One swap of the flip: column `c` of the rows `r` and `H - 1 - r`. -/
theorem swapBytes_flipInv (W H : Nat) (mem : List Nat) (r c : Nat) (m : List Nat)
    (hlen : W * H ≤ mem.length) (hr : 2 * r + 2 ≤ H) (hc : c < W)
    (hinv : FlipInv W H mem r c m) :
    FlipInv W H mem r (c + 1) (swapBytes m (c + r * W) (c + (H - 1 - r) * W)) := by
  obtain ⟨hl, hin, hout⟩ := hinv
  have ha : c + r * W < W * H := index_lt W H c r hc (by omega)
  have hb : c + (H - 1 - r) * W < W * H := index_lt W H c (H - 1 - r) hc (by omega)
  have hma : m[c + r * W]? = mem[c + r * W]? := by
    rw [hin c r hc (by omega)]
    have hcond : ¬ ((r < r ∨ H - r ≤ r) ∨ ((r = r ∨ r + r + 1 = H) ∧ c < c)) := by omega
    rw [if_neg hcond]
  have hmb : m[c + (H - 1 - r) * W]? = mem[c + (H - 1 - r) * W]? := by
    rw [hin c (H - 1 - r) hc (by omega)]
    have hcond : ¬ ((H - 1 - r < r ∨ H - r ≤ H - 1 - r)
        ∨ ((H - 1 - r = r ∨ H - 1 - r + r + 1 = H) ∧ c < c)) := by omega
    rw [if_neg hcond]
  refine ⟨?_, ?_, ?_⟩
  · unfold swapBytes
    rw [List.length_set, List.length_set, hl]
  · intro col row hcol hrow
    rw [getElem?_swapBytes m _ _ _ (by omega) (by omega)]
    by_cases h1 : col + row * W = c + (H - 1 - r) * W
    · obtain ⟨rfl, rfl⟩ := index_inj W col row c (H - 1 - r) hcol hc h1
      have hcond : (H - 1 - r < r ∨ H - r ≤ H - 1 - r)
          ∨ ((H - 1 - r = r ∨ H - 1 - r + r + 1 = H) ∧ col < col + 1) := by omega
      have hrr : H - 1 - (H - 1 - r) = r := by omega
      rw [if_pos rfl, if_pos hcond, hrr, hma]
    · rw [if_neg h1]
      by_cases h2 : col + row * W = c + r * W
      · obtain ⟨rfl, rfl⟩ := index_inj W col row c r hcol hc h2
        have hcond : (row < row ∨ H - row ≤ row)
            ∨ ((row = row ∨ row + row + 1 = H) ∧ col < col + 1) := by omega
        rw [if_pos rfl, if_pos hcond, hmb]
      · rw [if_neg h2, hin col row hcol hrow]
        have hne : ¬ (col = c ∧ (row = r ∨ row + r + 1 = H)) := by
          rintro ⟨rfl, hrow2 | hrow2⟩
          · exact h2 (by rw [hrow2])
          · apply h1
            have : row = H - 1 - r := by omega
            rw [this]
        by_cases hold : (row < r ∨ H - r ≤ row) ∨ ((row = r ∨ row + r + 1 = H) ∧ col < c)
        · have hnew : (row < r ∨ H - r ≤ row) ∨ ((row = r ∨ row + r + 1 = H) ∧ col < c + 1) := by
            omega
          rw [if_pos hold, if_pos hnew]
        · have hnew : ¬ ((row < r ∨ H - r ≤ row)
              ∨ ((row = r ∨ row + r + 1 = H) ∧ col < c + 1)) := by
            omega
          rw [if_neg hold, if_neg hnew]
  · intro k hk
    rw [getElem?_swapBytes m _ _ _ (by omega) (by omega)]
    rw [if_neg (by omega), if_neg (by omega)]
    exact hout k hk

theorem tdiv_toNat (a : Int) (d : Nat) (hd : 0 < d) : (a.tdiv (d : Int)).toNat = a.toNat / d := by
  rcases lt_or_le a 0 with hneg | hpos
  · have h1 : a.toNat = 0 := by omega
    have h2 : (-a).tdiv (d : Int) = -(a.tdiv (d : Int)) := Int.neg_tdiv _ _
    have h3 : 0 ≤ (-a).tdiv (d : Int) := Int.tdiv_nonneg (by omega) (by omega)
    rw [h1, Nat.zero_div]
    omega
  · obtain ⟨n, rfl⟩ := Int.eq_ofNat_of_zero_le hpos
    rw [← Int.ofNat_tdiv, Int.toNat_ofNat, Int.toNat_ofNat]

theorem flipRows_toNat (w h : Int) (mem : List Nat) :
    flipRows w h mem = flipRows (w.toNat : Int) (h.toNat : Int) mem := by
  have h2 : (h.tdiv 2).toNat = (((h.toNat : Nat) : Int).tdiv 2).toNat := by
    have e1 := tdiv_toNat h 2 (by decide)
    have e2 := tdiv_toNat ((h.toNat : Nat) : Int) 2 (by decide)
    rw [Int.toNat_ofNat] at e2
    simp only [Nat.cast_ofNat] at e1 e2
    rw [e1, e2]
  unfold flipRows
  rw [h2, Int.toNat_ofNat, Int.toNat_ofNat]

/-- The buffer after `flipImageVertically` with stride `W` and `H` rows: row `row` holds
what row `H - 1 - row` held, the bytes from `W * H` on are unchanged. -/
theorem flipRows_spec (W H : Nat) (mem : List Nat) (hlen : W * H ≤ mem.length) :
    (flipRows (W : Int) (H : Int) mem).length = mem.length
    ∧ (∀ col row, col < W → row < H →
        (flipRows (W : Int) (H : Int) mem)[col + row * W]? = mem[col + (H - 1 - row) * W]?)
    ∧ ∀ k, W * H ≤ k → (flipRows (W : Int) (H : Int) mem)[k]? = mem[k]? := by
  have hrows : (((H : Nat) : Int).tdiv 2).toNat = H / 2 := by
    have e := tdiv_toNat (H : Int) 2 (by decide)
    rw [Int.toNat_ofNat] at e
    simpa using e
  have hinv : FlipInv W H mem (H / 2) 0 (flipRows (W : Int) (H : Int) mem) := by
    unfold flipRows
    rw [hrows, Int.toNat_ofNat, Int.toNat_ofNat]
    apply foldl_range_invariant (fun r m => FlipInv W H mem r 0 m)
    · refine ⟨rfl, ?_, fun k _ => rfl⟩
      intro col row _ hrow
      have hcond : ¬ ((row < 0 ∨ H - 0 ≤ row) ∨ ((row = 0 ∨ row + 0 + 1 = H) ∧ col < 0)) := by
        omega
      rw [if_neg hcond]
    · intro r m hr hm
      have hrow := foldl_range_invariant (fun c m2 => FlipInv W H mem r c m2)
        (fun m2 col => swapBytes m2 (col + r * W) (col + (H - 1 - r) * W)) m W hm
        (fun c m2 hc hm2 => swapBytes_flipInv W H mem r c m2 hlen (by omega) hc hm2)
      obtain ⟨hl, hin, hout⟩ := hrow
      refine ⟨hl, ?_, hout⟩
      intro col row hcol hrow2
      rw [hin col row hcol hrow2]
      by_cases hold : (row < r ∨ H - r ≤ row) ∨ ((row = r ∨ row + r + 1 = H) ∧ col < W)
      · have hnew : (row < r + 1 ∨ H - (r + 1) ≤ row)
            ∨ ((row = r + 1 ∨ row + (r + 1) + 1 = H) ∧ col < 0) := by omega
        rw [if_pos hold, if_pos hnew]
      · have hnew : ¬ ((row < r + 1 ∨ H - (r + 1) ≤ row)
            ∨ ((row = r + 1 ∨ row + (r + 1) + 1 = H) ∧ col < 0)) := by omega
        rw [if_neg hold, if_neg hnew]
  obtain ⟨hl, hin, hout⟩ := hinv
  refine ⟨hl, ?_, hout⟩
  intro col row hcol hrow
  rw [hin col row hcol hrow]
  by_cases hcond : (row < H / 2 ∨ H - H / 2 ≤ row) ∨ ((row = H / 2 ∨ row + H / 2 + 1 = H) ∧ col < 0)
  · rw [if_pos hcond]
  · rw [if_neg hcond]
    have : H - 1 - row = row := by omega
    rw [this]

/-- Flipping twice restores the buffer. -/
theorem flipRows_flipRows (W H : Nat) (mem : List Nat) (hlen : W * H ≤ mem.length) :
    flipRows (W : Int) (H : Int) (flipRows (W : Int) (H : Int) mem) = mem := by
  obtain ⟨l1, in1, out1⟩ := flipRows_spec W H mem hlen
  obtain ⟨l2, in2, out2⟩ := flipRows_spec W H (flipRows (W : Int) (H : Int) mem)
    (by rw [l1]; exact hlen)
  apply List.ext_getElem?
  intro k
  by_cases hk : W * H ≤ k
  · rw [out2 k hk, out1 k hk]
  · have hW : 0 < W := by
      rcases Nat.eq_zero_or_pos W with h0 | h0
      · rw [h0, Nat.zero_mul] at hk; omega
      · exact h0
    obtain ⟨col, row, hcol, hrow, rfl⟩ : ∃ col row, col < W ∧ row < H ∧ k = col + row * W := by
      refine ⟨k % W, k / W, Nat.mod_lt _ hW,
        (Nat.div_lt_iff_lt_mul hW).mpr (by rw [Nat.mul_comm]; omega), ?_⟩
      have := Nat.div_add_mod k W
      rw [Nat.mul_comm] at this
      omega
    rw [in2 _ _ hcol hrow, in1 _ _ hcol (by omega)]
    have : H - 1 - (H - 1 - row) = row := by omega
    rw [this]

theorem toInt32_toNat_le (n : Nat) : (toInt32 n).toNat ≤ n := by
  unfold toInt32
  have := Nat.mod_le n (2 ^ 32)
  split <;> omega

/-- The row stride and row count that `flipImageVertically` uses for a legal bit width,
and its result. -/
theorem flipImageVertically_legal (image : TImage) (mem : List Nat)
    (hdata : image.data = some mem) (hbw : image.bitWidth = 1 ∨ image.bitWidth = 8) :
    flipImageVertically image
      = .ok (some (flipRows
          (((toInt32 image.width).toNat / (if image.bitWidth = 1 then 8 else 1) : Nat) : Int)
          (((toInt32 image.height).toNat : Nat) : Int) mem)) := by
  unfold flipImageVertically
  rw [hdata]
  rcases hbw with h1 | h8
  · have e1 : toInt32 1 = 1 := by decide
    have e2 : Int.tdiv 8 1 = 8 := by decide
    have e3 := tdiv_toNat (toInt32 image.width) 8 (by decide)
    simp only [Nat.cast_ofNat] at e3
    simp only [h1, e1, e2, if_true]
    rw [flipRows_toNat, e3]
    simp
  · have e1 : toInt32 8 = 8 := by decide
    have e2 : Int.tdiv 8 8 = 1 := by decide
    simp only [h8, e1, e2, Int.tdiv_one]
    rw [flipRows_toNat]
    simp

/-- C14 (`flipImageVertically` is its own inverse).  For an allocated raster with
`bitWidth` 1 or 8, any width and height, and data of the size the data model gives it
(`ceil(width/8) * height` bytes for `bitWidth` 1, `width * height` for 8): the flip
returns a buffer of the same length, and flipping that buffer again returns the original
bytes.  The flip only stores into the data: width, height and `bitWidth` are those of
the argument both times. -/
theorem flipImageVertically_twice (image : TImage) (mem : List Nat)
    (hdata : image.data = some mem) (hbw : image.bitWidth = 1 ∨ image.bitWidth = 8)
    (hlen : mem.length = if image.bitWidth = 1 then (image.width + 7) / 8 * image.height
                         else image.width * image.height) :
    ∃ d1, flipImageVertically image = .ok (some d1) ∧ d1.length = mem.length
      ∧ flipImageVertically { image with data := some d1 } = .ok (some mem) := by
  have hW := toInt32_toNat_le image.width
  have hH := toInt32_toNat_le image.height
  have hfit : (toInt32 image.width).toNat / (if image.bitWidth = 1 then 8 else 1)
      * (toInt32 image.height).toNat ≤ mem.length := by
    rw [hlen]
    rcases hbw with h1 | h8
    · simp only [h1, if_true]
      exact Nat.mul_le_mul (by omega) hH
    · have hne : ¬ image.bitWidth = 1 := by omega
      simp only [hne, if_false, Nat.div_one]
      exact Nat.mul_le_mul hW hH
  obtain ⟨l1, _, _⟩ := flipRows_spec _ _ mem hfit
  refine ⟨_, flipImageVertically_legal image mem hdata hbw, l1, ?_⟩
  rw [flipImageVertically_legal { image with data := some _ } _ rfl hbw]
  simp only
  rw [flipRows_flipRows _ _ mem hfit]

/-- Witness of C14: the 2x2 pixmap `[1, 2, 3, 4]` flips to `[3, 4, 1, 2]` and back. -/
theorem flipImageVertically_twice_witness :
    (smallImage.data = some [1, 2, 3, 4] ∧ (smallImage.bitWidth = 1 ∨ smallImage.bitWidth = 8)
      ∧ flipImageVertically smallImage = .ok (some [3, 4, 1, 2])
      ∧ flipImageVertically monoImage = .ok (some [128])) ∧
    ∃ d1, flipImageVertically smallImage = .ok (some d1) ∧ d1.length = [1, 2, 3, 4].length
      ∧ flipImageVertically { smallImage with data := some d1 } = .ok (some [1, 2, 3, 4]) :=
  ⟨by decide, flipImageVertically_twice smallImage [1, 2, 3, 4] rfl (by decide) (by decide)⟩

/-! ## Sizes of the buffers -/

theorem length_unpack4BitValues (mem : List Nat) (dst src n : Nat) :
    (unpack4BitValues mem dst src n).length = mem.length := by
  unfold unpack4BitValues
  exact length_unpackLoop _ _ _ _

theorem length_readScanline (width length : Nat) (bitCount : Int) (r : Nat) (s : IStream)
    (mem : List Nat) :
    (readScanline width length bitCount r s mem).2.2.length = mem.length := by
  unfold readScanline
  by_cases h1 : (s.read length).1.length ≠ length
  · simp only [h1, ne_eq, not_false_eq_true, if_true, length_writeAt]
  · by_cases h2 : bitCount = 4
    · simp only [h1, if_false, h2, if_true, length_unpack4BitValues, length_writeAt]
    · simp only [h1, if_false, h2, length_writeAt]

theorem length_readRows (width length : Nat) (bitCount : Int) :
    ∀ (fuel r : Nat) (s : IStream) (mem : List Nat),
      (readRows width length bitCount fuel r s mem).2.length = mem.length := by
  intro fuel
  induction fuel with
  | zero => intro r s mem; rfl
  | succ fuel ih =>
    intro r s mem
    rw [readRows]
    by_cases h : (readScanline width length bitCount r s mem).1 = true
    · simp only [h, if_true]
      rw [ih, length_readScanline]
    · simp only [h, if_false]
      exact length_readScanline _ _ _ _ _ _

/-- The bounds of the scan of an image with at least one row and one column are natural
numbers inside the image. -/
theorem scanBounds_nat (p : List Nat) (W H m : Nat) (hW : 1 ≤ W) (hH : 1 ≤ H) :
    ∃ minX maxX minY maxY : Nat,
      scanBounds p W H m
        = { minX := (minX : Int), maxX := (maxX : Int), minY := (minY : Int),
            maxY := (maxY : Int) }
      ∧ minX < W ∧ maxX < W ∧ minY < H ∧ maxY < H := by
  obtain ⟨_, hminX, hmaxX, hminY, hmaxY⟩ := scanBounds_inv p W H m
  generalize scanBounds p W H m = b at hminX hmaxX hminY hmaxY
  have a1 : ∃ n : Nat, b.minX = (n : Int) ∧ n < W := by
    rcases hminX with h | ⟨x, y, hs, h⟩
    · exact ⟨W - 1, by omega, by omega⟩
    · exact ⟨x, h, hs.1⟩
  have a2 : ∃ n : Nat, b.maxX = (n : Int) ∧ n < W := by
    rcases hmaxX with h | ⟨x, y, hs, h⟩
    · exact ⟨0, by omega, by omega⟩
    · exact ⟨x, h, hs.1⟩
  have a3 : ∃ n : Nat, b.minY = (n : Int) ∧ n < H := by
    rcases hminY with h | ⟨x, y, hs, h⟩
    · exact ⟨H - 1, by omega, by omega⟩
    · exact ⟨y, h, hs.2.1⟩
  have a4 : ∃ n : Nat, b.maxY = (n : Int) ∧ n < H := by
    rcases hmaxY with h | ⟨x, y, hs, h⟩
    · exact ⟨0, by omega, by omega⟩
    · exact ⟨y, h, hs.2.1⟩
  obtain ⟨n1, e1, l1⟩ := a1
  obtain ⟨n2, e2, l2⟩ := a2
  obtain ⟨n3, e3, l3⟩ := a3
  obtain ⟨n4, e4, l4⟩ := a4
  refine ⟨n1, n2, n3, n4, ?_, l1, l2, l3, l4⟩
  cases b
  simp only at e1 e2 e3 e4
  rw [e1, e2, e3, e4]

/-- The result of `extractImageSectionMasked` when the scan ends with `maxX < minX` or
`maxY < minY`: the input image. -/
theorem extractImageSectionMasked_of_empty (host : Host) (image : TImage) (p : List Nat)
    (m : Nat) (hdata : image.data = some p) (hm : m < 256)
    (hcond : (scanBounds p image.width image.height m).maxX
        < (scanBounds p image.width image.height m).minX
      ∨ (scanBounds p image.width image.height m).maxY
        < (scanBounds p image.width image.height m).minY) :
    extractImageSectionMasked host image m = .ok image := by
  unfold extractImageSectionMasked
  rw [hdata]
  simp only [Nat.mod_eq_of_lt hm, if_pos hcond]

theorem read_sim (s1 s2 : IStream) (n : Nat) (h : StreamSim s1 s2) :
    (s1.read n).1 = (s2.read n).1 ∧ StreamSim (s1.read n).2 (s2.read n).2 := by
  obtain ⟨hd, he, hf⟩ := h
  have hg : s1.good = s2.good := by unfold IStream.good; rw [he, hf]
  have hdd : ∀ k, s1.content.drop (s1.pos + k) = s2.content.drop (s2.pos + k) := by
    intro k
    rw [← List.drop_drop, ← List.drop_drop, hd]
  unfold IStream.read
  rw [hg, hd]
  by_cases hgood : s2.good = true
  · rw [if_pos hgood, if_pos hgood]
    by_cases hshort : (List.take n (List.drop s2.pos s2.content)).length < n
    · rw [if_pos hshort, if_pos hshort]
      exact ⟨rfl, hdd _, rfl, rfl⟩
    · rw [if_neg hshort, if_neg hshort]
      exact ⟨rfl, hdd _, he, hf⟩
  · rw [if_neg hgood, if_neg hgood]
    exact ⟨rfl, hd, he, rfl⟩

theorem seekgCur_sim (s1 s2 : IStream) (off : Nat) (h : StreamSim s1 s2) :
    StreamSim (s1.seekgCur off) (s2.seekgCur off) := by
  obtain ⟨hd, he, hf⟩ := h
  have hdd : ∀ k, s1.content.drop (s1.pos + k) = s2.content.drop (s2.pos + k) := by
    intro k
    rw [← List.drop_drop, ← List.drop_drop, hd]
  unfold IStream.seekgCur
  rw [hf]
  by_cases hfail : s2.fail = true
  · rw [if_pos hfail, if_pos hfail]
    exact ⟨hd, rfl, rfl⟩
  · rw [if_neg hfail, if_neg hfail]
    exact ⟨hdd _, rfl, rfl⟩

theorem readScanline_sim (width length : Nat) (bitCount : Int) (r : Nat) (s1 s2 : IStream)
    (mem : List Nat) (h : StreamSim s1 s2) :
    (readScanline width length bitCount r s1 mem).1
        = (readScanline width length bitCount r s2 mem).1
    ∧ StreamSim (readScanline width length bitCount r s1 mem).2.1
        (readScanline width length bitCount r s2 mem).2.1
    ∧ (readScanline width length bitCount r s1 mem).2.2
        = (readScanline width length bitCount r s2 mem).2.2 := by
  obtain ⟨hgot, hs⟩ := read_sim s1 s2 length h
  unfold readScanline
  simp only [hgot]
  by_cases h1 : (s2.read length).1.length ≠ length
  · simp only [h1, ne_eq, not_false_eq_true, if_true]
    exact ⟨trivial, hs, trivial⟩
  · simp only [h1, if_false]
    refine ⟨trivial, ?_, trivial⟩
    by_cases h6 : length % 6 ≠ 0
    · simp only [h6, ne_eq, not_false_eq_true, if_true]
      exact seekgCur_sim _ _ _ hs
    · simp only [h6, if_false]
      exact hs

theorem readRows_sim (width length : Nat) (bitCount : Int) :
    ∀ (fuel r : Nat) (s1 s2 : IStream) (mem : List Nat), StreamSim s1 s2 →
      (readRows width length bitCount fuel r s1 mem).2
        = (readRows width length bitCount fuel r s2 mem).2 := by
  intro fuel
  induction fuel with
  | zero => intro r s1 s2 mem _; rfl
  | succ fuel ih =>
    intro r s1 s2 mem h
    obtain ⟨e1, e2, e3⟩ := readScanline_sim width length bitCount r s1 s2 mem h
    rw [readRows, readRows, e1, e3]
    by_cases hok : (readScanline width length bitCount r s2 mem).1 = true
    · simp only [hok, if_true]
      exact ih _ _ _ _ e2
    · simp only [hok]
      rfl

/-- Claim C18: two files with complete headers that differ only in the sign of the header
height (`+h` in `f1`, `-h` in `f2`, `h > 0`, same bytes from offset 54 on) and that the
decoder accepts both load with width `|biWidth|` and height `h`.  The top-down file
`f2` yields the buffer of the scanline loop as it is (no flip), and the result of the
bottom-up file `f1` is `flipImageVertically` of the result of `f2`: row `r` of one is row
`h - 1 - r` of the other. -/
theorem loadBMP_orientation (host : Host) (f1 f2 : List Nat) (hdr1 hdr2 : BIPHeader)
    (h length : Nat) (h54a : 54 ≤ f1.length) (h54b : 54 ≤ f2.length)
    (hhdr1 : parseHeader host.littleEndian (f1.take 54) = hdr1)
    (hhdr2 : parseHeader host.littleEndian (f2.take 54) = hdr2)
    (hsame : hdr2 = { hdr1 with biHeight := -hdr1.biHeight })
    (hh1 : hdr1.biHeight = (h : Int)) (hpos : 0 < h)
    (hrest : f1.drop 54 = f2.drop 54) (hBM : isBM hdr1 = true)
    (hw : hdr1.biWidth.natAbs % host.dimMod < 2 ^ 31)
    (hhd : h < host.dimMod) (hh31 : h < 2 ^ 31)
    (hwh : hdr1.biWidth.natAbs % host.dimMod * h < 2 ^ 31)
    (hlen : rowLength (hdr1.biWidth.natAbs % host.dimMod) hdr1.biBitCount = .ok length) :
    ∃ (top bottom : TImage) (dt db : List Nat),
      loadBMPGraphicFile host (some f2) = .ok top
      ∧ loadBMPGraphicFile host (some f1) = .ok bottom
      ∧ top.width = hdr1.biWidth.natAbs % host.dimMod ∧ top.height = h
      ∧ bottom.width = hdr1.biWidth.natAbs % host.dimMod ∧ bottom.height = h
      ∧ top.data = some dt ∧ bottom.data = some db
      ∧ dt = (readRows (hdr1.biWidth.natAbs % host.dimMod) length hdr1.biBitCount h 0
                (if hdr1.biClrUsed ≠ 0 then ((afterHeader f2).read (hdr1.biClrUsed * 4)).2
                 else afterHeader f2)
                (List.replicate (hdr1.biWidth.natAbs % host.dimMod * h) 0)).2
      ∧ flipImageVertically top = .ok (some db)
      ∧ bottom = { top with data := some db }
      ∧ dt.length = hdr1.biWidth.natAbs % host.dimMod * h
      ∧ db.length = hdr1.biWidth.natAbs % host.dimMod * h
      ∧ ∀ r x, r < h → x < hdr1.biWidth.natAbs % host.dimMod →
          db[x + r * (hdr1.biWidth.natAbs % host.dimMod)]?
            = dt[x + (h - 1 - r) * (hdr1.biWidth.natAbs % host.dimMod)]? := by
  have hbw : hdr2.biWidth = hdr1.biWidth := by rw [hsame]
  have hbc : hdr2.biBitCount = hdr1.biBitCount := by rw [hsame]
  have hcu : hdr2.biClrUsed = hdr1.biClrUsed := by rw [hsame]
  have hbh : hdr2.biHeight = -(h : Int) := by rw [hsame, ← hh1]
  have hbm2 : isBM hdr2 = true := by rw [hsame]; exact hBM
  have hn1 : hdr1.biHeight.natAbs % host.dimMod = h := by
    rw [hh1, Int.natAbs_ofNat, Nat.mod_eq_of_lt hhd]
  have hn2 : hdr2.biHeight.natAbs % host.dimMod = h := by
    rw [hbh, Int.natAbs_neg, Int.natAbs_ofNat, Nat.mod_eq_of_lt hhd]
  have hp1 : (0 : Int) < hdr1.biHeight := by rw [hh1]; exact_mod_cast hpos
  have hp2 : ¬ (0 : Int) < hdr2.biHeight := by rw [hbh]; omega
  have e1 := loadBMPGraphicFile_eq host f1 hdr1 length h54a hhdr1 hBM hw
    (by rw [hn1]; exact hh31) (by rw [hn1]; exact hwh) hlen
  have e2 := loadBMPGraphicFile_eq host f2 hdr2 length h54b hhdr2 hbm2
    (by rw [hbw]; exact hw) (by rw [hn2]; exact hh31) (by rw [hbw, hn2]; exact hwh)
    (by rw [hbw, hbc]; exact hlen)
  rw [if_pos hp1, hn1] at e1
  rw [if_neg hp2, hn2, hbw, hbc, hcu] at e2
  -- the two files present the same bytes to the scanline loop
  have hsim0 : StreamSim (afterHeader f1) (afterHeader f2) := ⟨hrest, rfl, rfl⟩
  have hpal := read_sim (afterHeader f1) (afterHeader f2) (hdr1.biClrUsed * 4) hsim0
  have hsim : StreamSim
      (if hdr1.biClrUsed ≠ 0 then ((afterHeader f1).read (hdr1.biClrUsed * 4)).2
       else afterHeader f1)
      (if hdr1.biClrUsed ≠ 0 then ((afterHeader f2).read (hdr1.biClrUsed * 4)).2
       else afterHeader f2) := by
    by_cases hc : hdr1.biClrUsed ≠ 0
    · rw [if_pos hc, if_pos hc]; exact hpal.2
    · rw [if_neg hc, if_neg hc]; exact hsim0
  have hrows := readRows_sim (hdr1.biWidth.natAbs % host.dimMod) length hdr1.biBitCount h 0
    _ _ (List.replicate (hdr1.biWidth.natAbs % host.dimMod * h) 0) hsim
  rw [hrows, hpal.1] at e1
  have hlenrows : (readRows (hdr1.biWidth.natAbs % host.dimMod) length hdr1.biBitCount h 0
      (if hdr1.biClrUsed ≠ 0 then ((afterHeader f2).read (hdr1.biClrUsed * 4)).2
       else afterHeader f2)
      (List.replicate (hdr1.biWidth.natAbs % host.dimMod * h) 0)).2.length
        = hdr1.biWidth.natAbs % host.dimMod * h := by
    rw [length_readRows, List.length_replicate]
  obtain ⟨hflen, hfrow, _⟩ := flipRows_spec (hdr1.biWidth.natAbs % host.dimMod) h _
    (le_of_eq hlenrows.symm)
  refine ⟨_, _, _, _, e2, e1, rfl, rfl, rfl, rfl, rfl, rfl, rfl, ?_, rfl, hlenrows,
    hflen.trans hlenrows, ?_⟩
  · exact flipImageVertically_eight _ _ _ _ _ hw hh31
  · intro r x hr hx
    exact hfrow x r hx hr

/-- Witness of C18: the 2x2 file with the scanlines `3 4` and `1 2` loads as `3 4 1 2` with
header height -2 and as `1 2 3 4` with header height 2. -/
theorem loadBMP_orientation_witness :
    (54 ≤ bmpFile2x2.length ∧ 54 ≤ bmpFile2x2TopDown.length
      ∧ header2x2TopDown = { header2x2 with biHeight := -header2x2.biHeight }
      ∧ header2x2.biHeight = ((2 : Nat) : Int)
      ∧ bmpFile2x2.drop 54 = bmpFile2x2TopDown.drop 54 ∧ isBM header2x2 = true
      ∧ rowLength (header2x2.biWidth.natAbs % hostLE16.dimMod) header2x2.biBitCount = .ok 2) ∧
    ∃ (top bottom : TImage) (dt db : List Nat),
      loadBMPGraphicFile hostLE16 (some bmpFile2x2TopDown) = .ok top
      ∧ loadBMPGraphicFile hostLE16 (some bmpFile2x2) = .ok bottom
      ∧ top.width = header2x2.biWidth.natAbs % hostLE16.dimMod ∧ top.height = 2
      ∧ bottom.width = header2x2.biWidth.natAbs % hostLE16.dimMod ∧ bottom.height = 2
      ∧ top.data = some dt ∧ bottom.data = some db
      ∧ dt = (readRows (header2x2.biWidth.natAbs % hostLE16.dimMod) 2 header2x2.biBitCount 2 0
                (if header2x2.biClrUsed ≠ 0 then
                  ((afterHeader bmpFile2x2TopDown).read (header2x2.biClrUsed * 4)).2
                 else afterHeader bmpFile2x2TopDown)
                (List.replicate (header2x2.biWidth.natAbs % hostLE16.dimMod * 2) 0)).2
      ∧ flipImageVertically top = .ok (some db)
      ∧ bottom = { top with data := some db }
      ∧ dt.length = header2x2.biWidth.natAbs % hostLE16.dimMod * 2
      ∧ db.length = header2x2.biWidth.natAbs % hostLE16.dimMod * 2
      ∧ ∀ r x, r < 2 → x < header2x2.biWidth.natAbs % hostLE16.dimMod →
          db[x + r * (header2x2.biWidth.natAbs % hostLE16.dimMod)]?
            = dt[x + (2 - 1 - r) * (header2x2.biWidth.natAbs % hostLE16.dimMod)]? :=
  ⟨by decide, loadBMP_orientation hostLE16 bmpFile2x2 bmpFile2x2TopDown header2x2
    header2x2TopDown 2 2 (by decide) (by decide) rfl rfl (by decide) (by decide) (by decide)
    (by decide) (by decide) (by decide) (by decide) (by decide) (by decide) (by decide)⟩

/-- The two decodes of the 2x2 file, evaluated. -/
theorem loadBMP_orientation_values :
    loadBMPGraphicFile hostLE16 (some bmpFile2x2TopDown)
        = .ok { smallImage with data := some [3, 4, 1, 2] }
      ∧ loadBMPGraphicFile hostLE16 (some bmpFile2x2) = .ok smallImage := by
  decide

/-! ## The scanline loop on a file that ends early -/

theorem getByte_drop (l : List Nat) (p k : Nat) : getByte (l.drop p) k = getByte l (p + k) := by
  unfold getByte
  rw [List.getElem?_drop]

theorem length_le_rowFootprint (b : Int) (length : Nat) : length ≤ rowFootprint b length := by
  unfold rowFootprint
  split <;> omega

/-- The row length is defined only when the bytes stored per row fit the row. -/
theorem rowFootprint_le_of_rowLength (width length : Nat) (b : Int)
    (hlen : rowLength width b = .ok length) : rowFootprint b length ≤ width := by
  unfold rowLength at hlen
  split at hlen
  · exact absurd hlen (by simp)
  · split at hlen
    · exact absurd hlen (by simp)
    · split at hlen
      · exact absurd hlen (by simp)
      · simp only [Except.ok.injEq] at hlen
        subst hlen
        unfold rowFootprint
        by_cases hb : b = 4
        · subst hb
          have h2 : (Int.tdiv 8 4).toNat = 2 := by decide
          rw [if_pos rfl, h2]
          exact Nat.mul_div_le width 2
        · rw [if_neg hb]
          exact Nat.div_le_self _ _

/-- The loop body on a stream that still holds the `length` bytes of the scanline: the
read succeeds, the stream moves on by `length + length % 6`, and only the bytes of the row
that the body stores to change. -/
theorem readScanline_of_available (content : List Nat) (p width length : Nat) (b : Int)
    (r : Nat) (mem : List Nat) (havail : p + length ≤ content.length)
    (hfp : rowFootprint b length ≤ width) (hw31 : width < 2 ^ 31)
    (hmem : (r + 1) * width ≤ mem.length) :
    (readScanline width length b r (streamAt content p) mem).1 = true
    ∧ (readScanline width length b r (streamAt content p) mem).2.1
        = streamAt content (p + (length + length % 6))
    ∧ ∀ idx, (readScanline width length b r (streamAt content p) mem).2.2[idx]?
        = if r * width ≤ idx ∧ idx < r * width + rowFootprint b length then
            some (if b = 4 then
                    (if (idx - r * width) % 2 = 0 then
                      getByte content (p + (idx - r * width) / 2) / 16 % 16
                     else getByte content (p + (idx - r * width) / 2) % 16)
                  else getByte content (p + (idx - r * width)))
          else mem[idx]? := by
  have hrow : (r + 1) * width = r * width + width := by ring
  have hlfp := length_le_rowFootprint b length
  have hav : length ≤ ((streamAt content p).content.drop (streamAt content p).pos).length := by
    show length ≤ (content.drop p).length
    rw [List.length_drop]; omega
  have hgot : ((content.drop p).take length).length = length := by
    rw [List.length_take, List.length_drop]; omega
  have hrd : (streamAt content p).read length
      = ((content.drop p).take length, streamAt content (p + length)) :=
    read_of_available _ _ rfl hav
  unfold readScanline
  rw [hrd]
  simp only [hgot, ne_eq, not_true_eq_false, if_false]
  refine ⟨by trivial, ?_, ?_⟩
  · by_cases h6 : length % 6 = 0
    · rw [if_neg (by simpa using h6), h6]; rfl
    · rw [if_pos h6, ← Nat.add_assoc]; rfl
  · intro idx
    have hwl : (writeAt mem (r * width) ((content.drop p).take length)).length
        = mem.length := length_writeAt _ _ _
    by_cases hb : b = 4
    · subst hb
      have hfp2 : 2 * length ≤ width := by
        have := hfp
        unfold rowFootprint at this
        rw [if_pos rfl] at this
        exact this
      have hcast : (toInt32 length).toNat = length := by
        rw [toInt32_of_lt (by omega)]; rfl
      have hf : rowFootprint 4 length = 2 * length := by
        unfold rowFootprint; rw [if_pos rfl]
      rw [hf]
      simp only [if_true]
      unfold unpack4BitValues
      rw [hcast, getElem?_unpackLoop _ _ _ _ (by intro i hi t ht; omega) (by rw [hwl]; omega)]
      by_cases hin : r * width ≤ idx ∧ idx < r * width + 2 * length
      · rw [if_pos hin, if_pos hin,
          getByte_writeAt_of_lt _ _ _ _ (by rw [hgot]; omega) (by rw [hgot]; omega),
          getByte_take_of_lt _ _ _ (by omega), getByte_drop]
      · rw [if_neg hin, if_neg hin, getElem?_writeAt, if_neg (by rw [hgot]; omega)]
    · have hf : rowFootprint b length = length := by
        unfold rowFootprint; rw [if_neg hb]
      rw [hf] at hfp ⊢
      simp only [if_neg hb]
      rw [getElem?_writeAt, hgot]
      by_cases hin : r * width ≤ idx ∧ idx < r * width + length
      · have hc : r * width ≤ idx ∧ idx < r * width + length ∧ idx < mem.length := by omega
        rw [if_pos hc, if_pos hin, getElem?_eq_some_getByte _ _ (by rw [hgot]; omega),
          getByte_take_of_lt _ _ _ (by omega), getByte_drop]
      · have hc : ¬ (r * width ≤ idx ∧ idx < r * width + length ∧ idx < mem.length) := by
          omega
        rw [if_neg hc, if_neg hin]

/-- The loop body on a stream that holds fewer than `length` bytes: the read is short,
and no byte outside the row changes. -/
theorem readScanline_of_short (content : List Nat) (p width length : Nat) (b : Int)
    (r : Nat) (mem : List Nat) (hshort : content.length < p + length) (hpos : 0 < length)
    (hlw : length ≤ width) :
    (readScanline width length b r (streamAt content p) mem).1 = false
    ∧ ∀ idx, idx < r * width ∨ (r + 1) * width ≤ idx →
        (readScanline width length b r (streamAt content p) mem).2.2[idx]? = mem[idx]? := by
  have hrow : (r + 1) * width = r * width + width := by ring
  have hfst := read_fst_of_good (streamAt content p) length rfl
  have hgl : ((streamAt content p).read length).1.length < length := by
    rw [hfst]
    show ((content.drop p).take length).length < length
    rw [List.length_take, List.length_drop]; omega
  unfold readScanline
  simp only [Nat.ne_of_lt hgl, ne_eq, not_false_eq_true, if_true]
  refine ⟨by trivial, ?_⟩
  intro idx hidx
  rw [getElem?_writeAt, if_neg (by omega)]

/-- The scanline loop on a file whose row `j` (counted from the current one) is the first
that is not complete: the `j` rows before it hold their decoded bytes, and no byte after
row `j` or before the current row changes. -/
theorem readRows_truncated (content : List Nat) (width length : Nat) (b : Int)
    (hfp : rowFootprint b length ≤ width) (hw31 : width < 2 ^ 31) (hpos : 0 < length) :
    ∀ (j fuel r p : Nat) (mem : List Nat),
      (∀ i, i < j → p + i * (length + length % 6) + length ≤ content.length) →
      content.length < p + j * (length + length % 6) + length →
      j < fuel → (r + fuel) * width ≤ mem.length →
      (∀ i x, i < j → x < width →
        (readRows width length b fuel r (streamAt content p) mem).2[x + (r + i) * width]?
          = if x < rowFootprint b length then
              some (if b = 4 then
                      (if x % 2 = 0 then
                        getByte content (p + i * (length + length % 6) + x / 2) / 16 % 16
                       else getByte content (p + i * (length + length % 6) + x / 2) % 16)
                    else getByte content (p + i * (length + length % 6) + x))
            else mem[x + (r + i) * width]?)
      ∧ (∀ idx, (r + j + 1) * width ≤ idx →
          (readRows width length b fuel r (streamAt content p) mem).2[idx]? = mem[idx]?)
      ∧ (∀ idx, idx < r * width →
          (readRows width length b fuel r (streamAt content p) mem).2[idx]? = mem[idx]?) := by
  have hlw : length ≤ width := le_trans (length_le_rowFootprint b length) hfp
  intro j
  induction j with
  | zero =>
    intro fuel r p mem _ hshort hfuel hmem
    cases fuel with
    | zero => omega
    | succ fuel =>
      have hshort2 : content.length < p + length := by
        rw [Nat.zero_mul, Nat.add_zero] at hshort; exact hshort
      obtain ⟨h1, h2⟩ := readScanline_of_short content p width length b r mem hshort2 hpos hlw
      have hstep : (readRows width length b (fuel + 1) r (streamAt content p) mem).2
          = (readScanline width length b r (streamAt content p) mem).2.2 := by
        rw [readRows]
        simp only [h1, Bool.false_eq_true, if_false]
      rw [hstep]
      have hr1 : (r + 1) * width = r * width + width := by ring
      refine ⟨fun i x hi _ => absurd hi (Nat.not_lt_zero i), ?_, ?_⟩
      · intro idx hidx
        exact h2 idx (Or.inr (by rw [Nat.add_zero] at hidx; exact hidx))
      · intro idx hidx
        exact h2 idx (Or.inl hidx)
  | succ j ih =>
    intro fuel r p mem hfull hshort hfuel hmem
    cases fuel with
    | zero => omega
    | succ fuel =>
      have hr1 : (r + 1) * width = r * width + width := by ring
      have hle : (r + 1) * width ≤ (r + (fuel + 1)) * width :=
        Nat.mul_le_mul_right _ (by omega)
      have hav0 : p + length ≤ content.length := by
        have := hfull 0 (by omega)
        rw [Nat.zero_mul, Nat.add_zero] at this; exact this
      obtain ⟨h1, h2, h3⟩ := readScanline_of_available content p width length b r mem hav0
        hfp hw31 (le_trans hle hmem)
      have hstep : readRows width length b (fuel + 1) r (streamAt content p) mem
          = readRows width length b fuel (r + 1)
              (streamAt content (p + (length + length % 6)))
              (readScanline width length b r (streamAt content p) mem).2.2 := by
        rw [readRows]
        simp only [h1, if_true, h2]
      rw [hstep]
      have hsucc : ∀ i, (i + 1) * (length + length % 6)
          = i * (length + length % 6) + (length + length % 6) := fun i => Nat.succ_mul _ _
      obtain ⟨ihA, ihB, ihC⟩ := ih fuel (r + 1) (p + (length + length % 6))
        (readScanline width length b r (streamAt content p) mem).2.2
        (by
          intro i hi
          have := hfull (i + 1) (by omega)
          rw [hsucc] at this
          omega)
        (by rw [hsucc] at hshort; omega)
        (by omega)
        (by
          rw [length_readScanline]
          have e : r + 1 + fuel = r + (fuel + 1) := by omega
          rw [e]; exact hmem)
      refine ⟨?_, ?_, ?_⟩
      · intro i x hi hx
        cases i with
        | zero =>
          simp only [Nat.add_zero, Nat.zero_mul]
          rw [ihC _ (by omega), h3]
          have e : x + r * width - r * width = x := by omega
          by_cases hxf : x < rowFootprint b length
          · rw [if_pos (by omega), if_pos hxf, e]
          · rw [if_neg (by omega), if_neg hxf]
        | succ i =>
          have e : r + (i + 1) = r + 1 + i := by omega
          have hge : (r + 1) * width ≤ (r + 1 + i) * width :=
            Nat.mul_le_mul_right _ (by omega)
          have hout : ¬ (r * width ≤ x + (r + 1 + i) * width
              ∧ x + (r + 1 + i) * width < r * width + rowFootprint b length) := by omega
          have e2 : p + (length + length % 6) + i * (length + length % 6)
              = p + (i + 1) * (length + length % 6) := by rw [hsucc]; omega
          rw [e, ihA i x (by omega) hx, h3, if_neg hout, e2]
      · intro idx hidx
        have e : r + (j + 1) + 1 = r + 1 + j + 1 := by omega
        have hge : (r + 1) * width ≤ (r + 1 + j + 1) * width :=
          Nat.mul_le_mul_right _ (by omega)
        rw [e] at hidx
        rw [ihB idx hidx, h3, if_neg (by omega)]
      · intro idx hidx
        rw [ihC idx (by omega), h3, if_neg (by omega)]

/-- C19, evaluated at two failing inputs (top-down files, so the buffer is in file order).
A 1-bit file of width 8 and height 2 whose pixel data is the single byte `0x80`: scanline
0 (one byte) is read completely and the read of scanline 1 is short.  The load succeeds
with 8x2 pixels, and the row after the short read is zero, but the row of scanline 0
holds the packed byte 128 followed by zeros, while the pixels of the scanline are
`1 0 0 0 0 0 0 0`.  A 4-bit file of width 3 and height 2 with the pixel data `0x12 0x30`:
the loader reads `3 / 2 = 1` byte for scanline 0, and the row holds `1 2 0` while the
pixels of the scanline are `1 2 3`. -/
theorem loadBMP_truncated_one_bit :
    (loadBMPGraphicFile hostLE16 (some (bmpHeader 8 (2 ^ 32 - 2) 1 0 ++ [128]))
        = .ok { width := 8, height := 2, bitWidth := 8, colors := 0,
                data := some [128, 0, 0, 0, 0, 0, 0, 0, 0, 0, 0, 0, 0, 0, 0, 0],
                palt := none }
      ∧ (List.range 8).map (sampleAt 1 [128]) = [1, 0, 0, 0, 0, 0, 0, 0])
    ∧ (loadBMPGraphicFile hostLE16 (some (bmpHeader 3 (2 ^ 32 - 2) 4 0 ++ [18, 48]))
        = .ok { width := 3, height := 2, bitWidth := 8, colors := 0,
                data := some [1, 2, 0, 0, 0, 0], palt := none }
      ∧ (List.range 3).map (sampleAt 4 [18, 48]) = [1, 2, 3]) := by
  decide

/-- For the bit counts 4 and 8 the byte that the loop body leaves at column `x` of a row
is the `x`-th sample of the stored scanline. -/
theorem storedByte_eq_sampleAt (content : List Nat) (p b x : Nat) (hb : b = 4 ∨ b = 8)
    (hbyte : ∀ v ∈ content, v < 256) :
    (if (b : Int) = 4 then
        (if x % 2 = 0 then getByte content (p + x / 2) / 16 % 16
         else getByte content (p + x / 2) % 16)
      else getByte content (p + x)) = sampleAt b (content.drop p) x := by
  have hlt : ∀ i, getByte content i < 256 := by
    intro i
    unfold getByte
    cases hi : content[i]? with
    | none => simp
    | some v => exact hbyte v (List.getElem?_mem hi)
  rcases hb with rfl | rfl
  · unfold sampleAt
    rw [if_pos (by norm_num), getByte_drop]
    by_cases hpar : x % 2 = 0
    · rw [if_pos hpar]
      simp [hpar, Nat.shiftRight_eq_div_pow]
    · rw [if_neg hpar]
      have : x % 2 = 1 := by omega
      simp [this]
  · unfold sampleAt
    rw [if_neg (by norm_num), getByte_drop]
    have := hlt (p + x)
    simp [Nat.mod_one, Nat.mod_eq_of_lt this]

/-- The bytes stored per row for the bit counts 4 and 8, in samples. -/
theorem rowFootprint_eq_samples (b length : Nat) (hb : b = 4 ∨ b = 8) :
    rowFootprint (b : Int) length = length * (8 / b) := by
  unfold rowFootprint
  rcases hb with rfl | rfl
  · rw [if_pos (by norm_num)]
    omega
  · rw [if_neg (by norm_num)]
    omega

/-- The row length for the bit counts 4 and 8. -/
theorem rowLength_samples (width b length : Nat) (hb : b = 4 ∨ b = 8)
    (hlen : rowLength width (b : Int) = .ok length) : length = width / (8 / b) := by
  rcases hb with rfl | rfl
  · have h2 : Int.tdiv 8 4 = 2 := by decide
    simp [rowLength, h2] at hlen
    omega
  · have h2 : Int.tdiv 8 8 = 1 := by decide
    simp [rowLength, h2] at hlen
    omega

/-- The lenient truncation of `loadBMPGraphicFile` for the bit counts 4 and 8 (the part of
C19 and of C1 that holds).  A file with a complete header, the `"BM"` magic, a complete
palette, bytes below 256 and dimensions that the decoder accepts, in which scanline
`k < height` is the first that the file does not hold completely (scanline `r` is read at
offset `54 + 4 * biClrUsed + r * (length + length % 6)`), still loads: the result has the
declared `|width|` and `|height|`, `bitWidth` 8 and `width * height` bytes.  In the buffer
`rows` of the scanline loop (the result before the final flip) every row after `k` is zero
and byte `x` of every row before `k` is the `x`-th sample of its scanline, for every
`x < length * (8 / b)`, that is for every `x < width` when `b = 8` or the width is even;
the returned data is `rows` for a top-down file and `rows` flipped for a bottom-up file. -/
theorem loadBMP_truncated (host : Host) (file : List Nat) (hdr : BIPHeader)
    (b length k : Nat) (h54 : 54 ≤ file.length)
    (hhdr : parseHeader host.littleEndian (file.take 54) = hdr) (hBM : isBM hdr = true)
    (hbc : hdr.biBitCount = (b : Int)) (hb : b = 4 ∨ b = 8)
    (hbytes : ∀ v ∈ file, v < 256)
    (hw : hdr.biWidth.natAbs % host.dimMod < 2 ^ 31)
    (hh : hdr.biHeight.natAbs % host.dimMod < 2 ^ 31)
    (hwh : hdr.biWidth.natAbs % host.dimMod * (hdr.biHeight.natAbs % host.dimMod) < 2 ^ 31)
    (hlen : rowLength (hdr.biWidth.natAbs % host.dimMod) (b : Int) = .ok length)
    (hpal : 54 + hdr.biClrUsed * 4 ≤ file.length)
    (hk : k < hdr.biHeight.natAbs % host.dimMod)
    (hfull : ∀ r, r < k →
      54 + hdr.biClrUsed * 4 + r * (length + length % 6) + length ≤ file.length)
    (hshort : file.length < 54 + hdr.biClrUsed * 4 + k * (length + length % 6) + length) :
    ∃ (img : TImage) (rows data : List Nat),
      loadBMPGraphicFile host (some file) = .ok img
      ∧ img.width = hdr.biWidth.natAbs % host.dimMod
      ∧ img.height = hdr.biHeight.natAbs % host.dimMod
      ∧ img.bitWidth = 8
      ∧ img.data = some data
      ∧ data.length = img.width * img.height
      ∧ rows.length = img.width * img.height
      ∧ data = (if 0 < hdr.biHeight then flipRows (img.width : Int) (img.height : Int) rows
                else rows)
      ∧ (∀ r x, r < img.height → x < img.width →
          data[x + r * img.width]?
            = rows[x + (if 0 < hdr.biHeight then img.height - 1 - r else r) * img.width]?)
      ∧ (∀ r x, k < r → r < img.height → x < img.width →
          rows[x + r * img.width]? = some 0)
      ∧ (∀ r x, r < k → x < img.width →
          rows[x + r * img.width]?
            = some (if x < length * (8 / b) then
                      sampleAt b
                        (file.drop (54 + hdr.biClrUsed * 4 + r * (length + length % 6))) x
                    else 0))
      ∧ ((b = 8 ∨ img.width % 2 = 0) → length * (8 / b) = img.width) := by
  rw [← hbc] at hlen
  have e := loadBMPGraphicFile_eq host file hdr length h54 hhdr hBM hw hh hwh hlen
  have hs0 : (if hdr.biClrUsed ≠ 0 then ((afterHeader file).read (hdr.biClrUsed * 4)).2
      else afterHeader file) = streamAt file (54 + hdr.biClrUsed * 4) := by
    by_cases hc : hdr.biClrUsed ≠ 0
    · have hav : hdr.biClrUsed * 4
          ≤ ((afterHeader file).content.drop (afterHeader file).pos).length := by
        show hdr.biClrUsed * 4 ≤ (file.drop 54).length
        rw [List.length_drop]; omega
      rw [if_pos hc, read_of_available (afterHeader file) _ rfl hav]
      rfl
    · have h0 : hdr.biClrUsed = 0 := by simpa using hc
      rw [if_neg hc, h0]
      rfl
  rw [hs0] at e
  have hpos : 0 < length := by
    rcases Nat.eq_zero_or_pos length with h0 | h0
    · rw [h0] at hshort
      simp only [Nat.zero_mod, Nat.add_zero, Nat.mul_zero] at hshort
      omega
    · exact h0
  have hfp := rowFootprint_le_of_rowLength _ _ _ hlen
  obtain ⟨hA, hB, _⟩ := readRows_truncated file (hdr.biWidth.natAbs % host.dimMod) length
    hdr.biBitCount hfp hw hpos k (hdr.biHeight.natAbs % host.dimMod) 0
    (54 + hdr.biClrUsed * 4)
    (List.replicate
      (hdr.biWidth.natAbs % host.dimMod * (hdr.biHeight.natAbs % host.dimMod)) 0)
    hfull hshort hk
    (by rw [List.length_replicate, Nat.zero_add, Nat.mul_comm])
  have hlenrows : (readRows (hdr.biWidth.natAbs % host.dimMod) length hdr.biBitCount
      (hdr.biHeight.natAbs % host.dimMod) 0 (streamAt file (54 + hdr.biClrUsed * 4))
      (List.replicate
        (hdr.biWidth.natAbs % host.dimMod * (hdr.biHeight.natAbs % host.dimMod)) 0)).2.length
        = hdr.biWidth.natAbs % host.dimMod * (hdr.biHeight.natAbs % host.dimMod) := by
    rw [length_readRows, List.length_replicate]
  have hzero : ∀ r x, r < hdr.biHeight.natAbs % host.dimMod →
      x < hdr.biWidth.natAbs % host.dimMod →
      (List.replicate
        (hdr.biWidth.natAbs % host.dimMod * (hdr.biHeight.natAbs % host.dimMod)) 0)[
          x + r * (hdr.biWidth.natAbs % host.dimMod)]? = some 0 := by
    intro r x hr hx
    rw [List.getElem?_replicate, if_pos (index_lt _ _ _ _ hx hr)]
  obtain ⟨hflen, hfrow, _⟩ := flipRows_spec (hdr.biWidth.natAbs % host.dimMod)
    (hdr.biHeight.natAbs % host.dimMod) _ (le_of_eq hlenrows.symm)
  refine ⟨_, _, _, e, rfl, rfl, rfl, rfl, ?_, hlenrows, rfl, ?_, ?_, ?_, ?_⟩
  · dsimp only
    by_cases hp : 0 < hdr.biHeight
    · rw [if_pos hp, hflen, hlenrows]
    · rw [if_neg hp, hlenrows]
  · dsimp only
    intro r x hr hx
    by_cases hp : 0 < hdr.biHeight
    · rw [if_pos hp, if_pos hp]
      exact hfrow x r hx hr
    · rw [if_neg hp, if_neg hp]
  · dsimp only
    intro r x hkr hr hx
    have hge : (0 + k + 1) * (hdr.biWidth.natAbs % host.dimMod)
        ≤ r * (hdr.biWidth.natAbs % host.dimMod) := Nat.mul_le_mul_right _ (by omega)
    rw [hB _ (by omega)]
    exact hzero r x hr hx
  · dsimp only
    intro r x hr hx
    have hr2 : r < hdr.biHeight.natAbs % host.dimMod := by omega
    have hAr := hA r x hr hx
    rw [Nat.zero_add, hzero r x hr2 hx, hbc, rowFootprint_eq_samples b length hb,
      storedByte_eq_sampleAt file _ b x hb hbytes] at hAr
    rw [hbc, hAr]
    by_cases hxf : x < length * (8 / b)
    · rw [if_pos hxf, if_pos hxf]
    · rw [if_neg hxf, if_neg hxf]
  · dsimp only
    intro hfullrow
    rw [hbc] at hlen
    have hl := rowLength_samples _ b length hb hlen
    rcases hb with rfl | rfl
    · rcases hfullrow with h8 | hev
      · omega
      · omega
    · omega

/-- Instance of `loadBMP_truncated`: the 2x3 file that ends one byte into its second
scanline. -/
theorem loadBMP_truncated_witness :
    (54 ≤ bmpFileShort.length ∧ isBM headerShort = true
      ∧ headerShort.biBitCount = ((8 : Nat) : Int) ∧ (∀ v ∈ bmpFileShort, v < 256)
      ∧ rowLength (headerShort.biWidth.natAbs % hostLE16.dimMod) ((8 : Nat) : Int) = .ok 2
      ∧ 54 + headerShort.biClrUsed * 4 ≤ bmpFileShort.length
      ∧ 1 < headerShort.biHeight.natAbs % hostLE16.dimMod
      ∧ (∀ r, r < 1 →
          54 + headerShort.biClrUsed * 4 + r * (2 + 2 % 6) + 2 ≤ bmpFileShort.length)
      ∧ bmpFileShort.length < 54 + headerShort.biClrUsed * 4 + 1 * (2 + 2 % 6) + 2) ∧
    ∃ (img : TImage) (rows data : List Nat),
      loadBMPGraphicFile hostLE16 (some bmpFileShort) = .ok img
      ∧ img.width = headerShort.biWidth.natAbs % hostLE16.dimMod
      ∧ img.height = headerShort.biHeight.natAbs % hostLE16.dimMod
      ∧ img.bitWidth = 8
      ∧ img.data = some data
      ∧ data.length = img.width * img.height
      ∧ rows.length = img.width * img.height
      ∧ data = (if 0 < headerShort.biHeight then
                  flipRows (img.width : Int) (img.height : Int) rows
                else rows)
      ∧ (∀ r x, r < img.height → x < img.width →
          data[x + r * img.width]?
            = rows[x + (if 0 < headerShort.biHeight then img.height - 1 - r else r)
                  * img.width]?)
      ∧ (∀ r x, 1 < r → r < img.height → x < img.width →
          rows[x + r * img.width]? = some 0)
      ∧ (∀ r x, r < 1 → x < img.width →
          rows[x + r * img.width]?
            = some (if x < 2 * (8 / 8) then
                      sampleAt 8
                        (bmpFileShort.drop (54 + headerShort.biClrUsed * 4 + r * (2 + 2 % 6))) x
                    else 0))
      ∧ ((8 = 8 ∨ img.width % 2 = 0) → 2 * (8 / 8) = img.width) :=
  ⟨by decide, loadBMP_truncated hostLE16 bmpFileShort headerShort 8 2 1 (by decide) rfl
    (by decide) (by decide) (Or.inr rfl) (by decide) (by decide) (by decide) (by decide)
    (by decide) (by decide) (by decide) (by decide) (by decide)⟩

/-- The decode of the truncated 2x3 file, evaluated: the complete scanline `3 4` is the
bottom row, the byte of the short scanline is in the middle row, the top row is zero. -/
theorem loadBMP_truncated_values :
    loadBMPGraphicFile hostLE16 (some bmpFileShort)
      = .ok { width := 2, height := 3, bitWidth := 8, colors := 0,
              data := some [0, 0, 1, 0, 3, 4], palt := none } := by
  decide

/-! ## Cropping a cropped image -/

/-- The scan of an image without a non-mask pixel leaves the bounds at their initial
values. -/
theorem scanBounds_all_mask (p : List Nat) (W H m : Nat)
    (hall : ∀ x y, x < W → y < H → getByte p (x + y * W) = m) :
    scanBounds p W H m
      = { minX := (W : Int) - 1, maxX := 0, minY := (H : Int) - 1, maxY := 0 } := by
  obtain ⟨_, h1, h2, h3, h4⟩ := scanBounds_inv p W H m
  have hno : ∀ x y, ¬ (x < W ∧ y < H ∧ getByte p (x + y * W) ≠ m) :=
    fun x y h => h.2.2 (hall x y h.1 h.2.1)
  have e1 : (scanBounds p W H m).minX = (W : Int) - 1 := by
    rcases h1 with h | ⟨x, y, hs, _⟩
    · exact h
    · exact absurd hs (hno x y)
  have e2 : (scanBounds p W H m).maxX = 0 := by
    rcases h2 with h | ⟨x, y, hs, _⟩
    · exact h
    · exact absurd hs (hno x y)
  have e3 : (scanBounds p W H m).minY = (H : Int) - 1 := by
    rcases h3 with h | ⟨x, y, hs, _⟩
    · exact h
    · exact absurd hs (hno x y)
  have e4 : (scanBounds p W H m).maxY = 0 := by
    rcases h4 with h | ⟨x, y, hs, _⟩
    · exact h
    · exact absurd hs (hno x y)
  generalize scanBounds p W H m = b at e1 e2 e3 e4
  cases b
  simp only at e1 e2 e3 e4
  rw [e1, e2, e3, e4]

/-- Copying a whole pixmap into a block of the same size yields its bytes. -/
theorem copyLoop_self (c d : List Nat) (W H : Nat) (hc : c.length = W * H)
    (hd : d.length = W * H) :
    copyLoop d W ((0 : Nat) : Int) ((0 : Nat) : Int) c W ((0 : Nat) : Int) ((0 : Nat) : Int)
      W H = c := by
  obtain ⟨clen, cin, _⟩ := copyLoop_spec d c W W 0 0 0 0 W H (by omega)
    (by rw [hd, Nat.zero_add, Nat.mul_comm])
  apply List.ext_getElem?
  intro k
  by_cases hk : k < W * H
  · have hWpos : 0 < W := by
      rcases Nat.eq_zero_or_pos W with h0 | h0
      · rw [h0, Nat.zero_mul] at hk; omega
      · exact h0
    have hi : k % W < W := Nat.mod_lt _ hWpos
    have hj : k / W < H := by
      rw [Nat.div_lt_iff_lt_mul hWpos, Nat.mul_comm]; exact hk
    have hkk : k % W + 0 + (k / W + 0) * W = k := by
      rw [Nat.add_zero, Nat.add_zero, Nat.mul_comm]; exact Nat.mod_add_div k W
    have h := cin (k % W) (k / W) hi hj
    rw [hkk] at h
    rw [h, getElem?_eq_some_getByte c k (by omega)]
  · rw [List.getElem?_eq_none (by omega), List.getElem?_eq_none (by omega)]

/-- The scan of a cropped image finds the whole image: when the scan of `p` ends with the
bounds `minX ≤ maxX`, `minY ≤ maxY` and `q` holds the pixels of that box, the scan of `q`
ends with the bounds `0`, `maxX - minX`, `0`, `maxY - minY`. -/
theorem scanBounds_crop (p q : List Nat) (W H m minX maxX minY maxY : Nat)
    (hW : 1 ≤ W)
    (hb : scanBounds p W H m
      = { minX := (minX : Int), maxX := (maxX : Int), minY := (minY : Int),
          maxY := (maxY : Int) })
    (hx : minX ≤ maxX) (hy : minY ≤ maxY)
    (hpix : ∀ i j, i < maxX - minX + 1 → j < maxY - minY + 1 →
      q[i + j * (maxX - minX + 1)]? = some (getByte p (minX + i + (minY + j) * W))) :
    scanBounds q (maxX - minX + 1) (maxY - minY + 1) m
      = { minX := ((0 : Nat) : Int), maxX := ((maxX - minX : Nat) : Int),
          minY := ((0 : Nat) : Int), maxY := ((maxY - minY : Nat) : Int) } := by
  have hcpix : ∀ i j, i < maxX - minX + 1 → j < maxY - minY + 1 →
      getByte q (i + j * (maxX - minX + 1)) = getByte p (minX + i + (minY + j) * W) :=
    fun i j hi hj => getByte_eq_of_getElem? (hpix i j hi hj)
  by_cases hex : ∃ x y, x < W ∧ y < H ∧ getByte p (x + y * W) ≠ m
  · obtain ⟨a1, a2, a3, a4, hb2, hA, hB, hC, hD⟩ := scanBounds_of_nonmask p W H m hex
    rw [hb] at hb2
    simp only [Bounds.mk.injEq, Nat.cast_inj] at hb2
    obtain ⟨e1, e2, e3, e4⟩ := hb2
    subst e1 e2 e3 e4
    obtain ⟨y1, hx1, hy1, hp1⟩ := hA.1
    obtain ⟨y2, hx2, hy2, hp2⟩ := hB.1
    obtain ⟨x3, hx3, hy3, hp3⟩ := hC.1
    obtain ⟨x4, hx4, hy4, hp4⟩ := hD.1
    have y1lo : minY ≤ y1 := hC.2 ⟨minX, hx1, hy1, hp1⟩
    have y1hi : y1 ≤ maxY := hD.2 ⟨minX, hx1, hy1, hp1⟩
    have y2lo : minY ≤ y2 := hC.2 ⟨maxX, hx2, hy2, hp2⟩
    have y2hi : y2 ≤ maxY := hD.2 ⟨maxX, hx2, hy2, hp2⟩
    have x3lo : minX ≤ x3 := hA.2 ⟨minY, hx3, hy3, hp3⟩
    have x3hi : x3 ≤ maxX := hB.2 ⟨minY, hx3, hy3, hp3⟩
    have x4lo : minX ≤ x4 := hA.2 ⟨maxY, hx4, hy4, hp4⟩
    have x4hi : x4 ≤ maxX := hB.2 ⟨maxY, hx4, hy4, hp4⟩
    have q1 : getByte q (0 + (y1 - minY) * (maxX - minX + 1)) ≠ m := by
      rw [hcpix 0 (y1 - minY) (by omega) (by omega), Nat.add_zero,
        Nat.add_sub_cancel' y1lo]
      exact hp1
    have q2 : getByte q ((maxX - minX) + (y2 - minY) * (maxX - minX + 1)) ≠ m := by
      rw [hcpix (maxX - minX) (y2 - minY) (by omega) (by omega), Nat.add_sub_cancel' hx,
        Nat.add_sub_cancel' y2lo]
      exact hp2
    have q3 : getByte q ((x3 - minX) + 0 * (maxX - minX + 1)) ≠ m := by
      rw [hcpix (x3 - minX) 0 (by omega) (by omega), Nat.add_sub_cancel' x3lo, Nat.add_zero]
      exact hp3
    have q4 : getByte q ((x4 - minX) + (maxY - minY) * (maxX - minX + 1)) ≠ m := by
      rw [hcpix (x4 - minX) (maxY - minY) (by omega) (by omega), Nat.add_sub_cancel' x4lo,
        Nat.add_sub_cancel' hy]
      exact hp4
    obtain ⟨b1, b2, b3, b4, hb3, hA2, hB2, hC2, hD2⟩ :=
      scanBounds_of_nonmask q (maxX - minX + 1) (maxY - minY + 1) m
        ⟨0, y1 - minY, by omega, by omega, q1⟩
    have f1 : b1 ≤ 0 := hA2.2 ⟨y1 - minY, by omega, by omega, q1⟩
    have f2 : maxX - minX ≤ b2 := hB2.2 ⟨y2 - minY, by omega, by omega, q2⟩
    obtain ⟨_, f2b, _, _⟩ := hB2.1
    have f3 : b3 ≤ 0 := hC2.2 ⟨x3 - minX, by omega, by omega, q3⟩
    have f4 : maxY - minY ≤ b4 := hD2.2 ⟨x4 - minX, by omega, by omega, q4⟩
    obtain ⟨_, _, f4b, _⟩ := hD2.1
    have g1 : b1 = 0 := by omega
    have g2 : b2 = maxX - minX := by omega
    have g3 : b3 = 0 := by omega
    have g4 : b4 = maxY - minY := by omega
    rw [hb3, g1, g2, g3, g4]
  · have hall : ∀ x y, x < W → y < H → getByte p (x + y * W) = m := by
      intro x y hxW hyH
      by_contra hne
      exact hex ⟨x, y, hxW, hyH, hne⟩
    have hinit := scanBounds_all_mask p W H m hall
    rw [hb] at hinit
    simp only [Bounds.mk.injEq] at hinit
    obtain ⟨e1, e2, e3, e4⟩ := hinit
    have z1 : maxX = 0 := by omega
    have z2 : minX = 0 := by omega
    have z3 : maxY = 0 := by omega
    have z4 : minY = 0 := by omega
    subst z1 z2 z3 z4
    obtain ⟨b1, b2, b3, b4, hb3, k1, k2, k3, k4⟩ := scanBounds_nat q 1 1 m (by omega) (by omega)
    have g1 : b1 = 0 := by omega
    have g2 : b2 = 0 := by omega
    have g3 : b3 = 0 := by omega
    have g4 : b4 = 0 := by omega
    simp only [Nat.sub_self, Nat.zero_add]
    rw [hb3, g1, g2, g3, g4]

/-- Claim C20: cropping is idempotent.  For an allocated 8-bit raster of width `W ≥ 1` and
height `H ≥ 1` (both below 65536 and representable in the `width`/`height` fields, `W * H`
below 2^31, data of `W * H` bytes) and a mask colour `m`, `extractImageSectionMasked`
returns an image `r1`, and `extractImageSectionMasked` of `r1` returns an image `r2` with
the width, the height and the pixel data of `r1`. -/
theorem extractImageSectionMasked_idempotent (host : Host) (image : TImage) (p : List Nat)
    (m : Nat) (hdata : image.data = some p) (_hlen : p.length = image.width * image.height)
    (hm : m < 256) (hW1 : 1 ≤ image.width) (hH1 : 1 ≤ image.height)
    (hW : image.width < 65536) (hH : image.height < 65536)
    (hdimW : image.width < host.dimMod) (hdimH : image.height < host.dimMod)
    (hsz : image.width * image.height < 2 ^ 31) :
    ∃ (r1 r2 : TImage) (d : List Nat),
      extractImageSectionMasked host image m = .ok r1
      ∧ extractImageSectionMasked host r1 m = .ok r2
      ∧ r2.width = r1.width ∧ r2.height = r1.height
      ∧ r1.data = some d ∧ r2.data = some d := by
  obtain ⟨minX, maxX, minY, maxY, hb, hx1, hx2, hy1, hy2⟩ :=
    scanBounds_nat p image.width image.height m hW1 hH1
  by_cases hcond : maxX < minX ∨ maxY < minY
  · -- the image itself is returned, both times
    have hc : (scanBounds p image.width image.height m).maxX
          < (scanBounds p image.width image.height m).minX
        ∨ (scanBounds p image.width image.height m).maxY
          < (scanBounds p image.width image.height m).minY := by
      rw [hb]
      dsimp only
      rcases hcond with h | h
      · exact Or.inl (by exact_mod_cast h)
      · exact Or.inr (by exact_mod_cast h)
    have hres := extractImageSectionMasked_of_empty host image p m hdata hm hc
    exact ⟨image, image, p, hres, hres, rfl, rfl, hdata, hdata⟩
  · -- a new pixmap on the box is returned; its scan finds the whole pixmap
    have hxle : minX ≤ maxX := by omega
    have hyle : minY ≤ maxY := by omega
    have hres := extractImageSectionMasked_of_bounds host image p m minX maxX minY maxY
      hdata hm hb hxle hyle hx2 hy2 hW hH hdimW hdimH hsz
    obtain ⟨clen, cin, _⟩ := copyLoop_spec
      (fillBlock host.heapJunk ((maxX - minX + 1) * (maxY - minY + 1)) []) p
      (maxX - minX + 1) image.width 0 0 minX minY (maxX - minX + 1) (maxY - minY + 1)
      (by omega) (by rw [length_fillBlock, Nat.zero_add, Nat.mul_comm])
    rw [length_fillBlock] at clen
    have hpix : ∀ i j, i < maxX - minX + 1 → j < maxY - minY + 1 →
        (copyLoop (fillBlock host.heapJunk ((maxX - minX + 1) * (maxY - minY + 1)) [])
          (maxX - minX + 1) ((0 : Nat) : Int) ((0 : Nat) : Int) p image.width
          (minX : Int) (minY : Int) (maxX - minX + 1) (maxY - minY + 1))[
            i + j * (maxX - minX + 1)]?
          = some (getByte p (minX + i + (minY + j) * image.width)) := by
      intro i j hi hj
      have h := cin i j hi hj
      rw [Nat.add_zero, Nat.add_zero, Nat.add_comm i minX, Nat.add_comm j minY] at h
      exact h
    have hb2 := scanBounds_crop p _ image.width image.height m minX maxX minY maxY hW1 hb
      hxle hyle hpix
    have hle : (maxX - minX + 1) * (maxY - minY + 1) ≤ image.width * image.height :=
      Nat.mul_le_mul (by omega) (by omega)
    have ew : maxX - minX - 0 + 1 = maxX - minX + 1 := by omega
    have eh : maxY - minY - 0 + 1 = maxY - minY + 1 := by omega
    have hres2 := extractImageSectionMasked_of_bounds host
      { width := maxX - minX + 1, height := maxY - minY + 1, bitWidth := 8, colors := 0,
        data := some (copyLoop
          (fillBlock host.heapJunk ((maxX - minX + 1) * (maxY - minY + 1)) [])
          (maxX - minX + 1) ((0 : Nat) : Int) ((0 : Nat) : Int) p image.width
          (minX : Int) (minY : Int) (maxX - minX + 1) (maxY - minY + 1)),
        palt := none }
      _ m 0 (maxX - minX) 0 (maxY - minY) rfl hm hb2 (by omega) (by omega)
      (by show maxX - minX < maxX - minX + 1; omega)
      (by show maxY - minY < maxY - minY + 1; omega)
      (by show maxX - minX + 1 < 65536; omega)
      (by show maxY - minY + 1 < 65536; omega)
      (by show maxX - minX + 1 < host.dimMod; omega)
      (by show maxY - minY + 1 < host.dimMod; omega)
      (by show (maxX - minX + 1) * (maxY - minY + 1) < 2 ^ 31; omega)
    rw [ew, eh] at hres2
    dsimp only at hres2
    rw [copyLoop_self _ _ _ _ clen (length_fillBlock _ _ _)] at hres2
    exact ⟨_, _, _, hres, hres2, rfl, rfl, rfl, rfl⟩

/-- Witness of C20: the 3x3 image with the pixels 5 at `(2, 1)` and 6 at `(1, 2)`. -/
theorem extractImageSectionMasked_idempotent_witness :
    (sampleImage.data = some [0, 0, 0, 0, 0, 5, 0, 6, 0]
      ∧ [0, 0, 0, 0, 0, 5, 0, 6, 0].length = sampleImage.width * sampleImage.height
      ∧ 0 < 256 ∧ 1 ≤ sampleImage.width ∧ 1 ≤ sampleImage.height
      ∧ sampleImage.width < 65536 ∧ sampleImage.height < 65536
      ∧ sampleImage.width < hostLE16.dimMod ∧ sampleImage.height < hostLE16.dimMod
      ∧ sampleImage.width * sampleImage.height < 2 ^ 31) ∧
    ∃ (r1 r2 : TImage) (d : List Nat),
      extractImageSectionMasked hostLE16 sampleImage 0 = .ok r1
      ∧ extractImageSectionMasked hostLE16 r1 0 = .ok r2
      ∧ r2.width = r1.width ∧ r2.height = r1.height
      ∧ r1.data = some d ∧ r2.data = some d :=
  ⟨by decide, extractImageSectionMasked_idempotent hostLE16 sampleImage
    [0, 0, 0, 0, 0, 5, 0, 6, 0] 0 rfl (by decide) (by decide) (by decide) (by decide)
    (by decide) (by decide) (by decide) (by decide) (by decide)⟩

/-- The two crops of the 3x3 sample image, evaluated. -/
theorem extractImageSectionMasked_idempotent_values :
    extractImageSectionMasked hostLE16 sampleImage 0 = .ok croppedSample
      ∧ extractImageSectionMasked hostLE16 croppedSample 0 = .ok croppedSample := by
  decide

end Bmp2Raw
